import Mathlib

/-!
# risc-v_mas: encoder, symbol table and disassembler

A shallow embedding of `risc-v_mas/encode.c`, `risc-v_mas/symtab.c`,
`risc-v_mas/parser.h` and `risc-v_mas/util/disassemble.c`.

Conventions of the embedding.

* A C string is a `String`; the terminating NUL is implicit.
* A value of an unsigned C type is a `Nat` below `2 ^ width`. A value of a
  signed C type is an `Int`. When a signed value takes part in a bitwise
  expression it is promoted to `int` and represented by its 32-bit
  two's-complement pattern (`bits32`); `<<` on `int`/`uint32_t` keeps the low
  32 bits (`shl32`), which is what the compilers the assembler is built with
  do.
* A result of type `Option` is `none` when the C function does not return:
  a failed `assert`, a dereference of `NULL`, a read past the end of a string,
  or a loop that never exits.
-/

namespace Mas

/-! ## C integer conversions -/

/-- Conversion to `uint8_t`. -/
def to_uint8 (x : Int) : Nat := (x % 256).toNat

/-- Conversion to `uint16_t`. -/
def to_uint16 (x : Int) : Nat := (x % 65536).toNat

/-- Conversion to `uint32_t`; also the 32-bit pattern of an `int`. -/
def bits32 (x : Int) : Nat := (x % 4294967296).toNat

/-- Conversion to `int16_t` (wraps modulo `2 ^ 16`). -/
def to_int16 (x : Int) : Int := (x + 32768) % 65536 - 32768

/-- Conversion to `int32_t` (wraps modulo `2 ^ 32`). -/
def to_int32 (x : Int) : Int := (x + 2147483648) % 4294967296 - 2147483648

/-- Left shift `<<` of a 32-bit operand: the low 32 bits of the shifted pattern. -/
def shl32 (x k : Nat) : Nat := (x <<< k) % 4294967296

/-! ## libc string functions used by the sources -/

/-- Whether `strncmp(s1, s2, n) == 0`: the strings agree on their first `n`
characters, a shorter string ending the comparison at its NUL. -/
def strncmp_zero (s1 s2 : String) (n : Nat) : Bool :=
  s1.data.take n == s2.data.take n

/-- The `isspace` of the C locale. -/
def isspace (c : Char) : Bool :=
  c == ' ' || (9 ≤ c.toNat && c.toNat ≤ 13)

/-- Value of a run of decimal digits, most significant first. -/
def digits_value (ds : List Char) : Nat :=
  ds.foldl (fun acc c => 10 * acc + (c.toNat - 48)) 0

/-- The libc `atoi`: optional white space, an optional sign, then the longest run
of decimal digits. (For a literal outside the range of `int` the C result is
undefined; the callers below convert the value to their own type.) -/
def atoi (s : String) : Int :=
  match s.data.dropWhile isspace with
  | '-' :: r => - (digits_value (r.takeWhile Char.isDigit) : Int)
  | '+' :: r => (digits_value (r.takeWhile Char.isDigit) : Int)
  | r => (digits_value (r.takeWhile Char.isDigit) : Int)

/-- Whether a character is a hexadecimal digit. -/
def is_xdigit (c : Char) : Bool :=
  c.isDigit || (97 ≤ c.toNat && c.toNat ≤ 102) || (65 ≤ c.toNat && c.toNat ≤ 70)

/-- Value of one hexadecimal digit. -/
def xdigit_value (c : Char) : Nat :=
  if c.isDigit then c.toNat - 48
  else if 97 ≤ c.toNat then c.toNat - 87
  else c.toNat - 55

/-- Value of a run of hexadecimal digits, most significant first. -/
def xdigits_value (ds : List Char) : Nat :=
  ds.foldl (fun acc c => 16 * acc + xdigit_value c) 0

/-- What `sscanf(s, "0x%x", &rv)` stores in `rv` (initially 0) for a string `s`
that starts with `0x`: after the literal `0x`, the conversion `%x` skips white
space, takes an optional sign and an optional `0x`/`0X` prefix, and reads the
longest run of hexadecimal digits. The value is stored as an `unsigned int`. -/
def sscanf_0x (s : String) : Nat :=
  let body := (s.data.drop 2).dropWhile isspace
  let strip (r : List Char) : List Char :=
    match r with
    | '0' :: 'x' :: c :: t => if is_xdigit c then c :: t else r
    | '0' :: 'X' :: c :: t => if is_xdigit c then c :: t else r
    | _ => r
  match body with
  | '-' :: r => bits32 (- (xdigits_value ((strip r).takeWhile is_xdigit) : Int))
  | '+' :: r => bits32 (xdigits_value ((strip r).takeWhile is_xdigit) : Int)
  | r => bits32 (xdigits_value ((strip r).takeWhile is_xdigit) : Int)

/-- The text `printf` writes for the conversion `%d`. -/
def fmt_d (x : Int) : String :=
  if x < 0 then "-" ++ Nat.repr x.natAbs else Nat.repr x.toNat

/-- What `snprintf(s, size, ...)` leaves in `s` when the formatted text is `out`:
at most `size - 1` characters of it. -/
def snprintf (size : Nat) (out : String) : String :=
  String.mk (out.data.take (size - 1))

/-! ## parser.h -/

/-- The enumeration `linetype` of `parser.h`. -/
inductive linetype where
  | ALIGN | ASCIIZ | DATA | SPACE | TEXT | WORD
  | ADD | ADDI | AND | ANDI | AUIPC | BEQ | BNE | JAL | JALR | LUI | LW
  | OR | ORI | SLT | SLTI | SLL | SLLI | SRA | SRAI | SRL | SRLI | SUB | SW
  | XOR | XORI | ECALL
  | J | LA | LI | MV | NEG | NOP | NOT | RET
  deriving DecidableEq, Repr

/-- The integer value of an enumerator of `linetype`. -/
def linetype.val : linetype → Nat
  | .ALIGN => 0 | .ASCIIZ => 1 | .DATA => 2 | .SPACE => 3 | .TEXT => 4 | .WORD => 5
  | .ADD => 6 | .ADDI => 7 | .AND => 8 | .ANDI => 9 | .AUIPC => 10 | .BEQ => 11
  | .BNE => 12 | .JAL => 13 | .JALR => 14 | .LUI => 15 | .LW => 16 | .OR => 17
  | .ORI => 18 | .SLT => 19 | .SLTI => 20 | .SLL => 21 | .SLLI => 22 | .SRA => 23
  | .SRAI => 24 | .SRL => 25 | .SRLI => 26 | .SUB => 27 | .SW => 28 | .XOR => 29
  | .XORI => 30 | .ECALL => 31
  | .J => 32 | .LA => 33 | .LI => 34 | .MV => 35 | .NEG => 36 | .NOP => 37
  | .NOT => 38 | .RET => 39

/-- `#define NUM_DIRECTIVES (6)`. -/
def NUM_DIRECTIVES : Nat := 6

/-- `#define FIRST_PSEUDOINST (J)`. -/
def FIRST_PSEUDOINST : Nat := linetype.val .J

/-- A `struct line`: its kind, its label (`none` for `NULL`) and its token list,
the mnemonic first. The `next` pointer is the tail of the list the line is in. -/
structure line where
  type : linetype
  label : Option String
  token_listhead : List String
  deriving DecidableEq, Repr

/-! ## symtab.c -/

/-- `#define TBLSZ (255)`. -/
def TBLSZ : Nat := 255

/-- A `struct symbol`; `label = none` is the `NULL` of an empty slot. The C table
keeps the pointer it is given; the embedding keeps the string that pointer
designates when `symtab_add` is called. -/
structure symbol where
  label : Option String
  address : Nat
  deriving DecidableEq, Repr

/-- The array `symtab[TBLSZ]`, indexed by slot. -/
abbrev Symtab := Nat → symbol

/-- The zero-initialised table. -/
def symtab_empty : Symtab := fun _ => { label := none, address := 0 }

/-- The djb2 `hash`: `hash = ((hash << 5) + hash) + c` in `uint32_t`, from 5381
(labels are ASCII, so `c` is the character code). -/
def hash (str : String) : Nat :=
  str.data.foldl (fun h c => (shl32 h 5 + h + c.toNat) % 4294967296) 5381

/-- The probe loop of `symtab_add`, run for at most `fuel` iterations from slot
`hv`: `some none` when a slot matching `lbl` is met (the function returns at
once), `some (some i)` when the loop exits at the empty slot `i`, `none` when
`fuel` iterations did not leave the loop. -/
def add_probe (symtab : Symtab) (lbl : String) : Nat → Nat → Option (Option Nat)
  | 0, _ => none
  | fuel + 1, hv =>
    match (symtab hv).label with
    | none => some (some hv)
    | some l =>
      if strncmp_zero l lbl lbl.length then some none
      else add_probe symtab lbl fuel ((hv + 1) % TBLSZ)

/-- The function `symtab_add`. The probe visits the slots cyclically, so `TBLSZ`
iterations without an exit mean the loop never exits: the result is then `none`. -/
def symtab_add (symtab : Symtab) (lbl : String) (addr : Nat) : Option Symtab :=
  match add_probe symtab lbl TBLSZ (hash lbl % TBLSZ) with
  | none => none
  | some none => some symtab
  | some (some hv) =>
    some (fun i => if i = hv then { label := some lbl, address := addr } else symtab i)

/-- The probe loop of `symtab_find_address`, run for at most `fuel` iterations:
`some a` is the returned value (0 when an empty slot ends the probe), `none`
means that `fuel` iterations did not leave the loop. -/
def find_probe (symtab : Symtab) (lbl : String) : Nat → Nat → Option Nat
  | 0, _ => none
  | fuel + 1, hv =>
    match (symtab hv).label with
    | none => some 0
    | some l =>
      if strncmp_zero l lbl lbl.length then some (symtab hv).address
      else find_probe symtab lbl fuel ((hv + 1) % TBLSZ)

/-- The function `symtab_find_address`; `none` when the probe never exits. -/
def symtab_find_address (symtab : Symtab) (lbl : String) : Option Nat :=
  find_probe symtab lbl TBLSZ (hash lbl % TBLSZ)

/-! ## encode.c: field tables and operand parsing -/

/-- The function `get_opcode`; `0xff` is the value left by the `default` case. -/
def get_opcode (insn : line) : Nat :=
  match insn.type with
  | .LW => 0x03
  | .ADDI | .SLLI | .SLTI | .XORI | .SRLI | .SRAI | .ORI | .ANDI => 0x13
  | .AUIPC => 0x17
  | .SW => 0x23
  | .ADD | .SUB | .SLL | .XOR | .SRL | .SRA | .OR | .AND => 0x33
  | .LUI => 0x37
  | .BEQ | .BNE => 0x63
  | .JALR => 0x67
  | .JAL => 0x6F
  | .ECALL => 0x73
  | _ => 0xff

/-- The function `get_funct3`; `0xff` is the value left by the `default` case. -/
def get_funct3 (insn : line) : Nat :=
  match insn.type with
  | .ADD | .ADDI | .SUB | .BEQ | .JALR | .ECALL => 0x0
  | .SLL | .SLLI | .BNE => 0x1
  | .LW | .SW | .SLT | .SLTI => 0x2
  | .XOR | .XORI => 0x4
  | .SRL | .SRLI | .SRA | .SRAI => 0x5
  | .OR | .ORI => 0x6
  | .AND | .ANDI => 0x7
  | _ => 0xff

/-- The function `get_funct7`; `0xff` is the value left by the `default` case. -/
def get_funct7 (insn : line) : Nat :=
  match insn.type with
  | .ADD | .AND | .OR | .SLL | .SLLI | .SLT | .SRL | .XOR | .ECALL => 0x0
  | .SRA | .SRAI | .SUB => 0x20
  | _ => 0xff

/-- The table `regnames` of `get_reg`. -/
def regnames : List String :=
  ["zero", "ra", "sp", "gp", "tp", "t0", "t1", "t2", "s0", "s1",
   "a0", "a1", "a2", "a3", "a4", "a5", "a6", "a7",
   "s2", "s3", "s4", "s5", "s6", "s7", "s8", "s9", "s10", "s11",
   "t3", "t4", "t5", "t6"]

/-- The function `get_reg` of `encode.c`: `xN` gives `(uint8_t)atoi(N)`, a name
starting with `fp` gives 8, otherwise the first index `i < 31` whose table name
agrees with `name` on four characters, and 0 when there is none. -/
def get_reg (name : String) : Nat :=
  if name.data.head? = some 'x' then to_uint8 (atoi (String.mk (name.data.drop 1)))
  else if strncmp_zero name "fp" 2 then 8
  else
    match (List.range 31).find? (fun i => strncmp_zero name (regnames.getD i "") 4) with
    | some i => i
    | none => 0

/-- The function `get_imm` of `encode.c`: a `0x` literal is read by `sscanf`, a
`0b` literal is summed digit by digit (`rv += b << (len-i-1)`), anything else
goes to `atoi`. The result is an `int32_t`. (A `0b` literal of more than 34
characters shifts by 32 or more, which C leaves undefined; `shl32` then gives
the low 32 bits of the exact shift.) -/
def get_imm (s : String) : Int :=
  if s.data.head? = some '0' ∧ s.data.get? 1 = some 'x' then
    to_int32 (sscanf_0x s)
  else if s.data.head? = some '0' ∧ s.data.get? 1 = some 'b' then
    let len := s.length
    to_int32 (((s.data.drop 2).enum.foldl
      (fun rv p => (rv + shl32 (bits32 ((p.2.toNat : Int) - 48)) (len - (p.1 + 2) - 1)) % 4294967296)
      0 : Nat) : Int)
  else to_int32 (atoi s)

/-- The scan `while (*++base != '(');` over the characters from `base + 1` on:
the characters passed over and those after the first `(`; `none` when the
string ends before a `(` is met. -/
def scan_paren : List Char → Option (List Char × List Char)
  | [] => none
  | c :: cs =>
    if c = '(' then some ([], cs)
    else
      match scan_paren cs with
      | none => none
      | some (skipped, rest) => some (c :: skipped, rest)

/-- The splitting of a memory operand `off(base)` in `encode_i_fmt` and
`encode_s_fmt`, for a token whose last character is `)`: `base` is advanced
from the second character to the first `(`, which is overwritten by NUL, and
the last character of the rest is dropped. The result is `(off, base)`. -/
def split_mem_operand (token : String) : Option (String × String) :=
  match token.data with
  | [] => none
  | c :: cs =>
    match scan_paren cs with
    | none => none
    | some (skipped, rest) => some (String.mk (c :: skipped), String.mk rest.dropLast)

/-- Whether `token[strlen(token)-1] == ')'`; `none` for the empty string, where
the index is out of bounds. -/
def ends_with_paren (token : String) : Option Bool :=
  match token.data.getLast? with
  | none => none
  | some c => some (c == ')')

/-! ## encode.c: the format encoders -/

/-- The function `encode_r_fmt`: operands `rd, rs1, rs2`. -/
def encode_r_fmt (insn : line) (_pc : Nat) : Option Nat :=
  match insn.token_listhead with
  | [_, t1, t2, t3] =>
    let rd := get_reg t1
    let rs1 := get_reg t2
    let rs2 := get_reg t3
    let funct7 := get_funct7 insn
    let funct3 := get_funct3 insn
    let opcode := get_opcode insn
    some (shl32 funct7 25 ||| shl32 rs2 20 ||| shl32 rs1 15 ||| shl32 funct3 12
      ||| shl32 rd 7 ||| opcode)
  | _ => none

/-- The tail of `encode_i_fmt`, after the operands are read: the shift
discriminant `imm |= get_funct7(insn)<<5` for `slli`/`srli`/`srai`, then
`iw = (imm<<20) | (rs1 << 15) | (funct3 << 12) | (rd << 7) | opcode`
with `imm` an `int16_t`. -/
def i_fmt_word (insn : line) (rd rs1 : Nat) (imm : Int) : Nat :=
  let imm : Int :=
    if insn.type = .SLLI ∨ insn.type = .SRLI ∨ insn.type = .SRAI then
      to_int16 ((bits32 imm ||| shl32 (get_funct7 insn) 5 : Nat) : Int)
    else imm
  let funct3 := get_funct3 insn
  let opcode := get_opcode insn
  shl32 (bits32 imm) 20 ||| shl32 rs1 15 ||| shl32 funct3 12 ||| shl32 rd 7 ||| opcode

/-- The function `encode_i_fmt`: operands `rd, rs1, imm` or `rd, imm(rs1)`, the
second form being taken when the second operand ends in `)`. -/
def encode_i_fmt (insn : line) (_pc : Nat) : Option Nat :=
  match insn.token_listhead with
  | _ :: t1 :: t2 :: rest =>
    let rd := get_reg t1
    match ends_with_paren t2 with
    | none => none
    | some true =>
      match split_mem_operand t2 with
      | none => none
      | some (off, base) =>
        let rs1 := get_reg base
        let imm := to_int16 (get_imm off)
        if rest = [] then some (i_fmt_word insn rd rs1 imm) else none
    | some false =>
      match rest with
      | [t3] =>
        let rs1 := get_reg t2
        let imm := to_int16 (get_imm t3)
        some (i_fmt_word insn rd rs1 imm)
      | _ => none
  | _ => none

/-- The function `encode_env` (`ecall`). -/
def encode_env (insn : line) (_pc : Nat) : Option Nat :=
  if insn.type = .ECALL then
    let funct3 := get_funct3 insn
    let opcode := get_opcode insn
    let imm := to_uint16 (shl32 (get_funct7 insn) 5 : Nat)
    some (shl32 imm 20 ||| shl32 0 15 ||| shl32 funct3 12 ||| shl32 0 7 ||| opcode)
  else none

/-- The function `encode_sb_fmt`: operands `rs1, rs2, label`. A lookup that
returns 0 makes the function return 0. -/
def encode_sb_fmt (symtab : Symtab) (insn : line) (pc : Nat) : Option Nat :=
  match insn.token_listhead with
  | _ :: t1 :: t2 :: t3 :: rest =>
    let rs1 := get_reg t1
    let rs2 := get_reg t2
    match symtab_find_address symtab t3 with
    | none => none
    | some branch_target =>
      if branch_target = 0 then some 0
      else if rest = [] then
        let funct3 := get_funct3 insn
        let opcode := get_opcode insn
        let imm := bits32 (to_int16 (to_int32 branch_target - to_int32 pc))
        some (shl32 (((imm &&& (1 <<< 12)) >>> 6) ||| ((imm &&& 0x7e0) >>> 5)) 25
          ||| shl32 rs2 20
          ||| shl32 rs1 15
          ||| shl32 funct3 12
          ||| shl32 ((imm &&& 0x1e) ||| ((imm &&& (1 <<< 11)) >>> 11)) 7
          ||| opcode)
      else none
  | _ => none

/-- The function `encode_u_fmt`: operands `rd, imm`;
`iw = (imm&~(0xfffU)) | (rd<<7) | opcode`. -/
def encode_u_fmt (insn : line) (_pc : Nat) : Option Nat :=
  match insn.token_listhead with
  | [_, t1, t2] =>
    let rd := get_reg t1
    let imm := get_imm t2
    let opcode := get_opcode insn
    some ((bits32 imm &&& 0xfffff000) ||| shl32 rd 7 ||| opcode)
  | _ => none

/-- The function `encode_uj_fmt`: operands `rd, label`. A lookup that returns 0
makes the function return 0. -/
def encode_uj_fmt (symtab : Symtab) (insn : line) (pc : Nat) : Option Nat :=
  match insn.token_listhead with
  | _ :: t1 :: t2 :: rest =>
    let rd := get_reg t1
    match symtab_find_address symtab t2 with
    | none => none
    | some jump_target =>
      if jump_target = 0 then some 0
      else if rest = [] then
        let opcode := get_opcode insn
        let imm := bits32 (to_int32 (to_int32 jump_target - to_int32 pc))
        some (shl32 ((imm &&& (1 <<< 20)) ||| shl32 (imm &&& 0x7fe) 8
            ||| ((imm &&& (1 <<< 11)) >>> 4) ||| ((imm &&& 0xff000) >>> 12)) 12
          ||| shl32 rd 7 ||| opcode)
      else none
  | _ => none

/-- The function `encode_s_fmt`: operands `rs2, imm(rs1)`; any second operand
that does not end in `)` makes the function return 0. -/
def encode_s_fmt (insn : line) (_pc : Nat) : Option Nat :=
  match insn.token_listhead with
  | _ :: t1 :: t2 :: rest =>
    let rs2 := get_reg t1
    match ends_with_paren t2 with
    | none => none
    | some false => some 0
    | some true =>
      match split_mem_operand t2 with
      | none => none
      | some (off, base) =>
        let rs1 := get_reg base
        let imm := bits32 (to_int16 (get_imm off))
        if rest = [] then
          let funct3 := get_funct3 insn
          let opcode := get_opcode insn
          some (shl32 (imm &&& 0xffffffe0) 20 ||| shl32 rs2 20 ||| shl32 rs1 15
            ||| shl32 funct3 12 ||| shl32 (imm &&& 0x1f) 7 ||| opcode)
        else none
  | _ => none

/-- The function `encode_insn`: dispatch on the kind of a base instruction; 0
for any other kind. -/
def encode_insn (symtab : Symtab) (insn : line) (pc : Nat) : Option Nat :=
  match insn.type with
  | .ADD | .AND | .OR | .SLL | .SLT | .SRA | .SRL | .SUB | .XOR => encode_r_fmt insn pc
  | .ADDI | .ANDI | .JALR | .LW | .ORI | .SLLI | .SLTI | .SRAI | .SRLI | .XORI =>
    encode_i_fmt insn pc
  | .ECALL => encode_env insn pc
  | .AUIPC | .LUI => encode_u_fmt insn pc
  | .BEQ | .BNE => encode_sb_fmt symtab insn pc
  | .JAL => encode_uj_fmt symtab insn pc
  | .SW => encode_s_fmt insn pc
  | _ => some 0

/-! ## encode.c: pseudo-instructions and the two passes -/

/-- The text segment as the encoder writes it: the 32-bit word stored at each
byte offset (every store of the encoder is `*((uint32_t*)text) = iw`). -/
abbrev TextSeg := Nat → Nat

/-- The store `*((uint32_t*)text) = iw` at byte offset `tp`. -/
def store_word (text : TextSeg) (tp iw : Nat) : TextSeg :=
  fun i => if i = tp then iw else text i

/-- The split of `la` and `li` in `encode_pseudo_insn`, from the 32-bit value
`imm_long`: `imm_short = imm_long & 0xfff; imm_long >>= 12;
if (imm_short & 1<<11) imm_long++;`. The result is `(imm_long, imm_short)`. -/
def hi_lo_split (imm_long : Nat) : Nat × Nat :=
  let imm_short := to_uint16 ((imm_long &&& 0xfff : Nat) : Int)
  let imm_long := imm_long >>> 12
  if imm_short &&& (1 <<< 11) ≠ 0 then ((imm_long + 1) % 4294967296, imm_short)
  else (imm_long, imm_short)

/-- The two stores shared by `la` and `li`: first
`(imm_long<<12) | (rd<<7) | opcode` with the opcode of `first`, then the `addi`
word `(imm_short<<20) | (rs1 << 15) | (funct3 << 12) | (rd << 7) | opcode`
four bytes further. -/
def store_hi_lo (first : linetype) (rd : Nat) (imm : Nat × Nat) (text : TextSeg) (tp : Nat) :
    TextSeg :=
  let real_insn : line := { type := first, label := none, token_listhead := [] }
  let opcode := get_opcode real_insn
  let iw := shl32 imm.1 12 ||| shl32 rd 7 ||| opcode
  let text := store_word text tp iw
  let real_insn : line := { type := .ADDI, label := none, token_listhead := [] }
  let rs1 := rd
  let opcode := get_opcode real_insn
  let funct3 := get_funct3 real_insn
  let iw := shl32 imm.2 20 ||| shl32 rs1 15 ||| shl32 funct3 12 ||| shl32 rd 7 ||| opcode
  store_word text (tp + 4) iw

/-- The function `encode_pseudo_insn`: the number of bytes it returns and the
text segment after its stores; `text` is written at byte offset `tp`. -/
def encode_pseudo_insn (symtab : Symtab) (insn : line) (offset addr : Nat)
    (text : TextSeg) (tp : Nat) : Option (Nat × TextSeg) :=
  let pc := (offset + addr) % 4294967296
  let emit (r : Option Nat) : Option (Nat × TextSeg) :=
    r.map (fun iw => (4, store_word text tp iw))
  match insn.token_listhead with
  | [] => none
  | _ :: toks =>
    match insn.type, toks with
    | .J, t :: _ =>
      emit (encode_uj_fmt symtab
        { type := .JAL, label := none, token_listhead := ["jal", "x0", t] } pc)
    | .LA, t1 :: t2 :: rest =>
      let rd := get_reg t1
      match symtab_find_address symtab t2 with
      | none => none
      | some address =>
        if address = 0 then some (0, text)
        else if rest = [] then
          let imm_long := bits32 (to_int32 address - to_int32 ((addr + offset) % 4294967296))
          some (8, store_hi_lo .AUIPC rd (hi_lo_split imm_long) text tp)
        else none
    | .LI, [t1, t2] =>
      let rd := get_reg t1
      let imm_long := bits32 (get_imm t2)
      some (8, store_hi_lo .LUI rd (hi_lo_split imm_long) text tp)
    | .MV, t1 :: t2 :: _ =>
      emit (encode_i_fmt
        { type := .ADDI, label := none, token_listhead := ["addi", t1, t2, "0"] } pc)
    | .NEG, t1 :: t2 :: _ =>
      emit (encode_r_fmt
        { type := .SUB, label := none, token_listhead := ["sub", t1, "x0", t2] } pc)
    | .NOP, _ =>
      emit (encode_i_fmt
        { type := .ADDI, label := none, token_listhead := ["addi", "x0", "x0", "0"] } pc)
    | .NOT, t1 :: t2 :: _ =>
      emit (encode_i_fmt
        { type := .XORI, label := none, token_listhead := ["xori", t1, t2, "-1"] } pc)
    | .RET, _ =>
      emit (encode_i_fmt
        { type := .JALR, label := none, token_listhead := ["jalr", "x0", "0(ra)"] } pc)
    | .J, _ | .LA, _ | .LI, _ | .MV, _ | .NEG, _ | .NOT, _ => none
    | _, _ => some (0, text)

/-- The registration of a line's label in both passes:
`curr->label[strlen(curr->label)-1] = 0; symtab_add(curr->label, addr+offset);`
(nothing for a line without a label; no result for an empty label, whose last
character does not exist). -/
def register_label (symtab : Symtab) (curr : line) (offset addr : Nat) : Option Symtab :=
  match curr.label with
  | none => some symtab
  | some l =>
    if l.length = 0 then none
    else symtab_add symtab (String.mk l.data.dropLast) ((addr + offset) % 4294967296)

/-- The loop of `encode_text_first_pass` from the line list `curr :: next`, with
the cursor `addr`: the symbol table and the cursor at the exit of the loop. -/
def first_pass_loop : List line → Symtab → Nat → Option (Symtab × Nat)
  | [], symtab, addr => some (symtab, addr)
  | curr :: next, symtab, addr =>
    match register_label symtab curr 0x00400000 addr with
    | none => none
    | some symtab =>
      if curr.type = .TEXT then first_pass_loop next symtab addr
      else if curr.type.val ≥ NUM_DIRECTIVES then
        first_pass_loop next symtab ((addr + 4) % 4294967296)
      else some (symtab, addr)

/-- The function `encode_text_first_pass` on the lines from `text_start` on. -/
def encode_text_first_pass (text_start : List line) (symtab : Symtab) : Option (Symtab × Nat) :=
  match text_start with
  | [] => none
  | curr :: _ => if curr.type = .TEXT then first_pass_loop text_start symtab 0 else none

/-- The loop of `encode_text_second_pass`: the text segment, the offset `tp` of
the pointer `text` and the cursor `addr` at the exit of the loop. -/
def second_pass_loop (symtab : Symtab) : List line → TextSeg → Nat → Nat →
    Option (TextSeg × Nat × Nat)
  | [], text, tp, addr => some (text, tp, addr)
  | curr :: next, text, tp, addr =>
    if curr.type = .TEXT then second_pass_loop symtab next text tp addr
    else if curr.type.val < NUM_DIRECTIVES then some (text, tp, addr)
    else if curr.type.val < FIRST_PSEUDOINST then
      match encode_insn symtab curr ((0x00400000 + addr) % 4294967296) with
      | none => none
      | some iw =>
        second_pass_loop symtab next (store_word text tp iw) (tp + 4)
          ((addr + 4) % 4294967296)
    else
      match encode_pseudo_insn symtab curr 0x00400000 addr text tp with
      | none => none
      | some (r, text) =>
        let bytes := to_uint8 (r : Int)
        second_pass_loop symtab next text (tp + bytes) ((addr + bytes) % 4294967296)

/-- The function `encode_text_second_pass` on the lines from `text_start` on. -/
def encode_text_second_pass (symtab : Symtab) (text_start : List line) (text : TextSeg) :
    Option (TextSeg × Nat × Nat) :=
  match text_start with
  | [] => none
  | curr :: _ =>
    if curr.type = .TEXT then second_pass_loop symtab text_start text 0 0 else none

/-! ## encode.c: the data segment -/

/-- The data segment as `encode_data` writes it: the byte stored at each
offset. -/
abbrev DataSeg := Nat → Nat

/-- The store `data[i] = b` of a `uint8_t`. -/
def store_byte (data : DataSeg) (i b : Nat) : DataSeg :=
  fun j => if j = i then b else data j

/-- The 32-bit pattern of `~x`. -/
def not32 (x : Nat) : Nat := 4294967295 - x % 4294967296

/-- The number of iterations after which a loop that steps a `uint32_t` by one
has visited every value. -/
def UINT32_STEPS : Nat := 4294967296

/-- The loop `while (addr != next_addr) data[addr++] = 0;` of the `ALIGN` case,
run for at most `fuel` tests of its condition; `none` when they did not leave
the loop. -/
def align_loop (next_addr : Nat) : Nat → DataSeg → Nat → Option (DataSeg × Nat)
  | 0, _, _ => none
  | fuel + 1, data, addr =>
    if addr ≠ next_addr then
      align_loop next_addr fuel (store_byte data addr 0) ((addr + 1) % 4294967296)
    else some (data, addr)

/-- The case `ALIGN` of `encode_data`: `n = atoi(token)`,
`next_addr = ((addr + (1<<n)-1) & ~((1<<n)-1))`, then the loop. A shift count
outside `0..31` is undefined in C and gives no result here. -/
def data_align (tok : String) (data : DataSeg) (addr : Nat) : Option (DataSeg × Nat) :=
  let n := to_int32 (atoi tok)
  if 0 ≤ n ∧ n < 32 then
    let p := shl32 1 n.toNat
    let next_addr := ((addr + p + 4294967295) % 4294967296)
      &&& not32 ((p + 4294967295) % 4294967296)
    align_loop next_addr (UINT32_STEPS + 1) data addr
  else none

/-- The loop `while (*c != '"')` of the `ASCIIZ` case over the characters from
`c` on (the NUL that ends the token is the end of the list), one iteration
for each unfolding: up to four characters are stored at `addr+3`, `addr+2`,
`addr+1`, `addr`, the rest of the word is zeroed when the closing quote is met
(`data[addr]` first, as the chained assignment does), and a quote that follows
a full word stores one more zero. There is no result when the token ends
before a closing quote: the loop then reads past the NUL. -/
def asciiz_loop : List Char → DataSeg → Nat → Option (DataSeg × Nat)
  | [], _, _ => none
  | c1 :: r1, data, addr =>
    if c1 = '"' then some (data, addr)
    else
      match r1 with
      | [] => none
      | c2 :: r2 =>
        if c2 = '"' then
          some (store_byte (store_byte (store_byte
            (store_byte data ((addr + 3) % 4294967296) (c1.toNat % 256))
            addr 0) ((addr + 1) % 4294967296) 0) ((addr + 2) % 4294967296) 0,
            (addr + 4) % 4294967296)
        else
          match r2 with
          | [] => none
          | c3 :: r3 =>
            if c3 = '"' then
              some (store_byte (store_byte (store_byte
                (store_byte data ((addr + 3) % 4294967296) (c1.toNat % 256))
                ((addr + 2) % 4294967296) (c2.toNat % 256))
                addr 0) ((addr + 1) % 4294967296) 0,
                (addr + 4) % 4294967296)
            else
              match r3 with
              | [] => none
              | c4 :: r4 =>
                if c4 = '"' then
                  some (store_byte (store_byte (store_byte
                    (store_byte data ((addr + 3) % 4294967296) (c1.toNat % 256))
                    ((addr + 2) % 4294967296) (c2.toNat % 256))
                    ((addr + 1) % 4294967296) (c3.toNat % 256))
                    addr 0,
                    (addr + 4) % 4294967296)
                else
                  match r4 with
                  | [] => none
                  | c5 :: r5 =>
                    if c5 = '"' then
                      some (store_byte (store_byte (store_byte (store_byte
                        (store_byte data ((addr + 3) % 4294967296) (c1.toNat % 256))
                        ((addr + 2) % 4294967296) (c2.toNat % 256))
                        ((addr + 1) % 4294967296) (c3.toNat % 256))
                        addr (c4.toNat % 256))
                        ((addr + 4) % 4294967296) 0,
                        ((addr + 4) % 4294967296 + 1) % 4294967296)
                    else
                      asciiz_loop (c5 :: r5)
                        (store_byte (store_byte (store_byte
                          (store_byte data ((addr + 3) % 4294967296) (c1.toNat % 256))
                          ((addr + 2) % 4294967296) (c2.toNat % 256))
                          ((addr + 1) % 4294967296) (c3.toNat % 256))
                          addr (c4.toNat % 256))
                        ((addr + 4) % 4294967296)

/-- The loop `while (addr%4 != 0) data[addr++] = 0;` that ends the `ASCIIZ`
case, run for at most `fuel` tests of its condition. -/
def pad_loop : Nat → DataSeg → Nat → Option (DataSeg × Nat)
  | 0, _, _ => none
  | fuel + 1, data, addr =>
    if addr % 4 ≠ 0 then pad_loop fuel (store_byte data addr 0) ((addr + 1) % 4294967296)
    else some (data, addr)

/-- The case `ASCIIZ` of `encode_data`: `assert(*c++ == '"')`, the loop over the
characters, then the padding (which ends within four tests). -/
def data_asciiz (tok : String) (data : DataSeg) (addr : Nat) : Option (DataSeg × Nat) :=
  match tok.data with
  | '"' :: c =>
    match asciiz_loop c data addr with
    | none => none
    | some (data, addr) => pad_loop 4 data addr
  | _ => none

/-- The loop `for (i = 0; i < n; i++) data[addr++] = 0;` of the `SPACE` case,
by the number of iterations left. -/
def space_loop : Nat → DataSeg → Nat → DataSeg × Nat
  | 0, data, addr => (data, addr)
  | n + 1, data, addr =>
    space_loop n (store_byte data addr 0) ((addr + 1) % 4294967296)

/-- The loop over the tokens of the `WORD` case: `w = (uint32_t)atoi(token)` is
stored as `(w >> 24) & 0xff`, `(w >> 16) & 0xff`, `(w >> 8) & 0xff`,
`w & 0xff`, each by `data[addr++]`. -/
def word_loop : List String → DataSeg → Nat → DataSeg × Nat
  | [], data, addr => (data, addr)
  | tok :: next, data, addr =>
    let w := bits32 (atoi tok)
    let data := store_byte data addr ((w >>> 24) &&& 0xff)
    let addr := (addr + 1) % 4294967296
    let data := store_byte data addr ((w >>> 16) &&& 0xff)
    let addr := (addr + 1) % 4294967296
    let data := store_byte data addr ((w >>> 8) &&& 0xff)
    let addr := (addr + 1) % 4294967296
    let data := store_byte data addr (w &&& 0xff)
    let addr := (addr + 1) % 4294967296
    word_loop next data addr

/-- The loop over the lines of `encode_data`, from the line list `curr :: next`
with the cursor `addr`: the symbol table, the data segment and the cursor at
the label `out`, reached at the end of the list, at a `TEXT` line or at a line
of another kind. -/
def encode_data_loop : List line → Symtab → DataSeg → Nat → Option (Symtab × DataSeg × Nat)
  | [], symtab, data, addr => some (symtab, data, addr)
  | curr :: next, symtab, data, addr =>
    match register_label symtab curr 0x10000000 addr with
    | none => none
    | some symtab =>
      match curr.type with
      | .ALIGN =>
        match curr.token_listhead with
        | _ :: tok :: _ =>
          match data_align tok data addr with
          | none => none
          | some (data, addr) => encode_data_loop next symtab data addr
        | _ => none
      | .ASCIIZ =>
        match curr.token_listhead with
        | _ :: tok :: _ =>
          match data_asciiz tok data addr with
          | none => none
          | some (data, addr) => encode_data_loop next symtab data addr
        | _ => none
      | .DATA => encode_data_loop next symtab data addr
      | .SPACE =>
        match curr.token_listhead with
        | _ :: tok :: _ =>
          let n := to_int32 (atoi tok)
          let r := space_loop n.toNat data addr
          encode_data_loop next symtab r.1 r.2
        | _ => none
      | .TEXT => some (symtab, data, addr)
      | .WORD =>
        match curr.token_listhead with
        | _ :: toks =>
          let r := word_loop toks data addr
          encode_data_loop next symtab r.1 r.2
        | [] => none
      | _ => some (symtab, data, addr)

/-- The loop `while (addr < 4*DATA_SEGMENT_WORDS) data[addr++] = 0;` that
zero-initialises the remainder, run for at most `fuel` tests of its
condition. -/
def fill_loop (limit : Nat) : Nat → DataSeg → Nat → Option (DataSeg × Nat)
  | 0, _, _ => none
  | fuel + 1, data, addr =>
    if addr < limit then
      fill_loop limit fuel (store_byte data addr 0) ((addr + 1) % 4294967296)
    else some (data, addr)

/-- The function `encode_data` on the lines from `data_start` on. The macro
`DATA_SEGMENT_WORDS` is defined outside the sources at hand and is a
parameter. The result is the symbol table, the data segment and the final
cursor. -/
def encode_data (DATA_SEGMENT_WORDS : Nat) (data_start : List line) (symtab : Symtab)
    (data : DataSeg) : Option (Symtab × DataSeg × Nat) :=
  match data_start with
  | [] => none
  | curr :: _ =>
    if curr.type = .DATA then
      match encode_data_loop data_start symtab data 0 with
      | none => none
      | some (symtab, data, addr) =>
        match fill_loop ((4 * DATA_SEGMENT_WORDS) % 4294967296) (UINT32_STEPS + 1) data addr with
        | none => none
        | some (data, addr) => some (symtab, data, addr)
    else none

/-! ## util/disassemble.c -/

namespace Dis

/-- The function `decode_operation` of the disassembler. -/
def decode_operation (opcode funct3 funct7 : Nat) : String :=
  match opcode with
  | 0x3 => if funct3 = 0x2 then "lw" else "unknown"
  | 0x13 =>
    match funct3 with
    | 0x0 => "addi"
    | 0x1 => if funct7 = 0 then "slli" else "unknown"
    | 0x2 => "slti"
    | 0x4 => "xori"
    | 0x5 => if funct7 = 0 then "srli" else if funct7 = 0x20 then "srai" else "unknown"
    | 0x6 => "ori"
    | 0x7 => "andi"
    | _ => "unknown"
  | 0x17 => "auipc"
  | 0x23 => if funct3 = 0x2 then "sw" else "unknown"
  | 0x33 =>
    match funct3 with
    | 0x0 => if funct7 = 0 then "add" else if funct7 = 0x20 then "sub" else "unknown"
    | 0x1 => if funct7 = 0 then "sll" else "unknown"
    | 0x2 => if funct7 = 0 then "slt" else "unknown"
    | 0x4 => if funct7 = 0 then "xor" else "unknown"
    | 0x5 => if funct7 = 0 then "srl" else if funct7 = 0x20 then "sra" else "unknown"
    | 0x6 => if funct7 = 0 then "or" else "unknown"
    | 0x7 => if funct7 = 0 then "and" else "unknown"
    | _ => "unknown"
  | 0x37 => "lui"
  | 0x63 =>
    match funct3 with
    | 0x0 => "beq"
    | 0x1 => "bne"
    | _ => "unknown"
  | 0x67 => if funct3 = 0 then "jalr" else "unknown"
  | 0x6F => "jal"
  | 0x73 => if funct3 = 0 ∧ funct7 = 0 then "ecall" else "unknown"
  | _ => "unknown"

/-- The mnemonic `decode` prints for a word: `decode_operation` on
`word&0x7f`, `(word>>12)&0x7` and `(word>>25)&0x7f`. -/
def decode_mnemonic (word : Nat) : String :=
  decode_operation (word &&& 0x7f) ((word >>> 12) &&& 0x7) ((word >>> 25) &&& 0x7f)

/-- The function `get_reg_name`: the table is the one of `get_reg` in
`encode.c`; the `assert(reg_idx < 32)` fails for any other index. -/
def get_reg_name (reg_idx : Nat) : Option String :=
  if reg_idx < 32 then regnames.get? reg_idx else none

/-- The function `get_rs1`. -/
def get_rs1 (iw : Nat) : Nat := (iw >>> 15) &&& 0x1f

/-- The function `get_rs2`. -/
def get_rs2 (iw : Nat) : Nat := (iw >>> 20) &&& 0x1f

/-- The function `get_rd`. -/
def get_rd (iw : Nat) : Nat := (iw >>> 7) &&& 0x1f

/-- The value of `(int32_t)iw >> k`, an arithmetic shift. -/
def sar32 (iw k : Nat) : Int := to_int32 iw / 2 ^ k

/-- The function `get_imm` of the disassembler: `(int32_t)iw >> 20` as an
`int16_t`. -/
def get_imm (iw : Nat) : Int := to_int16 (sar32 iw 20)

/-- The function `get_lw_operands`: `"%s, %d(%s)"`. -/
def get_lw_operands (iw : Nat) : Option String :=
  let rs1 := get_rs1 iw
  let rd := get_rd iw
  match get_reg_name rd, get_reg_name rs1 with
  | some nd, some n1 =>
    some (snprintf (4+2+5+6+1) (nd ++ ", " ++ fmt_d (get_imm iw) ++ "(" ++ n1 ++ ")"))
  | _, _ => none

/-- The function `get_i_fmt_operands`: `"%s, %s, %d"`. -/
def get_i_fmt_operands (iw : Nat) : Option String :=
  let rs1 := get_rs1 iw
  let rd := get_rd iw
  match get_reg_name rd, get_reg_name rs1 with
  | some nd, some n1 =>
    some (snprintf (4+2+4+2+5+1) (nd ++ ", " ++ n1 ++ ", " ++ fmt_d (get_imm iw)))
  | _, _ => none

/-- The function `get_s_fmt_operands`: `"%s, %d(%s)"`, with
`imm = (((int32_t)iw >> 20) & ~(0x1f)) | ((iw >> 7) & 0x1f)` held in a
`uint16_t`. -/
def get_s_fmt_operands (iw : Nat) : Option String :=
  let rs1 := get_rs1 iw
  let rs2 := get_rs2 iw
  let imm := to_uint16 (((bits32 (sar32 iw 20) &&& 0xffffffe0) ||| ((iw >>> 7) &&& 0x1f) : Nat) : Int)
  match get_reg_name rs2, get_reg_name rs1 with
  | some n2, some n1 =>
    some (snprintf (4+2+5+6+1) (n2 ++ ", " ++ fmt_d (imm : Int) ++ "(" ++ n1 ++ ")"))
  | _, _ => none

/-- The function `get_r_fmt_operands`: `"%s, %s, %s"`. -/
def get_r_fmt_operands (iw : Nat) : Option String :=
  let rs1 := get_rs1 iw
  let rs2 := get_rs2 iw
  let rd := get_rd iw
  match get_reg_name rd, get_reg_name rs1, get_reg_name rs2 with
  | some nd, some n1, some n2 =>
    some (snprintf (4+2+4+2+4+2+1) (nd ++ ", " ++ n1 ++ ", " ++ n2))
  | _, _, _ => none

/-- The function `get_u_fmt_operands`: `"%s, %d"`, with
`long_imm = (int32_t)iw >> 12` held in a `uint32_t` and printed by `%d`. -/
def get_u_fmt_operands (iw : Nat) : Option String :=
  let rd := get_rd iw
  let long_imm := bits32 (sar32 iw 12)
  match get_reg_name rd with
  | some nd => some (snprintf (4+2+8+1) (nd ++ ", " ++ fmt_d (to_int32 long_imm)))
  | none => none

/-- The function `get_sb_fmt_operands`: `"%s, %s, %d"`, with
`imm = (((int32_t)iw >> 19) & ~(0xfff)) | ((iw & (1<<7))<<4) |
(((iw >> 25) & 0x3f) << 5) | ((iw >> 7) & 0x1e)` held in an `int16_t`. -/
def get_sb_fmt_operands (iw : Nat) : Option String :=
  let rs1 := get_rs1 iw
  let rs2 := get_rs2 iw
  let imm := to_int16 (((bits32 (sar32 iw 19) &&& 0xfffff000)
    ||| shl32 (iw &&& (1 <<< 7)) 4
    ||| shl32 ((iw >>> 25) &&& 0x3f) 5
    ||| ((iw >>> 7) &&& 0x1e) : Nat) : Int)
  match get_reg_name rs1, get_reg_name rs2 with
  | some n1, some n2 =>
    some (snprintf (4+2+4+2+5+1) (n1 ++ ", " ++ n2 ++ ", " ++ fmt_d imm))
  | _, _ => none

/-- The function `get_jalr_operands`: `"%s, %d(%s)"`. -/
def get_jalr_operands (iw : Nat) : Option String :=
  let rs1 := get_rs1 iw
  let rd := get_rd iw
  match get_reg_name rd, get_reg_name rs1 with
  | some nd, some n1 =>
    some (snprintf (4+2+5+6+1) (nd ++ ", " ++ fmt_d (get_imm iw) ++ "(" ++ n1 ++ ")"))
  | _, _ => none

/-- The function `get_jal_operands`: `"%s, %d"`, with
`long_imm = (((int32_t)iw >> 12) & ~(0x7ffff)) | (iw & 0xff000) |
((iw & 0x100000) >> 9) | ((iw & 0x7fe00000) >> 20)` held in a `uint32_t` and
printed by `%d`. -/
def get_jal_operands (iw : Nat) : Option String :=
  let rd := get_rd iw
  let long_imm := (bits32 (sar32 iw 12) &&& 0xfff80000)
    ||| (iw &&& 0xff000)
    ||| ((iw &&& 0x100000) >>> 9)
    ||| ((iw &&& 0x7fe00000) >>> 20)
  match get_reg_name rd with
  | some nd => some (snprintf (4+2+8+1) (nd ++ ", " ++ fmt_d (to_int32 long_imm)))
  | none => none

/-- The function `decode_operands`; the empty string is the result of every
path that leaves the `switch` by `break`. -/
def decode_operands (iw : Nat) : Option String :=
  let opcode := iw &&& 0x7f
  let funct3 := (iw >>> 12) &&& 0x7
  let funct7 := (iw >>> 25) &&& 0x7f
  match opcode with
  | 0x3 => if funct3 = 0x2 then get_lw_operands iw else some ""
  | 0x13 =>
    if funct3 = 0x1 ∨ funct3 = 0x5 then
      if funct7 = 0 ∨ funct7 = 0x20 then get_i_fmt_operands (iw &&& 0x01ffffff) else some ""
    else if funct3 = 0x0 ∨ funct3 = 0x2 ∨ funct3 = 0x4 ∨ funct3 = 0x6 ∨ funct3 = 0x7 then
      get_i_fmt_operands iw
    else some ""
  | 0x17 => get_u_fmt_operands iw
  | 0x23 => if funct3 = 0x2 then get_s_fmt_operands iw else some ""
  | 0x33 =>
    if funct3 = 0x0 ∨ funct3 = 0x5 then
      if funct7 = 0 ∨ funct7 = 0x20 then get_r_fmt_operands iw else some ""
    else if funct3 = 0x1 ∨ funct3 = 0x2 ∨ funct3 = 0x4 ∨ funct3 = 0x6 ∨ funct3 = 0x7 then
      if funct7 = 0 then get_r_fmt_operands iw else some ""
    else some ""
  | 0x37 => get_u_fmt_operands iw
  | 0x63 => if funct3 = 0 ∨ funct3 = 1 then get_sb_fmt_operands iw else some ""
  | 0x67 => if funct3 = 0 then get_jalr_operands iw else some ""
  | 0x6F => get_jal_operands iw
  | 0x73 =>
    if funct3 = 0x0 then
      if funct7 = 0 then get_i_fmt_operands iw else some ""
    else some ""
  | _ => some ""

end Dis

/-! ## Vocabulary of the specification -/

/-- Bits `hi..lo` of a word, as a number. -/
def bits (w hi lo : Nat) : Nat := (w / 2 ^ lo) % 2 ^ (hi + 1 - lo)

/-- Bits `hi..lo` of the two's-complement representation of an integer. -/
def sbits (x : Int) (hi lo : Nat) : Nat := ((x / 2 ^ lo) % 2 ^ (hi + 1 - lo)).toNat

/-- The value of a 12-bit field read as a signed number. -/
def sign_extend12 (lo12 : Nat) : Int :=
  if lo12 % 4096 < 2048 then (lo12 % 4096 : Nat) else ((lo12 % 4096 : Nat) : Int) - 4096

/-- The `(funct7, funct3)` pair the specification gives for each R-format
mnemonic other than `slt`. -/
def r_fmt_functs : linetype → Option (Nat × Nat)
  | .ADD => some (0, 0)
  | .SUB => some (0x20, 0)
  | .SLL => some (0, 1)
  | .XOR => some (0, 4)
  | .SRL => some (0, 5)
  | .SRA => some (0x20, 5)
  | .OR => some (0, 6)
  | .AND => some (0, 7)
  | _ => none

/-- The `(opcode, funct3)` pair the specification gives for each I-format
mnemonic other than the shifts. -/
def i_fmt_codes : linetype → Option (Nat × Nat)
  | .ADDI => some (0x13, 0)
  | .SLTI => some (0x13, 2)
  | .XORI => some (0x13, 4)
  | .ORI => some (0x13, 6)
  | .ANDI => some (0x13, 7)
  | .LW => some (0x03, 2)
  | .JALR => some (0x67, 0)
  | _ => none

/-- The opcode the specification gives for the U-format mnemonics. -/
def u_fmt_opcode : linetype → Option Nat
  | .LUI => some 0x37
  | .AUIPC => some 0x17
  | _ => none

/-- The ABI name of register `r`. -/
def abi_name (r : Nat) : String := regnames.getD r ""

/-- The signed 13-bit offset laid out in a word in the SB format: `off[12]` is
bit 31, `off[11]` bit 7, `off[10:5]` bits 30..25, `off[4:1]` bits 11..8 and
`off[0]` is 0. -/
def sb_immediate (w : Nat) : Int :=
  let u := bits w 31 31 * 4096 + bits w 7 7 * 2048 + bits w 30 25 * 32 + bits w 11 8 * 2
  if u < 4096 then (u : Int) else (u : Int) - 8192

/-- The signed 21-bit offset laid out in a word in the UJ format: `off[20]` is
bit 31, `off[19:12]` bits 19..12, `off[11]` bit 20, `off[10:1]` bits 30..21 and
`off[0]` is 0. -/
def uj_immediate (w : Nat) : Int :=
  let u := bits w 31 31 * 1048576 + bits w 19 12 * 4096 + bits w 20 20 * 2048
    + bits w 30 21 * 2
  if u < 1048576 then (u : Int) else (u : Int) - 2097152

/-- The mnemonic of each I-format instruction other than the shifts. -/
def i_fmt_mnemonic : linetype → Option String
  | .ADDI => some "addi"
  | .SLTI => some "slti"
  | .XORI => some "xori"
  | .ORI => some "ori"
  | .ANDI => some "andi"
  | .LW => some "lw"
  | .JALR => some "jalr"
  | _ => none

/-- The mnemonic of the U-format instructions. -/
def u_fmt_mnemonic : linetype → Option String
  | .LUI => some "lui"
  | .AUIPC => some "auipc"
  | _ => none

/-- A line that is a base instruction or a pseudo-instruction of one word: any
instruction kind other than `la` and `li`. -/
def single_word_line (l : line) : Prop :=
  NUM_DIRECTIVES ≤ l.type.val ∧ l.type ≠ .LA ∧ l.type ≠ .LI

/-- The table has an empty slot. -/
def has_empty_slot (st : Symtab) : Prop :=
  ∃ e, e < TBLSZ ∧ (st e).label = none

/-- The encoder returns on the line (no failed `assert`, no read through
`NULL` or past a string) whenever the lookups of the symbol table end. -/
def line_encodes (l : line) : Prop :=
  ∀ (st : Symtab) (pc addr : Nat) (text : TextSeg) (tp : Nat), has_empty_slot st →
    if l.type.val < FIRST_PSEUDOINST then (encode_insn st l pc).isSome = true
    else (encode_pseudo_insn st l 0x00400000 addr text tp).isSome = true

/-- The number of lines that carry a label. -/
def labelled (lines : List line) : Nat :=
  (lines.filter (fun l => l.label.isSome)).length

/-- The occupied slots of the table. -/
def occupied (st : Symtab) : Finset Nat :=
  (Finset.range TBLSZ).filter (fun i => (st i).label ≠ none)

/-! ## Example inputs -/

/-- The table after `symtab_add(lbl, addr)` on the empty table. -/
def symtab_single (lbl : String) (addr : Nat) : Symtab :=
  (symtab_add symtab_empty lbl addr).getD symtab_empty

/-- A text segment filled with zero words. -/
def text_zero : TextSeg := fun _ => 0

/-- The program `.text` / `li x1, 5` / `L: addi x2, x2, 1`. -/
def prog_li_label : List line :=
  [ { type := .TEXT, label := none, token_listhead := [".text"] },
    { type := .LI, label := none, token_listhead := ["li", "x1", "5"] },
    { type := .ADDI, label := some "L:", token_listhead := ["addi", "x2", "x2", "1"] } ]

/-- The line `.text`. -/
def line_text : line := { type := .TEXT, label := none, token_listhead := [".text"] }

/-- The lines `beq x1, x2, END` / `nop` / `END: ret`. -/
def lines_forward_branch : List line :=
  [ { type := .BEQ, label := none, token_listhead := ["beq", "x1", "x2", "END"] },
    { type := .NOP, label := none, token_listhead := ["nop"] },
    { type := .RET, label := some "END:", token_listhead := ["ret"] } ]

/-- The program `.text` / `start0: nop` / `beq x1, x2, start` / `nop` /
`start: ret`. -/
def prog_prefix_label : List line :=
  [ { type := .TEXT, label := none, token_listhead := [".text"] },
    { type := .NOP, label := some "start0:", token_listhead := ["nop"] },
    { type := .BEQ, label := none, token_listhead := ["beq", "x1", "x2", "start"] },
    { type := .NOP, label := none, token_listhead := ["nop"] },
    { type := .RET, label := some "start:", token_listhead := ["ret"] } ]

/-- A data segment filled with the byte `0xAA`. -/
def data_fresh : DataSeg := fun _ => 0xAA

/-- The line `.data`. -/
def line_data : line := { type := .DATA, label := none, token_listhead := [".data"] }

/-- One label for each slot of the table: the label at position `i` hashes to
slot `i`. -/
def full_labels : List String :=
  ["L124", "L125", "L126", "L127", "L128", "L129", "L207", "L208", "L209", "L70", "L71", "L72",
   "L73", "L74", "L75", "L0", "L1", "L2", "L3", "L4", "L5", "L6", "L7", "L8", "L9", "L528",
   "L529", "L607", "L608", "L130", "L131", "L132", "L133", "L134", "L135", "L136", "L137",
   "L138", "L139", "L217", "L218", "L219", "L80", "L81", "L82", "L83", "L84", "L85", "L86",
   "L87", "L88", "L89", "L378", "L379", "L457", "L458", "L459", "L537", "L538", "L539", "L617",
   "L618", "L140", "L141", "L142", "L143", "L10", "L11", "L12", "L13", "L14", "L15", "L16",
   "L17", "L18", "L19", "L91", "L92", "L93", "L94", "L95", "L96", "L97", "L98", "L99", "L388",
   "L389", "L467", "L468", "L469", "L547", "L548", "L549", "L627", "L628", "L150", "L151",
   "L152", "L153", "L20", "L21", "L22", "L23", "L24", "L25", "L26", "L27", "L28", "L29",
   "L318", "L319", "L391", "L392", "L393", "L394", "L395", "L396", "L397", "L398", "L399",
   "L477", "L478", "L479", "L557", "L558", "L559", "L637", "L638", "L160", "L161", "L162",
   "L163", "L30", "L31", "L32", "L33", "L34", "L35", "L36", "L37", "L38", "L39", "L328",
   "L329", "L407", "L408", "L409", "L481", "L482", "L483", "L484", "L485", "L486", "L487",
   "L488", "L489", "L567", "L568", "L569", "L647", "L648", "L170", "L171", "L172", "L173",
   "L40", "L41", "L42", "L43", "L44", "L45", "L46", "L47", "L48", "L49", "L338", "L339",
   "L417", "L418", "L419", "L491", "L492", "L493", "L494", "L495", "L100", "L101", "L102",
   "L103", "L104", "L105", "L106", "L107", "L108", "L109", "L181", "L182", "L183", "L50",
   "L51", "L52", "L53", "L54", "L55", "L56", "L57", "L58", "L59", "L348", "L349", "L427",
   "L428", "L429", "L507", "L508", "L509", "L581", "L582", "L110", "L111", "L112", "L113",
   "L114", "L115", "L116", "L117", "L118", "L119", "L191", "L192", "L193", "L60", "L61", "L62",
   "L63", "L64", "L65", "L66", "L67", "L68", "L69", "L358", "L359", "L437", "L438", "L439",
   "L517", "L518", "L519", "L591", "L592", "L120", "L121", "L122", "L123"]

/-- The table that holds `full_labels`, the label of slot `i` with the address
of instruction `i`; it is what `symtab_add` leaves after these labels are added
to the empty table, each label going to the slot of its hash. -/
def symtab_full : Symtab := fun i =>
  match full_labels.get? i with
  | some l => { label := some l, address := 0x00400000 + 4 * i }
  | none => { label := none, address := 0 }

/-! ## Arithmetic of the bitwise operators -/

theorem and_mask (x a n : Nat) :
    x &&& ((2 ^ n - 1) * 2 ^ a) = (x / 2 ^ a % 2 ^ n) * 2 ^ a := by
  apply Nat.eq_of_testBit_eq
  intro i
  rw [← Nat.shiftLeft_eq, ← Nat.shiftLeft_eq, ← Nat.shiftRight_eq_div_pow]
  simp only [Nat.testBit_and, Nat.testBit_shiftLeft, Nat.testBit_two_pow_sub_one,
    Nat.testBit_mod_two_pow, Nat.testBit_shiftRight]
  by_cases h : a ≤ i
  · have : a + (i - a) = i := by omega
    simp [h, this, Bool.and_comm]
  · simp [h]

theorem or_eq_add (k a b : Nat) (ha : a % 2 ^ k = 0) (hb : b < 2 ^ k) : a ||| b = a + b := by
  have h := Nat.mul_add_lt_is_or hb (a / 2 ^ k)
  have e : 2 ^ k * (a / 2 ^ k) = a := by
    have := Nat.div_add_mod a (2 ^ k)
    omega
  rw [e] at h
  exact h.symm

theorem and_0xfff (x : Nat) : x &&& 0xfff = x % 4096 := by
  have h := and_mask x 0 12
  norm_num at h
  exact h

theorem and_bit11 (x : Nat) : x &&& 2048 = (x / 2048 % 2) * 2048 := by
  have h := and_mask x 11 1
  norm_num at h
  exact h

theorem and_bit12 (x : Nat) : x &&& 4096 = (x / 4096 % 2) * 4096 := by
  have h := and_mask x 12 1
  norm_num at h
  exact h

theorem and_0x7e0 (x : Nat) : x &&& 0x7e0 = (x / 32 % 64) * 32 := by
  have h := and_mask x 5 6
  norm_num at h
  exact h

theorem and_0x1e (x : Nat) : x &&& 0x1e = (x / 2 % 16) * 2 := by
  have h := and_mask x 1 4
  norm_num at h
  exact h

theorem and_0x1f (x : Nat) : x &&& 0x1f = x % 32 := by
  have h := and_mask x 0 5
  norm_num at h
  exact h

theorem shl32_eq (x k : Nat) : shl32 x k = x * 2 ^ k % 4294967296 := by
  simp [shl32, Nat.shiftLeft_eq]

theorem mod32_small (x : Nat) (h : x < 4294967296) : x % 4294967296 = x :=
  Nat.mod_eq_of_lt h

theorem mul_mod_shift20 (x : Nat) : x * 1048576 % 4294967296 = x % 4096 * 1048576 :=
  Nat.mul_mod_mul_right 1048576 x 4096

theorem and_hi27 (x : Nat) : x &&& 0xffffffe0 = (x / 32 % 134217728) * 32 := by
  have h := and_mask x 5 27
  norm_num at h
  exact h

theorem and_hi20 (x : Nat) : x &&& 0xfffff000 = (x / 4096 % 1048576) * 4096 := by
  have h := and_mask x 12 20
  norm_num at h
  exact h

theorem shl20_hi27 (x : Nat) : shl32 (x &&& 0xffffffe0) 20 = (x / 32 % 128) * 33554432 := by
  rw [shl32_eq, and_hi27]
  have e : x / 32 % 134217728 * 32 * 2 ^ 20 = (x / 32 % 134217728) * 33554432 := by
    norm_num
    omega
  have m : x / 32 % 134217728 % 128 = x / 32 % 128 := by omega
  rw [e, Nat.mul_mod_mul_right 33554432 (x / 32 % 134217728) 128, m]

theorem bits_pack_i (i r1 f r2 op : Nat) (hi : i < 4096) (h1 : r1 < 32) (hf : f < 8)
    (h2 : r2 < 32) (hop : op < 128) :
    i * 1048576 + r1 * 32768 + f * 4096 + r2 * 128 + op < 4294967296 ∧
    bits (i * 1048576 + r1 * 32768 + f * 4096 + r2 * 128 + op) 31 20 = i ∧
    bits (i * 1048576 + r1 * 32768 + f * 4096 + r2 * 128 + op) 19 15 = r1 ∧
    bits (i * 1048576 + r1 * 32768 + f * 4096 + r2 * 128 + op) 14 12 = f ∧
    bits (i * 1048576 + r1 * 32768 + f * 4096 + r2 * 128 + op) 11 7 = r2 ∧
    bits (i * 1048576 + r1 * 32768 + f * 4096 + r2 * 128 + op) 6 0 = op := by
  unfold bits
  norm_num
  refine ⟨?_, ?_, ?_, ?_, ?_, ?_⟩ <;> omega

theorem bits_pack_u (hi r op : Nat) (hhi : hi < 1048576) (hr : r < 32) (hop : op < 128) :
    hi * 4096 + r * 128 + op < 4294967296 ∧
    bits (hi * 4096 + r * 128 + op) 31 12 = hi ∧
    bits (hi * 4096 + r * 128 + op) 11 7 = r ∧
    bits (hi * 4096 + r * 128 + op) 6 0 = op := by
  unfold bits
  norm_num
  refine ⟨?_, ?_, ?_, ?_⟩ <;> omega

theorem fmt_d_length (x : Int) (e : Nat) (he : 0 < e) (hlo : -(10 ^ e : Int) < x)
    (hhi : x < 10 ^ e) : (fmt_d x).length ≤ e + 1 := by
  unfold fmt_d
  split
  · rename_i hneg
    have h1 : (Nat.repr x.natAbs).length ≤ e := by
      apply Nat.repr_length _ _ he
      have h2 : ((x.natAbs : Nat) : Int) = -x := by omega
      have : ((x.natAbs : Nat) : Int) < ((10 ^ e : Nat) : Int) := by
        rw [h2]
        push_cast
        omega
      exact_mod_cast this
    rw [String.length_append]
    have : "-".length = 1 := rfl
    omega
  · rename_i hpos
    have h1 : (Nat.repr x.toNat).length ≤ e := by
      apply Nat.repr_length _ _ he
      have h2 : ((x.toNat : Nat) : Int) = x := by omega
      have : ((x.toNat : Nat) : Int) < ((10 ^ e : Nat) : Int) := by
        rw [h2]
        push_cast
        omega
      exact_mod_cast this
    omega

theorem scan_paren_append (ct rest : List Char) (h : '(' ∉ ct) :
    scan_paren (ct ++ '(' :: rest) = some (ct, rest) := by
  induction ct with
  | nil => simp [scan_paren]
  | cons c cs ih =>
    have hc : c ≠ '(' := fun e => h (by simp [e])
    have hcs : '(' ∉ cs := fun e => h (by simp [e])
    simp [scan_paren, hc, ih hcs]

theorem mem_operand_data (off base : String) :
    (off ++ "(" ++ base ++ ")").data = off.data ++ '(' :: (base.data ++ [')']) := by
  simp [String.data_append]

theorem ends_with_paren_mem_operand (off base : String) :
    ends_with_paren (off ++ "(" ++ base ++ ")") = some true := by
  unfold ends_with_paren
  rw [mem_operand_data]
  have : (off.data ++ '(' :: (base.data ++ [')'])).getLast? = some ')' := by
    rw [show off.data ++ '(' :: (base.data ++ [')']) = (off.data ++ '(' :: base.data) ++ [')'] by
      simp]
    exact List.getLast?_concat _
  rw [this]
  rfl

theorem split_mem_operand_mem_operand (off base : String) (h0 : off.data ≠ [])
    (h1 : '(' ∉ off.data.tail) :
    split_mem_operand (off ++ "(" ++ base ++ ")") = some (off, base) := by
  unfold split_mem_operand
  rw [mem_operand_data]
  obtain ⟨c0, ct, hd⟩ : ∃ c0 ct, off.data = c0 :: ct := by
    cases hoff : off.data with
    | nil => exact absurd hoff h0
    | cons c0 ct => exact ⟨c0, ct, rfl⟩
  have hoff : off = String.mk (c0 :: ct) := by
    cases off
    simp_all
  rw [hd] at h1 ⊢
  simp only [List.cons_append, List.tail_cons] at h1 ⊢
  rw [scan_paren_append ct _ h1]
  simp [hoff]

/-! ## Fields read by the disassembler -/

theorem dis_fields (w : Nat) :
    w &&& 0x7f = bits w 6 0 ∧ (w >>> 12) &&& 0x7 = bits w 14 12 ∧
    Dis.get_rd w = bits w 11 7 ∧ Dis.get_rs1 w = bits w 19 15 ∧
    Dis.get_rs2 w = bits w 24 20 := by
  have h7 := and_mask w 0 7
  have h3 := and_mask (w >>> 12) 0 3
  have h5a := and_mask (w >>> 7) 0 5
  have h5b := and_mask (w >>> 15) 0 5
  have h5c := and_mask (w >>> 20) 0 5
  norm_num at h7 h3 h5a h5b h5c
  unfold Dis.get_rd Dis.get_rs1 Dis.get_rs2 bits
  norm_num
  rw [h7, h3, h5a, h5b, h5c]
  simp [Nat.shiftRight_eq_div_pow]

theorem dis_funct7 (w : Nat) : (w >>> 25) &&& 0x7f = bits w 31 25 := by
  have h7 := and_mask (w >>> 25) 0 7
  norm_num at h7
  unfold bits
  norm_num
  rw [h7]
  simp [Nat.shiftRight_eq_div_pow]

theorem dis_get_imm (w : Nat) (hw : w < 4294967296) :
    Dis.get_imm w = sign_extend12 (bits w 31 20) := by
  unfold Dis.get_imm Dis.sar32 to_int16 to_int32 sign_extend12 bits
  norm_num
  split <;> omega

theorem snprintf_fits (size : Nat) (out : String) (h : out.length < size) :
    snprintf size out = out := by
  unfold snprintf
  have : out.data.take (size - 1) = out.data := by
    apply List.take_of_length_le
    have : out.data.length = out.length := rfl
    omega
  rw [this]

theorem get_reg_name_abi (r : Nat) (h : r < 32) :
    Dis.get_reg_name r = some (abi_name r) ∧ (abi_name r).length ≤ 4 := by
  revert r
  decide

/-! ## The probe of the symbol table -/

theorem strncmp_zero_self (s : String) (n : Nat) : strncmp_zero s s n = true := by
  simp [strncmp_zero]

theorem add_probe_empty (t : Symtab) (L : String) :
    ∀ fuel h hv, add_probe t L fuel h = some (some hv) → (t hv).label = none := by
  intro fuel
  induction fuel with
  | zero => intro h hv hp; simp [add_probe] at hp
  | succ f ih =>
    intro h hv hp
    unfold add_probe at hp
    cases hl : (t h).label with
    | none =>
      simp only [hl] at hp
      have : h = hv := by simpa using hp
      rw [← this]; exact hl
    | some l =>
      simp only [hl] at hp
      by_cases hm : strncmp_zero l L L.length = true
      · simp [hm] at hp
      · simp only [hm] at hp
        exact ih _ _ hp

theorem add_probe_lt (t : Symtab) (L : String) :
    ∀ fuel h hv, h < TBLSZ → add_probe t L fuel h = some (some hv) → hv < TBLSZ := by
  intro fuel
  induction fuel with
  | zero => intro h hv _ hp; simp [add_probe] at hp
  | succ f ih =>
    intro h hv hh hp
    unfold add_probe at hp
    cases hl : (t h).label with
    | none =>
      simp only [hl] at hp
      have : h = hv := by simpa using hp
      rw [← this]; exact hh
    | some l =>
      simp only [hl] at hp
      by_cases hm : strncmp_zero l L L.length = true
      · simp [hm] at hp
      · simp only [hm] at hp
        exact ih _ _ (Nat.mod_lt _ (by decide)) hp

theorem add_probe_path (t : Symtab) (L : String) :
    ∀ j fuel h, h < TBLSZ → j < fuel →
      (t ((h + j) % TBLSZ)).label = none →
      (∀ i < j, ∃ l, (t ((h + i) % TBLSZ)).label = some l ∧
        strncmp_zero l L L.length = false) →
      add_probe t L fuel h = some (some ((h + j) % TBLSZ)) := by
  intro j
  induction j with
  | zero =>
    intro fuel h hh hf he _
    obtain ⟨f, rfl⟩ : ∃ f, fuel = f + 1 := ⟨fuel - 1, by omega⟩
    have e : (h + 0) % TBLSZ = h := by unfold TBLSZ at *; omega
    rw [e] at he ⊢
    unfold add_probe
    simp [he]
  | succ j ih =>
    intro fuel h hh hf he hn
    obtain ⟨f, rfl⟩ : ∃ f, fuel = f + 1 := ⟨fuel - 1, by omega⟩
    obtain ⟨l, hl, hm⟩ := hn 0 (by omega)
    have e0 : (h + 0) % TBLSZ = h := by unfold TBLSZ at *; omega
    rw [e0] at hl
    have e1 : ∀ i, ((h + 1) % TBLSZ + i) % TBLSZ = (h + (i + 1)) % TBLSZ := by
      intro i; unfold TBLSZ; omega
    unfold add_probe
    simp only [hl, hm]
    rw [← e1 j]
    apply ih f ((h + 1) % TBLSZ) (Nat.mod_lt _ (by decide)) (by omega)
    · rw [e1 j]; exact he
    · intro i hi
      rw [e1 i]
      exact hn (i + 1) (by omega)

theorem find_probe_after_add (t : Symtab) (L : String) (a : Nat) :
    ∀ fuel h hv, add_probe t L fuel h = some (some hv) →
      find_probe (fun i => if i = hv then { label := some L, address := a } else t i) L fuel h
        = some a := by
  intro fuel
  induction fuel with
  | zero => intro h hv hp; simp [add_probe] at hp
  | succ f ih =>
    intro h hv hp
    have hvnone := add_probe_empty t L _ _ _ hp
    unfold add_probe at hp
    unfold find_probe
    cases hl : (t h).label with
    | none =>
      simp only [hl] at hp
      have : h = hv := by simpa using hp
      subst this
      simp [strncmp_zero_self]
    | some l =>
      simp only [hl] at hp
      have hne : h ≠ hv := by
        intro e
        rw [e, hvnone] at hl
        exact Option.noConfusion hl
      by_cases hm : strncmp_zero l L L.length = true
      · simp [hm] at hp
      · simp only [hm] at hp
        simp only [if_neg hne, hl, hm]
        exact ih _ _ hp

theorem add_probe_after_add (t : Symtab) (L : String) (a : Nat) :
    ∀ fuel h hv, add_probe t L fuel h = some (some hv) →
      add_probe (fun i => if i = hv then { label := some L, address := a } else t i) L fuel h
        = some none := by
  intro fuel
  induction fuel with
  | zero => intro h hv hp; simp [add_probe] at hp
  | succ f ih =>
    intro h hv hp
    have hvnone := add_probe_empty t L _ _ _ hp
    unfold add_probe at hp
    unfold add_probe
    cases hl : (t h).label with
    | none =>
      simp only [hl] at hp
      have : h = hv := by simpa using hp
      subst this
      simp [strncmp_zero_self]
    | some l =>
      simp only [hl] at hp
      have hne : h ≠ hv := by
        intro e
        rw [e, hvnone] at hl
        exact Option.noConfusion hl
      by_cases hm : strncmp_zero l L L.length = true
      · simp [hm] at hp
      · simp only [hm] at hp
        simp only [if_neg hne, hl, hm]
        exact ih _ _ hp

theorem symtab_add_keeps_occupied (u : Symtab) (M : String) (m : Nat) (u2 : Symtab)
    (h : symtab_add u M m = some u2) (i : Nat) (hi : (u i).label ≠ none) : u2 i = u i := by
  unfold symtab_add at h
  cases hp : add_probe u M TBLSZ (hash M % TBLSZ) with
  | none => simp [hp] at h
  | some r =>
    cases r with
    | none =>
      simp only [hp] at h
      have : u = u2 := by simpa using h
      rw [this]
    | some hv =>
      simp only [hp] at h
      have e : (fun i => if i = hv then { label := some M, address := m } else u i) = u2 := by
        simpa using h
      have hvnone := add_probe_empty u M _ _ _ hp
      have hne : i ≠ hv := by
        intro e2
        rw [e2] at hi
        exact hi hvnone
      rw [← e]
      simp [hne]

theorem bits_pack_sb (a b c d e f g op : Nat) (ha : a < 2) (hb : b < 64) (hc : c < 32)
    (hd : d < 32) (he : e < 8) (hf : f < 16) (hg : g < 2) (hop : op < 128) :
    a * 2147483648 + b * 33554432 + c * 1048576 + d * 32768 + e * 4096 + f * 256 + g * 128 + op
      < 4294967296 ∧
    bits (a * 2147483648 + b * 33554432 + c * 1048576 + d * 32768 + e * 4096 + f * 256
      + g * 128 + op) 31 31 = a ∧
    bits (a * 2147483648 + b * 33554432 + c * 1048576 + d * 32768 + e * 4096 + f * 256
      + g * 128 + op) 30 25 = b ∧
    bits (a * 2147483648 + b * 33554432 + c * 1048576 + d * 32768 + e * 4096 + f * 256
      + g * 128 + op) 24 20 = c ∧
    bits (a * 2147483648 + b * 33554432 + c * 1048576 + d * 32768 + e * 4096 + f * 256
      + g * 128 + op) 19 15 = d ∧
    bits (a * 2147483648 + b * 33554432 + c * 1048576 + d * 32768 + e * 4096 + f * 256
      + g * 128 + op) 14 12 = e ∧
    bits (a * 2147483648 + b * 33554432 + c * 1048576 + d * 32768 + e * 4096 + f * 256
      + g * 128 + op) 11 8 = f ∧
    bits (a * 2147483648 + b * 33554432 + c * 1048576 + d * 32768 + e * 4096 + f * 256
      + g * 128 + op) 7 7 = g ∧
    bits (a * 2147483648 + b * 33554432 + c * 1048576 + d * 32768 + e * 4096 + f * 256
      + g * 128 + op) 6 0 = op := by
  unfold bits
  norm_num
  refine ⟨?_, ?_, ?_, ?_, ?_, ?_, ?_, ?_, ?_⟩ <;> omega

/-- The word of `encode_sb_fmt` as a sum of its fields. -/
theorem encode_sb_fmt_sum (symtab : Symtab) (t : linetype) (lbl : Option String)
    (mn a b target : String) (pc addr : Nat) (off : Int)
    (ht : t = .BEQ ∨ t = .BNE)
    (ha : get_reg a < 32) (hb : get_reg b < 32)
    (hfind : symtab_find_address symtab target = some addr) (haddr : addr ≠ 0)
    (hoff : (addr : Int) - (pc : Int) = off)
    (hlo : -4096 ≤ off) (hhi : off ≤ 4095) :
    encode_sb_fmt symtab ⟨t, lbl, [mn, a, b, target]⟩ pc =
      some (sbits off 12 12 * 2147483648 + sbits off 10 5 * 33554432 + get_reg b * 1048576
        + get_reg a * 32768 + (if t = .BEQ then 0 else 1) * 4096 + sbits off 4 1 * 256
        + sbits off 11 11 * 128 + 0x63) := by
  have himm : to_int16 (to_int32 addr - to_int32 pc) = off := by
    unfold to_int16 to_int32
    omega
  obtain ⟨v, hv⟩ : ∃ v : Nat, v = bits32 off := ⟨_, rfl⟩
  have hv1 : (v : Int) = off % 4294967296 := by
    rw [hv]
    unfold bits32
    omega
  have hf3 : get_funct3 ⟨t, lbl, [mn, a, b, target]⟩ = (if t = .BEQ then 0 else 1) := by
    rcases ht with rfl | rfl <;> rfl
  have hop : get_opcode ⟨t, lbl, [mn, a, b, target]⟩ = 0x63 := by
    rcases ht with rfl | rfl <;> rfl
  have hf3lt : (if t = linetype.BEQ then 0 else 1 : Nat) < 2 := by
    split <;> omega
  have s12 : (1 <<< 12 : Nat) = 4096 := by decide
  have s11 : (1 <<< 11 : Nat) = 2048 := by decide
  have e12 : v / 4096 % 2 = sbits off 12 12 := by
    unfold sbits; norm_num; omega
  have e11 : v / 2048 % 2 = sbits off 11 11 := by
    unfold sbits; norm_num; omega
  have e105 : v / 32 % 64 = sbits off 10 5 := by
    unfold sbits; norm_num; omega
  have e41 : v / 2 % 16 = sbits off 4 1 := by
    unfold sbits; norm_num; omega
  have b12 : sbits off 12 12 < 2 := by rw [← e12]; omega
  have b11 : sbits off 11 11 < 2 := by rw [← e11]; omega
  have b105 : sbits off 10 5 < 64 := by rw [← e105]; omega
  have b41 : sbits off 4 1 < 16 := by rw [← e41]; omega
  simp only [encode_sb_fmt, hfind, if_neg haddr, if_true]
  simp only [himm, ← hv, hf3, hop, s11, s12, and_bit12, and_bit11, and_0x7e0, and_0x1e,
    Nat.shiftRight_eq_div_pow, shl32_eq, e12, e11, e105, e41]
  generalize (if t = linetype.BEQ then 0 else 1 : Nat) = f3 at hf3lt ⊢
  generalize get_reg a = ra at ha ⊢
  generalize get_reg b = rb at hb ⊢
  generalize sbits off 12 12 = i12 at b12 ⊢
  generalize sbits off 11 11 = i11 at b11 ⊢
  generalize sbits off 10 5 = i105 at b105 ⊢
  generalize sbits off 4 1 = i41 at b41 ⊢
  norm_num
  simp (disch := omega) only [or_eq_add 6, or_eq_add 1]
  simp (disch := omega) only [mod32_small]
  simp (disch := omega) only [or_eq_add 25, or_eq_add 20, or_eq_add 15, or_eq_add 12,
    or_eq_add 7]
  omega

theorem sb_immediate_of_fields (w : Nat) (off : Int) (hlo : -4096 ≤ off) (hhi : off ≤ 4094)
    (heven : off % 2 = 0)
    (h12 : bits w 31 31 = sbits off 12 12) (h11 : bits w 7 7 = sbits off 11 11)
    (h105 : bits w 30 25 = sbits off 10 5) (h41 : bits w 11 8 = sbits off 4 1) :
    sb_immediate w = off := by
  unfold sb_immediate
  simp only [h12, h11, h105, h41]
  unfold sbits
  norm_num
  split <;> omega

theorem and_bit7 (x : Nat) : x &&& 128 = (x / 128 % 2) * 128 := by
  have h := and_mask x 7 1
  norm_num at h
  exact h

theorem and_0x3f (x : Nat) : x &&& 0x3f = x % 64 := by
  have h := and_mask x 0 6
  norm_num at h
  exact h

/-- The offset `get_sb_fmt_operands` computes is the SB offset of the word. -/
theorem dis_sb_imm (w : Nat) (hw : w < 4294967296) :
    to_int16 (((bits32 (Dis.sar32 w 19) &&& 0xfffff000)
      ||| shl32 (w &&& (1 <<< 7)) 4
      ||| shl32 ((w >>> 25) &&& 0x3f) 5
      ||| ((w >>> 7) &&& 0x1e) : Nat) : Int) = sb_immediate w := by
  have s7 : (1 <<< 7 : Nat) = 128 := by decide
  obtain ⟨p, hp⟩ : ∃ p : Nat, p = bits32 (Dis.sar32 w 19) := ⟨_, rfl⟩
  have hp1 : p / 4096 % 1048576 = (w / 2147483648) * 1048575 := by
    rw [hp]
    unfold bits32 Dis.sar32 to_int32
    norm_num
    omega
  have b31 : w / 2147483648 < 2 := by omega
  have eA : bits w 31 31 = w / 2147483648 := by
    unfold bits; norm_num; omega
  have eB : bits w 7 7 = w / 128 % 2 := by
    unfold bits; norm_num
  have eC : bits w 30 25 = w / 33554432 % 64 := by
    unfold bits; norm_num
  have eD : bits w 11 8 = w / 128 / 2 % 16 := by
    unfold bits; norm_num; omega
  unfold sb_immediate
  simp only [← hp, s7, and_hi20, and_bit7, and_0x3f, and_0x1e, Nat.shiftRight_eq_div_pow,
    shl32_eq, hp1, eA, eB, eC, eD]
  generalize w / 2147483648 = a at b31 ⊢
  have bB : w / 128 % 2 < 2 := by omega
  have bC : w / 33554432 % 64 < 64 := by omega
  have bD : w / 128 / 2 % 16 < 16 := by omega
  generalize w / 128 % 2 = b at bB ⊢
  generalize w / 33554432 % 64 = c at bC ⊢
  generalize w / 128 / 2 % 16 = d at bD ⊢
  norm_num
  simp (disch := omega) only [mod32_small]
  simp (disch := omega) only [or_eq_add 12, or_eq_add 11, or_eq_add 5]
  unfold to_int16
  push_cast
  rcases (show a = 0 ∨ a = 1 by omega) with rfl | rfl <;> norm_num <;> split <;> omega

theorem sb_immediate_range (w : Nat) : -4096 ≤ sb_immediate w ∧ sb_immediate w ≤ 4094 := by
  have a : bits w 31 31 < 2 := by unfold bits; norm_num; omega
  have b : bits w 7 7 < 2 := by unfold bits; norm_num; omega
  have c : bits w 30 25 < 64 := by unfold bits; norm_num; omega
  have d : bits w 11 8 < 16 := by unfold bits; norm_num; omega
  unfold sb_immediate
  generalize bits w 31 31 = x1 at a ⊢
  generalize bits w 7 7 = x2 at b ⊢
  generalize bits w 30 25 = x3 at c ⊢
  generalize bits w 11 8 = x4 at d ⊢
  simp only
  constructor <;> split <;> omega

theorem sb_operands_text (n1 n2 : String) (x : Int) (h1 : n1.length ≤ 4) (h2 : n2.length ≤ 4)
    (hlo : -4096 ≤ x) (hhi : x ≤ 4095) :
    snprintf (4+2+4+2+5+1) (n1 ++ ", " ++ n2 ++ ", " ++ fmt_d x) = n1 ++ ", " ++ n2 ++ ", " ++ fmt_d x := by
  apply snprintf_fits
  have hd := fmt_d_length x 4 (by norm_num) (by norm_num; omega) (by norm_num; omega)
  simp only [String.length_append]
  have : ", ".length = 2 := rfl
  omega

theorem dis_sb_operands (w : Nat) (hw : w < 4294967296) :
    Dis.get_sb_fmt_operands w = some (abi_name (bits w 19 15) ++ ", " ++ abi_name (bits w 24 20)
      ++ ", " ++ fmt_d (sb_immediate w)) := by
  obtain ⟨_, _, _, h1, h2⟩ := dis_fields w
  have r1 : bits w 19 15 < 32 := by unfold bits; norm_num; omega
  have r2 : bits w 24 20 < 32 := by unfold bits; norm_num; omega
  obtain ⟨n1, l1⟩ := get_reg_name_abi _ r1
  obtain ⟨n2, l2⟩ := get_reg_name_abi _ r2
  obtain ⟨ilo, ihi⟩ := sb_immediate_range w
  unfold Dis.get_sb_fmt_operands
  simp only [h1, h2, n1, n2, dis_sb_imm w hw]
  rw [sb_operands_text _ _ _ l1 l2 ilo (by omega)]

/-- The word of `encode_i_fmt` for the instructions other than the shifts, as a
sum of its fields. -/
theorem i_fmt_word_sum (t : linetype) (lbl : Option String) (toks : List String)
    (rd rs1 opcode funct3 : Nat) (imm : Int)
    (ht : i_fmt_codes t = some (opcode, funct3))
    (hrd : rd < 32) (hrs1 : rs1 < 32) :
    i_fmt_word ⟨t, lbl, toks⟩ rd rs1 imm =
      sbits imm 11 0 * 1048576 + rs1 * 32768 + funct3 * 4096 + rd * 128 + opcode := by
  obtain ⟨v, hv⟩ : ∃ v : Nat, v = bits32 imm := ⟨_, rfl⟩
  have hv1 : (v : Int) = imm % 4294967296 := by
    rw [hv]
    unfold bits32
    omega
  have e110 : v % 4096 = sbits imm 11 0 := by
    unfold sbits; norm_num; omega
  have b110 : sbits imm 11 0 < 4096 := by rw [← e110]; omega
  have hnotshift : ¬ (t = .SLLI ∨ t = .SRLI ∨ t = .SRAI) := by
    rintro (rfl | rfl | rfl) <;> simp [i_fmt_codes] at ht
  have hf3 : get_funct3 ⟨t, lbl, toks⟩ = funct3 := by
    cases t <;> simp [i_fmt_codes] at ht <;> obtain ⟨_, rfl⟩ := ht <;> rfl
  have hop : get_opcode ⟨t, lbl, toks⟩ = opcode := by
    cases t <;> simp [i_fmt_codes] at ht <;> obtain ⟨rfl, _⟩ := ht <;> rfl
  have hf3lt : funct3 < 8 := by
    cases t <;> simp [i_fmt_codes] at ht <;> omega
  have hoplt : opcode < 128 := by
    cases t <;> simp [i_fmt_codes] at ht <;> omega
  simp only [i_fmt_word, if_neg hnotshift, hf3, hop, ← hv, shl32_eq]
  norm_num
  rw [mul_mod_shift20, e110]
  generalize sbits imm 11 0 = i110 at b110 ⊢
  simp (disch := omega) only [mod32_small]
  simp (disch := omega) only [or_eq_add 20, or_eq_add 15, or_eq_add 12, or_eq_add 7]

theorem sign_extend12_sbits (imm : Int) (hlo : -2048 ≤ imm) (hhi : imm ≤ 2047) :
    sign_extend12 (sbits imm 11 0) = imm := by
  unfold sign_extend12 sbits
  norm_num
  split <;> omega

theorem sign_extend12_range (x : Nat) : -2048 ≤ sign_extend12 x ∧ sign_extend12 x ≤ 2047 := by
  unfold sign_extend12
  constructor <;> split <;> omega

theorem i_operands_text (n1 n2 : String) (x : Int) (h1 : n1.length ≤ 4) (h2 : n2.length ≤ 4)
    (hlo : -2048 ≤ x) (hhi : x ≤ 2047) :
    snprintf (4+2+4+2+5+1) (n1 ++ ", " ++ n2 ++ ", " ++ fmt_d x)
        = n1 ++ ", " ++ n2 ++ ", " ++ fmt_d x ∧
    snprintf (4+2+5+6+1) (n1 ++ ", " ++ fmt_d x ++ "(" ++ n2 ++ ")")
        = n1 ++ ", " ++ fmt_d x ++ "(" ++ n2 ++ ")" := by
  have hd := fmt_d_length x 4 (by norm_num) (by norm_num; omega) (by norm_num; omega)
  have c2 : ", ".length = 2 := rfl
  have c3 : "(".length = 1 := rfl
  have c4 : ")".length = 1 := rfl
  constructor
  · apply snprintf_fits
    simp only [String.length_append]
    omega
  · apply snprintf_fits
    simp only [String.length_append]
    omega

theorem dis_i_operands (w : Nat) (hw : w < 4294967296) :
    Dis.get_i_fmt_operands w = some (abi_name (bits w 11 7) ++ ", " ++ abi_name (bits w 19 15)
      ++ ", " ++ fmt_d (sign_extend12 (bits w 31 20))) ∧
    Dis.get_lw_operands w = some (abi_name (bits w 11 7) ++ ", "
      ++ fmt_d (sign_extend12 (bits w 31 20)) ++ "(" ++ abi_name (bits w 19 15) ++ ")") ∧
    Dis.get_jalr_operands w = some (abi_name (bits w 11 7) ++ ", "
      ++ fmt_d (sign_extend12 (bits w 31 20)) ++ "(" ++ abi_name (bits w 19 15) ++ ")") := by
  obtain ⟨_, _, hd, h1, _⟩ := dis_fields w
  have rd : bits w 11 7 < 32 := by unfold bits; norm_num; omega
  have r1 : bits w 19 15 < 32 := by unfold bits; norm_num; omega
  obtain ⟨nd, ld⟩ := get_reg_name_abi _ rd
  obtain ⟨n1, l1⟩ := get_reg_name_abi _ r1
  obtain ⟨ilo, ihi⟩ := sign_extend12_range (bits w 31 20)
  obtain ⟨t1, t2⟩ := i_operands_text _ _ _ ld l1 ilo ihi
  unfold Dis.get_i_fmt_operands Dis.get_lw_operands Dis.get_jalr_operands
  simp only [hd, h1, nd, n1, dis_get_imm w hw, t1, t2, and_self]

theorem get_imm_range (s : String) : -2147483648 ≤ get_imm s ∧ get_imm s ≤ 2147483647 := by
  have h : ∀ x : Int, -2147483648 ≤ to_int32 x ∧ to_int32 x ≤ 2147483647 := by
    intro x
    unfold to_int32
    omega
  unfold get_imm
  split
  · exact h _
  · split
    · exact h _
    · exact h _

/-- The word of `encode_u_fmt` as a sum of its fields. -/
theorem encode_u_fmt_sum (t : linetype) (lbl : Option String) (mn a c : String) (pc opcode : Nat)
    (ht : u_fmt_opcode t = some opcode) (ha : get_reg a < 32) :
    encode_u_fmt ⟨t, lbl, [mn, a, c]⟩ pc =
      some (sbits (get_imm c) 31 12 * 4096 + get_reg a * 128 + opcode) := by
  have key : ∀ x : Int, bits32 x / 4096 % 1048576 = sbits x 31 12 := by
    intro x
    unfold bits32 sbits
    norm_num
    omega
  have hop : get_opcode ⟨t, lbl, [mn, a, c]⟩ = opcode := by
    cases t <;> simp [u_fmt_opcode] at ht <;> subst ht <;> rfl
  have hoplt : opcode < 128 := by
    cases t <;> simp [u_fmt_opcode] at ht <;> omega
  have hb : sbits (get_imm c) 31 12 < 1048576 := by rw [← key]; omega
  simp only [encode_u_fmt, hop, and_hi20, key, shl32_eq]
  generalize get_reg a = ra at ha ⊢
  generalize sbits (get_imm c) 31 12 = hi at hb ⊢
  norm_num
  simp (disch := omega) only [mod32_small]
  simp (disch := omega) only [or_eq_add 12, or_eq_add 7]

theorem dis_u_value (w : Nat) (hw : w < 4294967296) :
    to_int32 (bits32 (Dis.sar32 w 12)) =
      if bits w 31 12 < 524288 then (bits w 31 12 : Int) else (bits w 31 12 : Int) - 1048576 := by
  unfold Dis.sar32 bits32 to_int32 bits
  norm_num
  split <;> omega

theorem u_operands_text (n1 : String) (x : Int) (h1 : n1.length ≤ 4)
    (hlo : -524288 ≤ x) (hhi : x ≤ 524287) :
    snprintf (4+2+8+1) (n1 ++ ", " ++ fmt_d x) = n1 ++ ", " ++ fmt_d x := by
  have hd := fmt_d_length x 6 (by norm_num) (by norm_num; omega) (by norm_num; omega)
  have c2 : ", ".length = 2 := rfl
  apply snprintf_fits
  simp only [String.length_append]
  omega

theorem dis_u_operands (w : Nat) (hw : w < 4294967296) :
    Dis.get_u_fmt_operands w = some (abi_name (bits w 11 7) ++ ", "
      ++ fmt_d (if bits w 31 12 < 524288 then (bits w 31 12 : Int)
          else (bits w 31 12 : Int) - 1048576)) := by
  obtain ⟨_, _, hd, _, _⟩ := dis_fields w
  have rd : bits w 11 7 < 32 := by unfold bits; norm_num; omega
  obtain ⟨nd, ld⟩ := get_reg_name_abi _ rd
  have hb : bits w 31 12 < 1048576 := by unfold bits; norm_num; omega
  unfold Dis.get_u_fmt_operands
  simp only [hd, nd, dis_u_value w hw]
  rw [u_operands_text _ _ ld (by split <;> omega) (by split <;> omega)]

theorem find_probe_absent (t : Symtab) (M : String) :
    ∀ k fuel h, h < TBLSZ → k < fuel →
      (t ((h + k) % TBLSZ)).label = none →
      (∀ i < k, ∃ l, (t ((h + i) % TBLSZ)).label = some l ∧
        strncmp_zero l M M.length = false) →
      find_probe t M fuel h = some 0 := by
  intro k
  induction k with
  | zero =>
    intro fuel h hh hf he _
    obtain ⟨f, rfl⟩ : ∃ f, fuel = f + 1 := ⟨fuel - 1, by omega⟩
    have e : (h + 0) % TBLSZ = h := by unfold TBLSZ at *; omega
    rw [e] at he
    unfold find_probe
    simp [he]
  | succ k ih =>
    intro fuel h hh hf he hn
    obtain ⟨f, rfl⟩ : ∃ f, fuel = f + 1 := ⟨fuel - 1, by omega⟩
    obtain ⟨l, hl, hm⟩ := hn 0 (by omega)
    have e0 : (h + 0) % TBLSZ = h := by unfold TBLSZ at *; omega
    rw [e0] at hl
    have e1 : ∀ i, ((h + 1) % TBLSZ + i) % TBLSZ = (h + (i + 1)) % TBLSZ := by
      intro i; unfold TBLSZ; omega
    unfold find_probe
    simp only [hl, hm]
    apply ih f ((h + 1) % TBLSZ) (Nat.mod_lt _ (by decide)) (by omega)
    · rw [e1 k]; exact he
    · intro i hi
      rw [e1 i]
      exact hn (i + 1) (by omega)

theorem add_probe_full (t : Symtab) (L : String)
    (hfull : ∀ i < TBLSZ, ∃ l, (t i).label = some l ∧ strncmp_zero l L L.length = false) :
    ∀ fuel hv, hv < TBLSZ → add_probe t L fuel hv = none := by
  intro fuel
  induction fuel with
  | zero => intro hv _; rfl
  | succ f ih =>
    intro hv hh
    obtain ⟨l, hl, hm⟩ := hfull hv hh
    unfold add_probe
    simp only [hl, hm]
    exact ih _ (Nat.mod_lt _ (by decide))

theorem find_probe_full (t : Symtab) (L : String)
    (hfull : ∀ i < TBLSZ, ∃ l, (t i).label = some l ∧ strncmp_zero l L L.length = false) :
    ∀ fuel hv, hv < TBLSZ → find_probe t L fuel hv = none := by
  intro fuel
  induction fuel with
  | zero => intro hv _; rfl
  | succ f ih =>
    intro hv hh
    obtain ⟨l, hl, hm⟩ := hfull hv hh
    unfold find_probe
    simp only [hl, hm]
    exact ih _ (Nat.mod_lt _ (by decide))

set_option maxRecDepth 100000 in
theorem symtab_full_blocks :
    ∀ i < TBLSZ, (symtab_full i).label = some (full_labels.getD i "") ∧
      hash (full_labels.getD i "") % TBLSZ = i ∧
      strncmp_zero (full_labels.getD i "") "overflow" ("overflow").length = false := by
  decide

theorem and_0xff (x : Nat) : x &&& 0xff = x % 256 := by
  have h := and_mask x 0 8
  norm_num at h
  exact h

theorem word_loop_spec : ∀ (toks : List String) (data : DataSeg) (a : Nat),
    a + 4 * toks.length < 4294967296 →
    (word_loop toks data a).2 = a + 4 * toks.length ∧
    (∀ j v, toks.get? j = some v →
      (word_loop toks data a).1 (a + 4 * j) = bits (bits32 (atoi v)) 31 24 ∧
      (word_loop toks data a).1 (a + 4 * j + 1) = bits (bits32 (atoi v)) 23 16 ∧
      (word_loop toks data a).1 (a + 4 * j + 2) = bits (bits32 (atoi v)) 15 8 ∧
      (word_loop toks data a).1 (a + 4 * j + 3) = bits (bits32 (atoi v)) 7 0) ∧
    (∀ i, i < a ∨ a + 4 * toks.length ≤ i → (word_loop toks data a).1 i = data i) := by
  intro toks
  induction toks with
  | nil =>
    intro data a _
    simp [word_loop]
  | cons tok next ih =>
    intro data a h
    simp only [List.length_cons] at h ⊢
    unfold word_loop
    simp (disch := omega) only [mod32_small]
    obtain ⟨c, b, f⟩ := ih
      (store_byte (store_byte (store_byte (store_byte data a ((bits32 (atoi tok) >>> 24) &&& 0xff))
        (a + 1) ((bits32 (atoi tok) >>> 16) &&& 0xff))
        (a + 1 + 1) ((bits32 (atoi tok) >>> 8) &&& 0xff))
        (a + 1 + 1 + 1) (bits32 (atoi tok) &&& 0xff))
      (a + 1 + 1 + 1 + 1) (by omega)
    refine ⟨by rw [c]; omega, ?_, ?_⟩
    · intro j v hv
      cases j with
      | zero =>
        simp only [List.get?_cons_zero, Option.some.injEq] at hv
        subst hv
        rw [f _ (by omega), f _ (by omega), f _ (by omega), f _ (by omega)]
        simp only [store_byte, and_0xff, Nat.shiftRight_eq_div_pow, bits]
        refine ⟨?_, ?_, ?_, ?_⟩
        all_goals norm_num
        all_goals (split_ifs <;> omega)
      | succ j =>
        simp only [List.get?_cons_succ] at hv
        obtain ⟨b0, b1, b2, b3⟩ := b j v hv
        have e : a + 4 * (j + 1) = a + 1 + 1 + 1 + 1 + 4 * j := by omega
        rw [e]
        exact ⟨b0, b1, b2, b3⟩
    · intro i hi
      rw [f i (by omega)]
      simp only [store_byte]
      rw [if_neg (by omega), if_neg (by omega), if_neg (by omega), if_neg (by omega)]

theorem align_loop_spec (next_addr : Nat) :
    ∀ (d fuel : Nat) (data : DataSeg) (a : Nat), a + d = next_addr →
      next_addr < 4294967296 → d < fuel →
      align_loop next_addr fuel data a
        = some (fun i => if a ≤ i ∧ i < next_addr then 0 else data i, next_addr) := by
  intro d
  induction d with
  | zero =>
    intro fuel data a ha _ hf
    obtain ⟨f, rfl⟩ : ∃ f, fuel = f + 1 := ⟨fuel - 1, by omega⟩
    have e : a = next_addr := by omega
    subst e
    unfold align_loop
    have hfun : (fun i => if a ≤ i ∧ i < a then 0 else data i) = data := by
      funext i
      rw [if_neg (by omega)]
    simp [hfun]
  | succ d ih =>
    intro fuel data a ha hlt hf
    obtain ⟨f, rfl⟩ : ∃ f, fuel = f + 1 := ⟨fuel - 1, by omega⟩
    have hne : a ≠ next_addr := by omega
    have e1 : (a + 1) % 4294967296 = a + 1 := by omega
    unfold align_loop
    rw [if_pos hne, e1, ih f (store_byte data a 0) (a + 1) (by omega) hlt (by omega)]
    have hfun : (fun i => if a + 1 ≤ i ∧ i < next_addr then 0 else store_byte data a 0 i)
        = (fun i => if a ≤ i ∧ i < next_addr then 0 else data i) := by
      funext i
      unfold store_byte
      by_cases h1 : i = a
      · subst h1
        rw [if_neg (by omega), if_pos rfl, if_pos (by omega)]
      · by_cases h2 : a + 1 ≤ i ∧ i < next_addr
        · rw [if_pos h2, if_pos (by omega)]
        · rw [if_neg h2, if_neg h1, if_neg (by omega)]
    rw [hfun]

theorem align_next (n a : Nat) (hn : n ≤ 12) (hfit : a + 2 ^ n ≤ 4294967296) :
    ((a + shl32 1 n + 4294967295) % 4294967296)
        &&& not32 ((shl32 1 n + 4294967295) % 4294967296)
      = (a + 2 ^ n - 1) / 2 ^ n * 2 ^ n := by
  have hle : 2 ^ n ≤ 4096 :=
    calc 2 ^ n ≤ 2 ^ 12 := Nat.pow_le_pow_right (by norm_num) hn
      _ = 4096 := by norm_num
  have hpos : 0 < 2 ^ n := Nat.two_pow_pos n
  have hp : shl32 1 n = 2 ^ n := by
    unfold shl32
    rw [Nat.shiftLeft_eq, one_mul]
    exact Nat.mod_eq_of_lt (by omega)
  have e : 2 ^ (32 - n) * 2 ^ n = 4294967296 := by
    rw [← pow_add]
    have h32 : 32 - n + n = 32 := by omega
    rw [h32]
    norm_num
  have hmask : not32 ((2 ^ n + 4294967295) % 4294967296) = (2 ^ (32 - n) - 1) * 2 ^ n := by
    rw [Nat.sub_mul, e, one_mul]
    unfold not32
    generalize 2 ^ n = P at *
    omega
  have hx : (a + 2 ^ n + 4294967295) % 4294967296 = a + 2 ^ n - 1 := by
    generalize 2 ^ n = P at *
    omega
  rw [hp, hmask, hx]
  rw [and_mask (a + 2 ^ n - 1) n (32 - n)]
  have hlt : (a + 2 ^ n - 1) / 2 ^ n < 2 ^ (32 - n) := by
    apply Nat.div_lt_of_lt_mul
    rw [mul_comm, e]
    omega
  rw [Nat.mod_eq_of_lt hlt]

theorem align_up_props (n a : Nat) (hn : n ≤ 12) :
    ((a + 2 ^ n - 1) / 2 ^ n * 2 ^ n) % 2 ^ n = 0 ∧
    a ≤ (a + 2 ^ n - 1) / 2 ^ n * 2 ^ n ∧
    (a + 2 ^ n - 1) / 2 ^ n * 2 ^ n < a + 2 ^ n ∧
    (∀ m, m % 2 ^ n = 0 → a ≤ m → (a + 2 ^ n - 1) / 2 ^ n * 2 ^ n ≤ m) ∧
    (a % 2 ^ n = 0 → (a + 2 ^ n - 1) / 2 ^ n * 2 ^ n = a) := by
  interval_cases n <;> refine ⟨?_, ?_, ?_, ?_, ?_⟩ <;> intros <;> omega

theorem asciiz_loop_quote (r : List Char) (data : DataSeg) (a : Nat) :
    asciiz_loop ('"' :: r) data a = some (data, a) := by
  rw [asciiz_loop.eq_def]
  rfl

theorem asciiz_loop_one (c1 : Char) (r : List Char) (data : DataSeg) (a : Nat)
    (h1 : c1 ≠ '"') :
    asciiz_loop (c1 :: '"' :: r) data a
      = some (store_byte (store_byte (store_byte
          (store_byte data ((a + 3) % 4294967296) (c1.toNat % 256)) a 0)
          ((a + 1) % 4294967296) 0) ((a + 2) % 4294967296) 0, (a + 4) % 4294967296) := by
  rw [asciiz_loop.eq_def]
  simp only [if_neg h1, if_true]

theorem asciiz_loop_two (c1 c2 : Char) (r : List Char) (data : DataSeg) (a : Nat)
    (h1 : c1 ≠ '"') (h2 : c2 ≠ '"') :
    asciiz_loop (c1 :: c2 :: '"' :: r) data a
      = some (store_byte (store_byte
          (store_byte (store_byte data ((a + 3) % 4294967296) (c1.toNat % 256))
            ((a + 2) % 4294967296) (c2.toNat % 256)) a 0)
          ((a + 1) % 4294967296) 0, (a + 4) % 4294967296) := by
  rw [asciiz_loop.eq_def]
  simp only [if_neg h1, if_neg h2, if_true]

theorem asciiz_loop_three (c1 c2 c3 : Char) (r : List Char) (data : DataSeg) (a : Nat)
    (h1 : c1 ≠ '"') (h2 : c2 ≠ '"') (h3 : c3 ≠ '"') :
    asciiz_loop (c1 :: c2 :: c3 :: '"' :: r) data a
      = some (store_byte
          (store_byte (store_byte (store_byte data ((a + 3) % 4294967296) (c1.toNat % 256))
            ((a + 2) % 4294967296) (c2.toNat % 256))
            ((a + 1) % 4294967296) (c3.toNat % 256)) a 0, (a + 4) % 4294967296) := by
  rw [asciiz_loop.eq_def]
  simp only [if_neg h1, if_neg h2, if_neg h3, if_true]

theorem asciiz_loop_four (c1 c2 c3 c4 : Char) (r : List Char) (data : DataSeg) (a : Nat)
    (h1 : c1 ≠ '"') (h2 : c2 ≠ '"') (h3 : c3 ≠ '"') (h4 : c4 ≠ '"') :
    asciiz_loop (c1 :: c2 :: c3 :: c4 :: '"' :: r) data a
      = some (store_byte
          (store_byte
            (store_byte (store_byte (store_byte data ((a + 3) % 4294967296) (c1.toNat % 256))
              ((a + 2) % 4294967296) (c2.toNat % 256))
              ((a + 1) % 4294967296) (c3.toNat % 256)) a (c4.toNat % 256))
          ((a + 4) % 4294967296) 0, ((a + 4) % 4294967296 + 1) % 4294967296) := by
  rw [asciiz_loop.eq_def]
  simp only [if_neg h1, if_neg h2, if_neg h3, if_neg h4, if_true]

theorem asciiz_loop_more (c1 c2 c3 c4 c5 : Char) (r : List Char) (data : DataSeg) (a : Nat)
    (h1 : c1 ≠ '"') (h2 : c2 ≠ '"') (h3 : c3 ≠ '"') (h4 : c4 ≠ '"') (h5 : c5 ≠ '"') :
    asciiz_loop (c1 :: c2 :: c3 :: c4 :: c5 :: r) data a
      = asciiz_loop (c5 :: r)
          (store_byte (store_byte (store_byte (store_byte data ((a + 3) % 4294967296)
              (c1.toNat % 256))
              ((a + 2) % 4294967296) (c2.toNat % 256))
              ((a + 1) % 4294967296) (c3.toNat % 256)) a (c4.toNat % 256))
          ((a + 4) % 4294967296) := by
  rw [asciiz_loop.eq_def]
  simp only [if_neg h1, if_neg h2, if_neg h3, if_neg h4, if_neg h5]

theorem asciiz_loop_spec (rest : List Char) :
    ∀ (s : List Char) (data : DataSeg) (a : Nat), s ≠ [] → '"' ∉ s →
      a + s.length + 8 ≤ 4294967296 →
      ∃ data2 a2, asciiz_loop (s ++ '"' :: rest) data a = some (data2, a2) ∧
        a2 = a + 4 * (s.length / 4) + (if s.length % 4 = 0 then 1 else 4) ∧
        (∀ j c, s.get? j = some c → data2 (a + 4 * (j / 4) + (3 - j % 4)) = c.toNat % 256) ∧
        (∀ i, a + 4 * (s.length / 4) ≤ i →
          i < a + 4 * (s.length / 4) + (if s.length % 4 = 0 then 1 else 4 - s.length % 4) →
          data2 i = 0) ∧
        (∀ i, i < a ∨ a + 4 * (s.length / 4) + (if s.length % 4 = 0 then 1 else 4) ≤ i →
          data2 i = data i)
  | [], _, _, h, _, _ => absurd rfl h
  | [c1], data, a, _, hq, hfit => by
    have h1 : c1 ≠ '"' := fun e => hq (by simp [e])
    simp only [List.length_cons, List.length_nil] at hfit ⊢
    simp only [List.cons_append, List.nil_append, asciiz_loop_one c1 rest data a h1]
    simp (disch := omega) only [mod32_small]
    refine ⟨_, _, rfl, by norm_num, ?_, ?_, ?_⟩
    · intro j c hj
      rcases j with _ | j
      · simp only [List.get?_cons_zero, Option.some.injEq] at hj
        subst hj
        simp [store_byte]
      · simp at hj
    · intro i hi1 hi2
      norm_num at hi1 hi2
      simp only [store_byte]
      split_ifs <;> omega
    · intro i hi
      norm_num at hi
      simp only [store_byte]
      split_ifs <;> omega
  | [c1, c2], data, a, _, hq, hfit => by
    have h1 : c1 ≠ '"' := fun e => hq (by simp [e])
    have h2 : c2 ≠ '"' := fun e => hq (by simp [e])
    simp only [List.length_cons, List.length_nil] at hfit ⊢
    simp only [List.cons_append, List.nil_append, asciiz_loop_two c1 c2 rest data a h1 h2]
    simp (disch := omega) only [mod32_small]
    refine ⟨_, _, rfl, by norm_num, ?_, ?_, ?_⟩
    · intro j c hj
      rcases j with _ | _ | j
      · simp only [List.get?_cons_zero, Option.some.injEq] at hj
        subst hj
        simp [store_byte]
      · simp only [List.get?_cons_succ, List.get?_cons_zero, Option.some.injEq] at hj
        subst hj
        simp [store_byte]
      · simp at hj
    · intro i hi1 hi2
      norm_num at hi1 hi2
      simp only [store_byte]
      split_ifs <;> omega
    · intro i hi
      norm_num at hi
      simp only [store_byte]
      split_ifs <;> omega
  | [c1, c2, c3], data, a, _, hq, hfit => by
    have h1 : c1 ≠ '"' := fun e => hq (by simp [e])
    have h2 : c2 ≠ '"' := fun e => hq (by simp [e])
    have h3 : c3 ≠ '"' := fun e => hq (by simp [e])
    simp only [List.length_cons, List.length_nil] at hfit ⊢
    simp only [List.cons_append, List.nil_append,
      asciiz_loop_three c1 c2 c3 rest data a h1 h2 h3]
    simp (disch := omega) only [mod32_small]
    refine ⟨_, _, rfl, by norm_num, ?_, ?_, ?_⟩
    · intro j c hj
      rcases j with _ | _ | _ | j
      · simp only [List.get?_cons_zero, Option.some.injEq] at hj
        subst hj
        simp [store_byte]
      · simp only [List.get?_cons_succ, List.get?_cons_zero, Option.some.injEq] at hj
        subst hj
        simp [store_byte]
      · simp only [List.get?_cons_succ, List.get?_cons_zero, Option.some.injEq] at hj
        subst hj
        simp [store_byte]
      · simp at hj
    · intro i hi1 hi2
      norm_num at hi1 hi2
      simp only [store_byte]
      split_ifs <;> omega
    · intro i hi
      norm_num at hi
      simp only [store_byte]
      split_ifs <;> omega
  | [c1, c2, c3, c4], data, a, _, hq, hfit => by
    have h1 : c1 ≠ '"' := fun e => hq (by simp [e])
    have h2 : c2 ≠ '"' := fun e => hq (by simp [e])
    have h3 : c3 ≠ '"' := fun e => hq (by simp [e])
    have h4 : c4 ≠ '"' := fun e => hq (by simp [e])
    simp only [List.length_cons, List.length_nil] at hfit ⊢
    simp only [List.cons_append, List.nil_append,
      asciiz_loop_four c1 c2 c3 c4 rest data a h1 h2 h3 h4]
    simp (disch := omega) only [mod32_small]
    refine ⟨_, _, rfl, by norm_num, ?_, ?_, ?_⟩
    · intro j c hj
      rcases j with _ | _ | _ | _ | j
      · simp only [List.get?_cons_zero, Option.some.injEq] at hj
        subst hj
        simp [store_byte]
      · simp only [List.get?_cons_succ, List.get?_cons_zero, Option.some.injEq] at hj
        subst hj
        simp [store_byte]
      · simp only [List.get?_cons_succ, List.get?_cons_zero, Option.some.injEq] at hj
        subst hj
        simp [store_byte]
      · simp only [List.get?_cons_succ, List.get?_cons_zero, Option.some.injEq] at hj
        subst hj
        simp [store_byte]
      · simp at hj
    · intro i hi1 hi2
      norm_num at hi1 hi2
      simp only [store_byte]
      split_ifs <;> omega
    · intro i hi
      norm_num at hi
      simp only [store_byte]
      split_ifs <;> omega
  | c1 :: c2 :: c3 :: c4 :: c5 :: t, data, a, _, hq, hfit => by
    have h1 : c1 ≠ '"' := fun e => hq (by simp [e])
    have h2 : c2 ≠ '"' := fun e => hq (by simp [e])
    have h3 : c3 ≠ '"' := fun e => hq (by simp [e])
    have h4 : c4 ≠ '"' := fun e => hq (by simp [e])
    have h5 : c5 ≠ '"' := fun e => hq (by simp [e])
    have hq2 : '"' ∉ c5 :: t := fun e => hq (by simp [e])
    simp only [List.length_cons] at hfit ⊢
    obtain ⟨d2, a2, e1, e2, e3, e4, e5⟩ := asciiz_loop_spec rest (c5 :: t)
      (store_byte (store_byte (store_byte (store_byte data (a + 3) (c1.toNat % 256))
        (a + 2) (c2.toNat % 256)) (a + 1) (c3.toNat % 256)) a (c4.toNat % 256))
      (a + 4) (by simp) hq2 (by simp only [List.length_cons]; omega)
    simp only [List.length_cons] at e2 e4 e5
    simp only [List.cons_append, asciiz_loop_more c1 c2 c3 c4 c5 _ data a h1 h2 h3 h4 h5]
    simp (disch := omega) only [mod32_small]
    simp only [List.cons_append] at e1
    refine ⟨d2, a2, e1, ?_, ?_, ?_, ?_⟩
    · rw [e2]
      have q : (t.length + 1 + 1 + 1 + 1 + 1) / 4 = (t.length + 1) / 4 + 1 := by omega
      have r : (t.length + 1 + 1 + 1 + 1 + 1) % 4 = (t.length + 1) % 4 := by omega
      simp only [q, r]
      split_ifs <;> omega
    · intro j c hj
      rcases j with _ | _ | _ | _ | j
      · simp only [List.get?_cons_zero, Option.some.injEq] at hj
        subst hj
        rw [e5 _ (by omega)]
        simp [store_byte]
      · simp only [List.get?_cons_succ, List.get?_cons_zero, Option.some.injEq] at hj
        subst hj
        rw [e5 _ (by omega)]
        simp [store_byte]
      · simp only [List.get?_cons_succ, List.get?_cons_zero, Option.some.injEq] at hj
        subst hj
        rw [e5 _ (by omega)]
        simp [store_byte]
      · simp only [List.get?_cons_succ, List.get?_cons_zero, Option.some.injEq] at hj
        subst hj
        rw [e5 _ (by omega)]
        simp [store_byte]
      · simp only [List.get?_cons_succ] at hj
        have p : a + 4 * ((j + 1 + 1 + 1 + 1) / 4) + (3 - (j + 1 + 1 + 1 + 1) % 4)
            = a + 4 + 4 * (j / 4) + (3 - j % 4) := by omega
        rw [p]
        exact e3 j c hj
    · intro i hi1 hi2
      have q : (t.length + 1 + 1 + 1 + 1 + 1) / 4 = (t.length + 1) / 4 + 1 := by omega
      have r : (t.length + 1 + 1 + 1 + 1 + 1) % 4 = (t.length + 1) % 4 := by omega
      simp only [q, r] at hi1 hi2
      exact e4 i (by omega) (by split_ifs at hi2 ⊢ <;> omega)
    · intro i hi
      have q : (t.length + 1 + 1 + 1 + 1 + 1) / 4 = (t.length + 1) / 4 + 1 := by omega
      have r : (t.length + 1 + 1 + 1 + 1 + 1) % 4 = (t.length + 1) % 4 := by omega
      simp only [q, r] at hi
      rw [e5 i (by split_ifs at hi ⊢ <;> omega)]
      simp only [store_byte]
      split_ifs <;> omega

theorem pad_loop_aligned (data : DataSeg) (b : Nat) (hb : b % 4 = 0) :
    pad_loop 4 data b = some (data, b) := by
  simp [pad_loop, hb]

theorem pad_loop_after_quote (data : DataSeg) (b : Nat) (hb : b % 4 = 1)
    (hfit : b + 3 < 4294967296) :
    pad_loop 4 data b
      = some (store_byte (store_byte (store_byte data b 0) (b + 1) 0) (b + 2) 0, b + 3) := by
  have e1 : (b + 1) % 4294967296 = b + 1 := by omega
  have e2 : (b + 1 + 1) % 4294967296 = b + 2 := by omega
  have e3 : (b + 2 + 1) % 4294967296 = b + 3 := by omega
  have m1 : (b + 1) % 4 ≠ 0 := by omega
  have m2 : (b + 2) % 4 ≠ 0 := by omega
  have m3 : (b + 3) % 4 = 0 := by omega
  have m0 : b % 4 ≠ 0 := by omega
  simp [pad_loop, m0, e1, m1, e2, m2, e3, m3]

theorem data_asciiz_spec (s : List Char) (data : DataSeg) (a : Nat) (hq : '"' ∉ s)
    (ha : a % 4 = 0) (hfit : a + s.length + 8 ≤ 4294967296) :
    ∃ data2 a2, data_asciiz (String.mk ('"' :: (s ++ ['"']))) data a = some (data2, a2) ∧
      a2 = (if s = [] then a else a + 4 * (s.length / 4 + 1)) ∧
      (∀ j c, s.get? j = some c → data2 (a + 4 * (j / 4) + (3 - j % 4)) = c.toNat % 256) ∧
      (∀ i, s ≠ [] → a + 4 * (s.length / 4) ≤ i →
        i < a + 4 * (s.length / 4) + (4 - s.length % 4) → data2 i = 0) ∧
      (∀ i, i < a ∨ a2 ≤ i → data2 i = data i) ∧
      (s = [] → data2 = data) := by
  by_cases hs : s = []
  · subst hs
    refine ⟨data, a, ?_, by simp, ?_, ?_, ?_, ?_⟩
    · simp only [data_asciiz, List.nil_append, asciiz_loop_quote, pad_loop_aligned data a ha]
    · intro j c hj
      simp at hj
    · intro i h
      exact absurd rfl h
    · intro i _
      rfl
    · intro _
      rfl
  · obtain ⟨d2, b, e1, e2, e3, e4, e5⟩ := asciiz_loop_spec [] s data a hs hq hfit
    by_cases hr : s.length % 4 = 0
    · rw [if_pos hr] at e2 e5
      rw [if_pos hr] at e4
      have hb : b % 4 = 1 := by omega
      refine ⟨store_byte (store_byte (store_byte d2 b 0) (b + 1) 0) (b + 2) 0, b + 3, ?_, ?_,
        ?_, ?_, ?_, ?_⟩
      · simp only [data_asciiz, e1, pad_loop_after_quote d2 b hb (by omega)]
      · rw [if_neg hs]
        omega
      · intro j c hj
        have hjlt : j < s.length := by
          by_contra hge
          rw [List.get?_eq_none.mpr (by omega)] at hj
          exact Option.noConfusion hj
        simp only [store_byte]
        rw [if_neg (by omega), if_neg (by omega), if_neg (by omega)]
        exact e3 j c hj
      · intro i _ hi1 hi2
        simp only [store_byte]
        split_ifs
        · rfl
        · rfl
        · rfl
        · exact e4 i hi1 (by omega)
      · intro i hi
        simp only [store_byte]
        rw [if_neg (by omega), if_neg (by omega), if_neg (by omega)]
        exact e5 i (by omega)
      · intro h
        exact absurd h hs
    · rw [if_neg hr] at e2 e5
      rw [if_neg hr] at e4
      have hb : b % 4 = 0 := by omega
      refine ⟨d2, b, ?_, ?_, e3, ?_, ?_, ?_⟩
      · simp only [data_asciiz, e1, pad_loop_aligned d2 b hb]
      · rw [if_neg hs]
        omega
      · intro i _ hi1 hi2
        exact e4 i hi1 hi2
      · intro i hi
        exact e5 i (by omega)
      · intro h
        exact absurd h hs

theorem add_probe_total (st : Symtab) (L : String) :
    ∀ d fuel h, h < TBLSZ → d < fuel → (st ((h + d) % TBLSZ)).label = none →
      add_probe st L fuel h ≠ none := by
  intro d
  induction d with
  | zero =>
    intro fuel h hh hf he
    obtain ⟨f, rfl⟩ : ∃ f, fuel = f + 1 := ⟨fuel - 1, by omega⟩
    have e : (h + 0) % TBLSZ = h := by unfold TBLSZ at *; omega
    rw [e] at he
    unfold add_probe
    simp [he]
  | succ d ih =>
    intro fuel h hh hf he
    obtain ⟨f, rfl⟩ : ∃ f, fuel = f + 1 := ⟨fuel - 1, by omega⟩
    unfold add_probe
    cases hl : (st h).label with
    | none => simp
    | some l =>
      by_cases hm : strncmp_zero l L L.length = true
      · simp [hm]
      · simp only [hm]
        apply ih f ((h + 1) % TBLSZ) (Nat.mod_lt _ (by decide)) (by omega)
        have e1 : ((h + 1) % TBLSZ + d) % TBLSZ = (h + (d + 1)) % TBLSZ := by
          unfold TBLSZ; omega
        rw [e1]
        exact he

theorem find_probe_total (st : Symtab) (L : String) :
    ∀ d fuel h, h < TBLSZ → d < fuel → (st ((h + d) % TBLSZ)).label = none →
      find_probe st L fuel h ≠ none := by
  intro d
  induction d with
  | zero =>
    intro fuel h hh hf he
    obtain ⟨f, rfl⟩ : ∃ f, fuel = f + 1 := ⟨fuel - 1, by omega⟩
    have e : (h + 0) % TBLSZ = h := by unfold TBLSZ at *; omega
    rw [e] at he
    unfold find_probe
    simp [he]
  | succ d ih =>
    intro fuel h hh hf he
    obtain ⟨f, rfl⟩ : ∃ f, fuel = f + 1 := ⟨fuel - 1, by omega⟩
    unfold find_probe
    cases hl : (st h).label with
    | none => simp
    | some l =>
      by_cases hm : strncmp_zero l L L.length = true
      · simp [hm]
      · simp only [hm]
        apply ih f ((h + 1) % TBLSZ) (Nat.mod_lt _ (by decide)) (by omega)
        have e1 : ((h + 1) % TBLSZ + d) % TBLSZ = (h + (d + 1)) % TBLSZ := by
          unfold TBLSZ; omega
        rw [e1]
        exact he

theorem symtab_add_total (st : Symtab) (L : String) (a : Nat) (he : has_empty_slot st) :
    ∃ st2, symtab_add st L a = some st2 := by
  obtain ⟨e, he1, he2⟩ := he
  have hh : hash L % TBLSZ < TBLSZ := Nat.mod_lt _ (by decide)
  have hd : (hash L % TBLSZ + (e + TBLSZ - hash L % TBLSZ) % TBLSZ) % TBLSZ = e := by
    unfold TBLSZ at *; omega
  have hp := add_probe_total st L ((e + TBLSZ - hash L % TBLSZ) % TBLSZ) TBLSZ (hash L % TBLSZ)
    hh (Nat.mod_lt _ (by decide)) (by rw [hd]; exact he2)
  unfold symtab_add
  cases hr : add_probe st L TBLSZ (hash L % TBLSZ) with
  | none => exact absurd hr hp
  | some r =>
    cases r with
    | none => exact ⟨_, rfl⟩
    | some hv => exact ⟨_, rfl⟩

theorem symtab_find_total (st : Symtab) (L : String) (he : has_empty_slot st) :
    ∃ a, symtab_find_address st L = some a := by
  obtain ⟨e, he1, he2⟩ := he
  have hh : hash L % TBLSZ < TBLSZ := Nat.mod_lt _ (by decide)
  have hd : (hash L % TBLSZ + (e + TBLSZ - hash L % TBLSZ) % TBLSZ) % TBLSZ = e := by
    unfold TBLSZ at *; omega
  have hp := find_probe_total st L ((e + TBLSZ - hash L % TBLSZ) % TBLSZ) TBLSZ (hash L % TBLSZ)
    hh (Nat.mod_lt _ (by decide)) (by rw [hd]; exact he2)
  unfold symtab_find_address
  cases hr : find_probe st L TBLSZ (hash L % TBLSZ) with
  | none => exact absurd hr hp
  | some a => exact ⟨a, rfl⟩

theorem add_probe_nomatch (st : Symtab) (L : String)
    (hP : ∀ slot l, (st slot).label = some l → strncmp_zero l L L.length = false) :
    ∀ fuel h, add_probe st L fuel h ≠ some none := by
  intro fuel
  induction fuel with
  | zero => intro h; simp [add_probe]
  | succ f ih =>
    intro h
    unfold add_probe
    cases hl : (st h).label with
    | none => simp
    | some l =>
      simp only [hP h l hl]
      exact ih _

theorem find_probe_preserved (st st2 : Symtab) (L : String) (A : Nat) (hA : A ≠ 0)
    (hkeep : ∀ i, (st i).label ≠ none → st2 i = st i) :
    ∀ fuel h, find_probe st L fuel h = some A → find_probe st2 L fuel h = some A := by
  intro fuel
  induction fuel with
  | zero => intro h hf; simp [find_probe] at hf
  | succ f ih =>
    intro h hf
    unfold find_probe at hf ⊢
    cases hl : (st h).label with
    | none =>
      simp only [hl] at hf
      exact absurd (Option.some.inj hf).symm hA
    | some l =>
      have h2 : st2 h = st h := hkeep h (by rw [hl]; exact Option.noConfusion)
      simp only [hl] at hf
      rw [h2]
      simp only [hl]
      by_cases hm : strncmp_zero l L L.length = true
      · simp only [hm, if_true] at hf ⊢
        exact hf
      · simp only [hm] at hf ⊢
        exact ih _ hf

theorem occupied_card_add (st st2 : Symtab) (M : String) (m : Nat)
    (h : symtab_add st M m = some st2) :
    (occupied st2).card ≤ (occupied st).card + 1 := by
  unfold symtab_add at h
  cases hp : add_probe st M TBLSZ (hash M % TBLSZ) with
  | none => simp [hp] at h
  | some r =>
    cases r with
    | none =>
      simp only [hp] at h
      have e : st = st2 := by simpa using h
      rw [← e]
      omega
    | some hv =>
      simp only [hp] at h
      have e : (fun i => if i = hv then { label := some M, address := m } else st i) = st2 := by
        simpa using h
      have hsub : occupied st2 ⊆ insert hv (occupied st) := by
        intro i hi
        unfold occupied at hi ⊢
        rw [Finset.mem_filter] at hi
        rw [Finset.mem_insert, Finset.mem_filter]
        by_cases hiv : i = hv
        · exact Or.inl hiv
        · right
          refine ⟨hi.1, ?_⟩
          have := hi.2
          rw [← e] at this
          simpa [hiv] using this
      calc (occupied st2).card ≤ (insert hv (occupied st)).card := Finset.card_le_card hsub
        _ ≤ (occupied st).card + 1 := Finset.card_insert_le _ _

theorem has_empty_slot_of_card (st : Symtab) (h : (occupied st).card < TBLSZ) :
    has_empty_slot st := by
  by_contra hne
  have hall : ∀ e ∈ Finset.range TBLSZ, (st e).label ≠ none := by
    intro e he hl
    exact hne ⟨e, Finset.mem_range.mp he, hl⟩
  have : occupied st = Finset.range TBLSZ := by
    unfold occupied
    exact Finset.filter_true_of_mem hall
  rw [this, Finset.card_range] at h
  exact lt_irrefl _ h

theorem nomatch_after_add (st st2 : Symtab) (L M : String) (m : Nat)
    (hP : ∀ slot l, (st slot).label = some l → strncmp_zero l L L.length = false)
    (hM : strncmp_zero M L L.length = false)
    (h : symtab_add st M m = some st2) :
    ∀ slot l, (st2 slot).label = some l → strncmp_zero l L L.length = false := by
  unfold symtab_add at h
  cases hp : add_probe st M TBLSZ (hash M % TBLSZ) with
  | none => simp [hp] at h
  | some r =>
    cases r with
    | none =>
      simp only [hp] at h
      have e : st = st2 := by simpa using h
      rw [← e]
      exact hP
    | some hv =>
      simp only [hp] at h
      have e : (fun i => if i = hv then { label := some M, address := m } else st i) = st2 := by
        simpa using h
      intro slot l hl
      rw [← e] at hl
      by_cases hs : slot = hv
      · simp only [hs, if_true, Option.some.injEq] at hl
        rw [← hl]
        exact hM
      · simp only [if_neg hs] at hl
        exact hP slot l hl

theorem labelled_cons_none (l : line) (ls : List line) (h : l.label = none) :
    labelled (l :: ls) = labelled ls := by
  simp [labelled, List.filter_cons, h]

theorem labelled_cons_some (l : line) (ls : List line) (s : String) (h : l.label = some s) :
    labelled (l :: ls) = labelled ls + 1 := by
  simp [labelled, List.filter_cons, h]

theorem labelled_append (xs ys : List line) :
    labelled (xs ++ ys) = labelled xs + labelled ys := by
  simp [labelled, List.filter_append]

theorem symtab_add_fresh (st : Symtab) (L : String) (a : Nat)
    (hcard : (occupied st).card < TBLSZ)
    (hP : ∀ slot l, (st slot).label = some l → strncmp_zero l L L.length = false) :
    ∃ st1, symtab_add st L a = some st1 ∧ symtab_find_address st1 L = some a ∧
      (occupied st1).card ≤ (occupied st).card + 1 := by
  obtain ⟨st1, h1⟩ := symtab_add_total st L a (has_empty_slot_of_card st hcard)
  refine ⟨st1, h1, ?_, occupied_card_add st st1 L a h1⟩
  have hadd := h1
  unfold symtab_add at h1
  cases hp : add_probe st L TBLSZ (hash L % TBLSZ) with
  | none => simp [hp] at h1
  | some r =>
    cases r with
    | none => exact absurd hp (add_probe_nomatch st L hP _ _)
    | some hv =>
      simp only [hp] at h1
      have e : (fun i => if i = hv then { label := some L, address := a } else st i) = st1 := by
        simpa using h1
      rw [← e]
      exact find_probe_after_add st L a _ _ _ hp

theorem first_pass_prefix (L : String) :
    ∀ (pre rest : List line) (st : Symtab) (addr : Nat),
      (∀ l ∈ pre, NUM_DIRECTIVES ≤ l.type.val) →
      (∀ l ∈ pre, ∀ s, l.label = some s →
        s.length ≠ 0 ∧ strncmp_zero (String.mk s.data.dropLast) L L.length = false) →
      (occupied st).card + labelled pre < TBLSZ →
      (∀ slot l, (st slot).label = some l → strncmp_zero l L L.length = false) →
      addr + 4 * pre.length < 4294967296 →
      ∃ st2, first_pass_loop (pre ++ rest) st addr
          = first_pass_loop rest st2 (addr + 4 * pre.length) ∧
        (occupied st2).card ≤ (occupied st).card + labelled pre ∧
        (∀ slot l, (st2 slot).label = some l → strncmp_zero l L L.length = false) := by
  intro pre
  induction pre with
  | nil =>
    intro rest st addr _ _ _ hP _
    exact ⟨st, by simp, by simp [labelled], hP⟩
  | cons l pre ih =>
    intro rest st addr hty hlab hcard hP hfit
    have hl : NUM_DIRECTIVES ≤ l.type.val := hty l (List.mem_cons_self _ _)
    have hnt : l.type ≠ .TEXT := by
      intro e
      rw [e] at hl
      simp [NUM_DIRECTIVES, linetype.val] at hl
    simp only [List.length_cons] at hfit
    have e4 : (addr + 4) % 4294967296 = addr + 4 := by omega
    have step : ∀ st1, register_label st l 0x00400000 addr = some st1 →
        first_pass_loop (l :: pre ++ rest) st addr
          = first_pass_loop (pre ++ rest) st1 (addr + 4) := by
      intro st1 h1
      rw [List.cons_append, first_pass_loop]
      simp only [h1, if_neg hnt, ge_iff_le, hl, if_true, e4]
    cases hlbl : l.label with
    | none =>
      have h1 : register_label st l 0x00400000 addr = some st := by
        simp [register_label, hlbl]
      rw [labelled_cons_none l pre hlbl] at hcard ⊢
      obtain ⟨st2, g1, g2, g3⟩ := ih rest st (addr + 4)
        (fun x hx => hty x (List.mem_cons_of_mem _ hx))
        (fun x hx => hlab x (List.mem_cons_of_mem _ hx)) hcard hP (by omega)
      refine ⟨st2, ?_, g2, g3⟩
      rw [step st h1, g1]
      congr 1
      simp only [List.length_cons]
      omega
    | some s =>
      obtain ⟨hs0, hsL⟩ := hlab l (List.mem_cons_self _ _) s hlbl
      rw [labelled_cons_some l pre s hlbl] at hcard ⊢
      obtain ⟨st1, h1⟩ := symtab_add_total st (String.mk s.data.dropLast)
        ((addr + 0x00400000) % 4294967296) (has_empty_slot_of_card st (by omega))
      have hc1 := occupied_card_add st st1 _ _ h1
      have hP1 := nomatch_after_add st st1 L _ _ hP hsL h1
      have hr : register_label st l 0x00400000 addr = some st1 := by
        simp only [register_label, hlbl, if_neg hs0, h1]
      obtain ⟨st2, g1, g2, g3⟩ := ih rest st1 (addr + 4)
        (fun x hx => hty x (List.mem_cons_of_mem _ hx))
        (fun x hx => hlab x (List.mem_cons_of_mem _ hx)) (by omega) hP1 (by omega)
      refine ⟨st2, ?_, by omega, g3⟩
      rw [step st1 hr, g1]
      congr 1
      simp only [List.length_cons]
      omega

theorem first_pass_suffix (L : String) (A : Nat) (hA : A ≠ 0) :
    ∀ (post : List line) (st : Symtab) (addr : Nat),
      (∀ l ∈ post, NUM_DIRECTIVES ≤ l.type.val) →
      (∀ l ∈ post, ∀ s, l.label = some s → s.length ≠ 0) →
      (occupied st).card + labelled post < TBLSZ →
      symtab_find_address st L = some A →
      ∃ st2 a2, first_pass_loop post st addr = some (st2, a2) ∧
        symtab_find_address st2 L = some A ∧
        (occupied st2).card ≤ (occupied st).card + labelled post := by
  intro post
  induction post with
  | nil =>
    intro st addr _ _ _ hf
    exact ⟨st, addr, rfl, hf, by simp [labelled]⟩
  | cons l post ih =>
    intro st addr hty hlab hcard hf
    have hl : NUM_DIRECTIVES ≤ l.type.val := hty l (List.mem_cons_self _ _)
    have hnt : l.type ≠ .TEXT := by
      intro e
      rw [e] at hl
      simp [NUM_DIRECTIVES, linetype.val] at hl
    have step : ∀ st1, register_label st l 0x00400000 addr = some st1 →
        first_pass_loop (l :: post) st addr
          = first_pass_loop post st1 ((addr + 4) % 4294967296) := by
      intro st1 h1
      rw [first_pass_loop]
      simp only [h1, if_neg hnt, ge_iff_le, hl, if_true]
    cases hlbl : l.label with
    | none =>
      have h1 : register_label st l 0x00400000 addr = some st := by
        simp [register_label, hlbl]
      rw [labelled_cons_none l post hlbl] at hcard ⊢
      obtain ⟨st2, a2, g1, g2, g3⟩ := ih st ((addr + 4) % 4294967296)
        (fun x hx => hty x (List.mem_cons_of_mem _ hx))
        (fun x hx => hlab x (List.mem_cons_of_mem _ hx)) hcard hf
      exact ⟨st2, a2, by rw [step st h1, g1], g2, g3⟩
    | some s =>
      have hs0 := hlab l (List.mem_cons_self _ _) s hlbl
      rw [labelled_cons_some l post s hlbl] at hcard ⊢
      obtain ⟨st1, h1⟩ := symtab_add_total st (String.mk s.data.dropLast)
        ((addr + 0x00400000) % 4294967296) (has_empty_slot_of_card st (by omega))
      have hc1 := occupied_card_add st st1 _ _ h1
      have hf1 : symtab_find_address st1 L = some A :=
        find_probe_preserved st st1 L A hA
          (fun i hi => symtab_add_keeps_occupied st _ _ st1 h1 i hi) _ _ hf
      have hr : register_label st l 0x00400000 addr = some st1 := by
        simp only [register_label, hlbl, if_neg hs0, h1]
      obtain ⟨st2, a2, g1, g2, g3⟩ := ih st1 ((addr + 4) % 4294967296)
        (fun x hx => hty x (List.mem_cons_of_mem _ hx))
        (fun x hx => hlab x (List.mem_cons_of_mem _ hx)) (by omega) hf1
      exact ⟨st2, a2, by rw [step st1 hr, g1], g2, by omega⟩

theorem pseudo_single_result (st : Symtab) (l : line) (offset addr : Nat) (text : TextSeg)
    (tp r : Nat) (text2 : TextSeg)
    (hv : FIRST_PSEUDOINST ≤ l.type.val) (hla : l.type ≠ .LA) (hli : l.type ≠ .LI)
    (h : encode_pseudo_insn st l offset addr text tp = some (r, text2)) :
    r = 4 ∧ ∃ iw, text2 = store_word text tp iw := by
  obtain ⟨ty, lb, toks⟩ := l
  have key : ∀ x : Option Nat, x.map (fun iw => (4, store_word text tp iw)) = some (r, text2) →
      r = 4 ∧ ∃ iw, text2 = store_word text tp iw := by
    intro x hx
    cases x with
    | none => simp at hx
    | some iw =>
      simp only [Option.map_some', Option.some.injEq, Prod.mk.injEq] at hx
      exact ⟨hx.1.symm, iw, hx.2.symm⟩
  cases toks with
  | nil => simp [encode_pseudo_insn] at h
  | cons t0 ts =>
    cases ty <;> simp [FIRST_PSEUDOINST, linetype.val] at hv
    all_goals first | exact absurd rfl hla | exact absurd rfl hli | skip
    all_goals
      rcases ts with _ | ⟨t1, _ | ⟨t2, ts⟩⟩ <;> simp only [encode_pseudo_insn] at h <;>
        first | exact key _ h | simp at h

theorem second_pass_prefix (st : Symtab) (he : has_empty_slot st) :
    ∀ (pre rest : List line) (text : TextSeg) (tp addr : Nat),
      (∀ l ∈ pre, single_word_line l ∧ line_encodes l) →
      addr + 4 * pre.length < 4294967296 →
      ∃ text1, second_pass_loop st (pre ++ rest) text tp addr
          = second_pass_loop st rest text1 (tp + 4 * pre.length) (addr + 4 * pre.length) ∧
        ∀ j, j < tp → text1 j = text j := by
  intro pre
  induction pre with
  | nil =>
    intro rest text tp addr _ _
    exact ⟨text, by simp, fun _ _ => rfl⟩
  | cons l pre ih =>
    intro rest text tp addr hall hfit
    obtain ⟨⟨hd, hla, hli⟩, henc⟩ := hall l (List.mem_cons_self _ _)
    have hnt : l.type ≠ .TEXT := by
      intro e
      rw [e] at hd
      simp [NUM_DIRECTIVES, linetype.val] at hd
    have hnd : ¬ l.type.val < NUM_DIRECTIVES := by omega
    simp only [List.length_cons] at hfit
    have e4 : (addr + 4) % 4294967296 = addr + 4 := by omega
    have et : tp + 4 + 4 * pre.length = tp + 4 * (pre.length + 1) := by omega
    have ea : addr + 4 + 4 * pre.length = addr + 4 * (pre.length + 1) := by omega
    have hrest : ∀ iw, ∃ text1,
        second_pass_loop st (pre ++ rest) (store_word text tp iw) (tp + 4) (addr + 4)
          = second_pass_loop st rest text1 (tp + 4 * (pre.length + 1))
            (addr + 4 * (pre.length + 1)) ∧
        ∀ j, j < tp → text1 j = text j := by
      intro iw
      obtain ⟨text1, g1, g2⟩ := ih rest (store_word text tp iw) (tp + 4) (addr + 4)
        (fun x hx => hall x (List.mem_cons_of_mem _ hx)) (by omega)
      refine ⟨text1, by rw [g1, et, ea], ?_⟩
      intro j hj
      rw [g2 j (by omega)]
      unfold store_word
      rw [if_neg (by omega)]
    have hsome := henc st ((0x00400000 + addr) % 4294967296) addr text tp he
    by_cases hb : l.type.val < FIRST_PSEUDOINST
    · rw [if_pos hb] at hsome
      obtain ⟨iw, hiw⟩ := Option.isSome_iff_exists.mp hsome
      obtain ⟨text1, g1, g2⟩ := hrest iw
      refine ⟨text1, ?_, g2⟩
      rw [List.cons_append, second_pass_loop]
      simp only [if_neg hnt, if_neg hnd, if_pos hb, hiw, e4, List.length_cons]
      exact g1
    · rw [if_neg hb] at hsome
      obtain ⟨⟨r, text2⟩, hp⟩ := Option.isSome_iff_exists.mp hsome
      obtain ⟨hr, iw, ht2⟩ := pseudo_single_result st l _ addr text tp r text2 (by omega) hla hli hp
      subst hr
      subst ht2
      obtain ⟨text1, g1, g2⟩ := hrest iw
      have e8 : to_uint8 ((4 : Nat) : Int) = 4 := by decide
      refine ⟨text1, ?_, g2⟩
      rw [List.cons_append, second_pass_loop]
      simp only [if_neg hnt, if_neg hnd, if_neg hb, hp, e8, e4, List.length_cons]
      exact g1

theorem encode_sb_fmt_immediate (st : Symtab) (t : linetype) (lbl : Option String)
    (mn a b target : String) (pc addr : Nat) (off : Int)
    (ht : t = .BEQ ∨ t = .BNE)
    (ha : get_reg a < 32) (hb : get_reg b < 32)
    (hfind : symtab_find_address st target = some addr) (haddr : addr ≠ 0)
    (hoff : (addr : Int) - (pc : Int) = off)
    (heven : off % 2 = 0) (hlo : -4096 ≤ off) (hhi : off ≤ 4094) :
    ∃ iw, encode_sb_fmt st ⟨t, lbl, [mn, a, b, target]⟩ pc = some iw ∧
      sb_immediate iw = off ∧ bits iw 24 20 = get_reg b ∧ bits iw 19 15 = get_reg a ∧
      bits iw 14 12 = (if t = .BEQ then 0 else 1) ∧ bits iw 6 0 = 0x63 := by
  have hsum := encode_sb_fmt_sum st t lbl mn a b target pc addr off ht ha hb hfind haddr
    hoff hlo (by omega)
  have b12 : sbits off 12 12 < 2 := by unfold sbits; norm_num; omega
  have b11 : sbits off 11 11 < 2 := by unfold sbits; norm_num; omega
  have b105 : sbits off 10 5 < 64 := by unfold sbits; norm_num; omega
  have b41 : sbits off 4 1 < 16 := by unfold sbits; norm_num; omega
  have hf3lt : (if t = linetype.BEQ then 0 else 1 : Nat) < 8 := by split <;> omega
  obtain ⟨_, p1, p2, p3, p4, p5, p6, p7, p8⟩ := bits_pack_sb (sbits off 12 12)
    (sbits off 10 5) (get_reg b) (get_reg a) (if t = .BEQ then 0 else 1) (sbits off 4 1)
    (sbits off 11 11) 0x63 b12 b105 hb ha hf3lt b41 b11 (by norm_num)
  exact ⟨_, hsum, sb_immediate_of_fields _ off hlo hhi heven p1 p7 p2 p6, p3, p4, p5, p8⟩

theorem occupied_empty : occupied symtab_empty = ∅ := by
  unfold occupied symtab_empty
  simp

theorem line_encodes_branch (t : linetype) (lbl : Option String) (mn a b L : String)
    (ht : t = .BEQ ∨ t = .BNE) : line_encodes ⟨t, lbl, [mn, a, b, L]⟩ := by
  intro st pc addr text tp he
  obtain ⟨A, hA⟩ := symtab_find_total st L he
  rcases ht with rfl | rfl
  · rw [if_pos (by simp [linetype.val, FIRST_PSEUDOINST])]
    by_cases h0 : A = 0
    · simp [encode_insn, encode_sb_fmt, hA, h0]
    · simp [encode_insn, encode_sb_fmt, hA, h0]
  · rw [if_pos (by simp [linetype.val, FIRST_PSEUDOINST])]
    by_cases h0 : A = 0
    · simp [encode_insn, encode_sb_fmt, hA, h0]
    · simp [encode_insn, encode_sb_fmt, hA, h0]

theorem line_encodes_nop (lbl : Option String) (mn : String) :
    line_encodes ⟨.NOP, lbl, [mn]⟩ := by
  intro st pc addr text tp _
  rw [if_neg (by simp [linetype.val, FIRST_PSEUDOINST])]
  rfl

theorem line_encodes_ret (lbl : Option String) (mn : String) :
    line_encodes ⟨.RET, lbl, [mn]⟩ := by
  intro st pc addr text tp _
  rw [if_neg (by simp [linetype.val, FIRST_PSEUDOINST])]
  rfl

/-! ## Properties of the encoder -/

/-- C1. For every 32-bit value `delta`, the split of `la`/`li` in
`encode_pseudo_insn` has `lo12 = delta & 0xFFF`, `hi20 = delta >> 12` plus one
when bit 11 of `lo12` is set, and `(hi20 << 12) + sign_extend12(lo12)` equals
`delta` modulo `2 ^ 32`. -/
theorem hi_lo_split_reconstructs (delta : Nat) (h : delta < 4294967296) :
    (hi_lo_split delta).2 = delta % 4096 ∧
    (hi_lo_split delta).1 = delta / 4096 + (if 2048 ≤ delta % 4096 then 1 else 0) ∧
    ((shl32 (hi_lo_split delta).1 12 : Int) + sign_extend12 (hi_lo_split delta).2)
      % 4294967296 = delta := by
  have e1 : to_uint16 ((delta &&& 0xfff : Nat) : Int) = delta % 4096 := by
    rw [and_0xfff]
    unfold to_uint16
    omega
  have e2 : (delta % 4096) &&& (1 <<< 11) = (delta % 4096 / 2048 % 2) * 2048 := by
    have : (1 <<< 11 : Nat) = 2048 := by decide
    rw [this, and_bit11]
  unfold hi_lo_split
  simp only [e1, e2, Nat.shiftRight_eq_div_pow]
  by_cases hb : 2048 ≤ delta % 4096
  · have hne : delta % 4096 / 2048 % 2 * 2048 ≠ 0 := by omega
    simp only [hne, hb, ne_eq, not_false_eq_true, if_true, shl32_eq, sign_extend12]
    norm_num
    refine ⟨by omega, ?_⟩
    split <;> omega
  · have hz : delta % 4096 / 2048 % 2 * 2048 = 0 := by omega
    simp only [hz, hb, ne_eq, not_true_eq_false, if_false, shl32_eq, sign_extend12]
    norm_num
    split <;> omega

/-- C1, at the boundary value `delta = 0x800`. -/
theorem hi_lo_split_reconstructs_witness :
    (hi_lo_split 0x800).2 = 0x800 % 4096 ∧
    (hi_lo_split 0x800).1 = 0x800 / 4096 + (if 2048 ≤ 0x800 % 4096 then 1 else 0) ∧
    ((shl32 (hi_lo_split 0x800).1 12 : Int) + sign_extend12 (hi_lo_split 0x800).2)
      % 4294967296 = (0x800 : Nat) :=
  hi_lo_split_reconstructs 0x800 (by decide)

/-- C2. For `beq` and `bne` with register indices below 32 and a target whose
lookup gives a (non-zero) address at distance `off` from the program counter,
`off` in the 13-bit signed range, `encode_sb_fmt` returns the word with bit 31 =
`off[12]`, bits 30..25 = `off[10:5]`, `rs2` in 24..20, `rs1` in 19..15, funct3 in
14..12 (0 for `beq`, 1 for `bne`), bits 11..8 = `off[4:1]`, bit 7 = `off[11]` and
opcode `0x63`. -/
theorem encode_sb_fmt_layout (symtab : Symtab) (t : linetype) (lbl : Option String)
    (mn a b target : String) (pc addr : Nat) (off : Int)
    (ht : t = .BEQ ∨ t = .BNE)
    (ha : get_reg a < 32) (hb : get_reg b < 32)
    (hfind : symtab_find_address symtab target = some addr) (haddr : addr ≠ 0)
    (hoff : (addr : Int) - (pc : Int) = off)
    (heven : off % 2 = 0) (hlo : -4096 ≤ off) (hhi : off ≤ 4094) :
    ∃ iw, encode_sb_fmt symtab ⟨t, lbl, [mn, a, b, target]⟩ pc = some iw ∧
      bits iw 31 31 = sbits off 12 12 ∧
      bits iw 30 25 = sbits off 10 5 ∧
      bits iw 24 20 = get_reg b ∧
      bits iw 19 15 = get_reg a ∧
      bits iw 14 12 = (if t = .BEQ then 0 else 1) ∧
      bits iw 11 8 = sbits off 4 1 ∧
      bits iw 7 7 = sbits off 11 11 ∧
      bits iw 6 0 = 0x63 := by
  have himm : to_int16 (to_int32 addr - to_int32 pc) = off := by
    unfold to_int16 to_int32
    omega
  obtain ⟨v, hv⟩ : ∃ v : Nat, v = bits32 off := ⟨_, rfl⟩
  have hv1 : (v : Int) = off % 4294967296 := by
    rw [hv]
    unfold bits32
    omega
  have hf3 : get_funct3 ⟨t, lbl, [mn, a, b, target]⟩ = (if t = .BEQ then 0 else 1) := by
    rcases ht with rfl | rfl <;> rfl
  have hop : get_opcode ⟨t, lbl, [mn, a, b, target]⟩ = 0x63 := by
    rcases ht with rfl | rfl <;> rfl
  have hf3lt : (if t = linetype.BEQ then 0 else 1 : Nat) < 2 := by
    split <;> omega
  have s12 : (1 <<< 12 : Nat) = 4096 := by decide
  have s11 : (1 <<< 11 : Nat) = 2048 := by decide
  have e12 : v / 4096 % 2 = sbits off 12 12 := by
    unfold sbits; norm_num; omega
  have e11 : v / 2048 % 2 = sbits off 11 11 := by
    unfold sbits; norm_num; omega
  have e105 : v / 32 % 64 = sbits off 10 5 := by
    unfold sbits; norm_num; omega
  have e41 : v / 2 % 16 = sbits off 4 1 := by
    unfold sbits; norm_num; omega
  have b12 : sbits off 12 12 < 2 := by rw [← e12]; omega
  have b11 : sbits off 11 11 < 2 := by rw [← e11]; omega
  have b105 : sbits off 10 5 < 64 := by rw [← e105]; omega
  have b41 : sbits off 4 1 < 16 := by rw [← e41]; omega
  refine ⟨_, by simp only [encode_sb_fmt, hfind, if_neg haddr, if_true]; rfl, ?_⟩
  simp only [himm, ← hv, hf3, hop, s11, s12, and_bit12, and_bit11, and_0x7e0, and_0x1e,
    Nat.shiftRight_eq_div_pow, shl32_eq, e12, e11, e105, e41]
  generalize (if t = linetype.BEQ then 0 else 1 : Nat) = f3 at hf3lt ⊢
  generalize get_reg a = ra at ha ⊢
  generalize get_reg b = rb at hb ⊢
  generalize sbits off 12 12 = i12 at b12 ⊢
  generalize sbits off 11 11 = i11 at b11 ⊢
  generalize sbits off 10 5 = i105 at b105 ⊢
  generalize sbits off 4 1 = i41 at b41 ⊢
  norm_num
  simp (disch := omega) only [or_eq_add 6, or_eq_add 1]
  simp (disch := omega) only [mod32_small]
  simp (disch := omega) only [or_eq_add 25, or_eq_add 20, or_eq_add 15, or_eq_add 12,
    or_eq_add 7]
  unfold bits
  norm_num
  refine ⟨?_, ?_, ?_, ?_, ?_, ?_, ?_, ?_⟩ <;> omega

/-- C2, for `beq x1, x2, END` at `0x00400000` with `END` at `0x00400008`. -/
theorem encode_sb_fmt_layout_witness :
    symtab_find_address (symtab_single "END" 0x00400008) "END" = some 0x00400008 ∧
    ((0x00400008 : Nat) : Int) - ((0x00400000 : Nat) : Int) = 8 ∧
    ∃ iw, encode_sb_fmt (symtab_single "END" 0x00400008)
        ⟨.BEQ, none, ["beq", "x1", "x2", "END"]⟩ 0x00400000 = some iw ∧
      bits iw 31 31 = sbits 8 12 12 ∧
      bits iw 30 25 = sbits 8 10 5 ∧
      bits iw 24 20 = get_reg "x2" ∧
      bits iw 19 15 = get_reg "x1" ∧
      bits iw 14 12 = (if linetype.BEQ = .BEQ then 0 else 1) ∧
      bits iw 11 8 = sbits 8 4 1 ∧
      bits iw 7 7 = sbits 8 11 11 ∧
      bits iw 6 0 = 0x63 :=
  ⟨by decide, by decide,
    encode_sb_fmt_layout (symtab_single "END" 0x00400008) .BEQ none "beq" "x1" "x2" "END"
      0x00400000 0x00400008 8 (by decide) (by decide) (by decide) (by decide) (by decide)
      (by decide) (by decide) (by decide) (by decide)⟩

/-- C3. `jal x1, FAR` with `FAR` 2048 bytes ahead of the program counter: the
word `encode_uj_fmt` returns has bit 19 set and bit 20 clear, although bit 20
is the place of `offset[11] = 1` and bit 19 that of `offset[19] = 0`. And
`jal x0, LOOP` with `LOOP` 8 bytes behind: bit 31 of the word is 0 although
`offset[20] = 1`, and bit 20 is 0 although `offset[11] = 1`. -/
theorem encode_uj_fmt_misplaces_bits :
    (encode_uj_fmt (symtab_single "FAR" 0x00400800)
        { type := .JAL, label := none, token_listhead := ["jal", "x1", "FAR"] } 0x00400000
      = some 0x000800EF ∧
      bits 0x000800EF 20 20 = 0 ∧ sbits 2048 11 11 = 1 ∧
      bits 0x000800EF 19 12 = 0x80 ∧ sbits 2048 19 12 = 0) ∧
    (encode_uj_fmt (symtab_single "LOOP" 0x00400000)
        { type := .JAL, label := none, token_listhead := ["jal", "x0", "LOOP"] } 0x00400008
      = some 0x7F8FF06F ∧
      bits 0x7F8FF06F 31 31 = 0 ∧ sbits (-8) 20 20 = 1 ∧
      bits 0x7F8FF06F 20 20 = 0 ∧ sbits (-8) 11 11 = 1) := by
  decide

/-- C4. For `addi`, `andi`, `ori`, `xori`, `slti`, `lw` and `jalr` with
register indices below 32 and an immediate in `[-2048, 2047]`, `encode_i_fmt`
returns the word with the 12-bit two's complement of the immediate in bits
31..20, `rs1` in 19..15, funct3 in 14..12, `rd` in 11..7 and the opcode in
6..0; the operands `rd, rs1, imm` and `rd, imm(rs1)` give the same word. Here
`b` is the `rs1` token (not empty, not ending in `)`) and `c` the immediate
token (not empty, no `(` after its first character). -/
theorem encode_i_fmt_layout (t : linetype) (lbl : Option String) (mn a b c : String)
    (pc opcode funct3 : Nat) (imm : Int)
    (ht : i_fmt_codes t = some (opcode, funct3))
    (ha : get_reg a < 32) (hb : get_reg b < 32)
    (hbtok : ends_with_paren b = some false)
    (hc0 : c.data ≠ []) (hc1 : '(' ∉ c.data.tail)
    (himm : get_imm c = imm) (hlo : -2048 ≤ imm) (hhi : imm ≤ 2047) :
    ∃ iw, encode_i_fmt ⟨t, lbl, [mn, a, b, c]⟩ pc = some iw ∧
      encode_i_fmt ⟨t, lbl, [mn, a, c ++ "(" ++ b ++ ")"]⟩ pc = some iw ∧
      bits iw 31 20 = sbits imm 11 0 ∧
      bits iw 19 15 = get_reg b ∧
      bits iw 14 12 = funct3 ∧
      bits iw 11 7 = get_reg a ∧
      bits iw 6 0 = opcode := by
  have h16 : to_int16 imm = imm := by
    unfold to_int16
    omega
  obtain ⟨v, hv⟩ : ∃ v : Nat, v = bits32 imm := ⟨_, rfl⟩
  have hv1 : (v : Int) = imm % 4294967296 := by
    rw [hv]
    unfold bits32
    omega
  have e110 : v % 4096 = sbits imm 11 0 := by
    unfold sbits; norm_num; omega
  have b110 : sbits imm 11 0 < 4096 := by rw [← e110]; omega
  have hnotshift : ¬ (t = .SLLI ∨ t = .SRLI ∨ t = .SRAI) := by
    rintro (rfl | rfl | rfl) <;> simp [i_fmt_codes] at ht
  have hword : i_fmt_word ⟨t, lbl, [mn, a, b, c]⟩ (get_reg a) (get_reg b) imm =
      i_fmt_word ⟨t, lbl, [mn, a, c ++ "(" ++ b ++ ")"]⟩ (get_reg a) (get_reg b) imm := rfl
  refine ⟨i_fmt_word ⟨t, lbl, [mn, a, b, c]⟩ (get_reg a) (get_reg b) imm, ?_, ?_, ?_⟩
  · simp only [encode_i_fmt, hbtok, himm, h16]
  · simp only [encode_i_fmt, ends_with_paren_mem_operand,
      split_mem_operand_mem_operand c b hc0 hc1, himm, h16, if_true, hword]
  · have hf3 : get_funct3 ⟨t, lbl, [mn, a, b, c]⟩ = funct3 := by
      cases t <;> simp [i_fmt_codes] at ht <;> obtain ⟨_, rfl⟩ := ht <;> rfl
    have hop : get_opcode ⟨t, lbl, [mn, a, b, c]⟩ = opcode := by
      cases t <;> simp [i_fmt_codes] at ht <;> obtain ⟨rfl, _⟩ := ht <;> rfl
    have hf3lt : funct3 < 8 := by
      cases t <;> simp [i_fmt_codes] at ht <;> omega
    have hoplt : opcode < 128 := by
      cases t <;> simp [i_fmt_codes] at ht <;> omega
    simp only [i_fmt_word, if_neg hnotshift, hf3, hop, ← hv, shl32_eq]
    generalize get_reg a = ra at ha ⊢
    generalize get_reg b = rb at hb ⊢
    norm_num
    rw [mul_mod_shift20, e110]
    generalize sbits imm 11 0 = i110 at b110 ⊢
    simp (disch := omega) only [mod32_small]
    simp (disch := omega) only [or_eq_add 20, or_eq_add 15, or_eq_add 12, or_eq_add 7]
    unfold bits
    norm_num
    refine ⟨?_, ?_, ?_, ?_, ?_⟩ <;> omega

/-- C4, for `lw x5, -8(sp)` and `lw x5, sp, -8`. -/
theorem encode_i_fmt_layout_witness :
    i_fmt_codes .LW = some (0x03, 2) ∧ get_reg "x5" < 32 ∧ get_reg "sp" < 32 ∧
    ends_with_paren "sp" = some false ∧ get_imm "-8" = -8 ∧
    ∃ iw, encode_i_fmt ⟨.LW, none, ["lw", "x5", "sp", "-8"]⟩ 0x00400000 = some iw ∧
      encode_i_fmt ⟨.LW, none, ["lw", "x5", "-8" ++ "(" ++ "sp" ++ ")"]⟩ 0x00400000 = some iw ∧
      bits iw 31 20 = sbits (-8) 11 0 ∧
      bits iw 19 15 = get_reg "sp" ∧
      bits iw 14 12 = 2 ∧
      bits iw 11 7 = get_reg "x5" ∧
      bits iw 6 0 = 0x03 :=
  ⟨by decide, by decide, by decide, by decide, by decide,
    encode_i_fmt_layout .LW none "lw" "x5" "sp" "-8" 0x00400000 0x03 2 (-8) (by decide)
      (by decide) (by decide) (by decide) (by decide) (by decide) (by decide) (by decide)
      (by decide)⟩

/-- C5. `srli x1, x2, 3`: the word the encoder returns has `0x7f` in bits 31..25
(`get_funct7` has no case for `SRLI`), the shift amount in bits 24..20, funct3 5
and opcode `0x13`, and the disassembler's decision table maps it to `unknown`. -/
theorem srli_encoded_with_funct7_0x7f :
    encode_insn symtab_empty
        { type := .SRLI, label := none, token_listhead := ["srli", "x1", "x2", "3"] } 0x00400000
      = some 0xFE315093 ∧
    bits 0xFE315093 31 25 = 0x7f ∧ bits 0xFE315093 24 20 = 3 ∧
    bits 0xFE315093 14 12 = 5 ∧ bits 0xFE315093 6 0 = 0x13 ∧
    Dis.decode_mnemonic 0xFE315093 = "unknown" := by
  decide

/-- C6. For `sw rs2, imm(rs1)` with register indices below 32 and `imm` in
`[-2048, 2047]`, `encode_s_fmt` returns the word with `imm[11:5]` in bits
31..25, `rs2` in 24..20, `rs1` in 19..15, funct3 2 in 14..12, `imm[4:0]` in
11..7 and opcode `0x23`. Here `a` is the `rs2` token, `b` the `rs1` token and
`c` the immediate token (not empty, no `(` after its first character). -/
theorem encode_s_fmt_layout (lbl : Option String) (mn a b c : String) (pc : Nat) (imm : Int)
    (ha : get_reg a < 32) (hb : get_reg b < 32)
    (hc0 : c.data ≠ []) (hc1 : '(' ∉ c.data.tail)
    (himm : get_imm c = imm) (hlo : -2048 ≤ imm) (hhi : imm ≤ 2047) :
    ∃ iw, encode_s_fmt ⟨.SW, lbl, [mn, a, c ++ "(" ++ b ++ ")"]⟩ pc = some iw ∧
      bits iw 31 25 = sbits imm 11 5 ∧
      bits iw 24 20 = get_reg a ∧
      bits iw 19 15 = get_reg b ∧
      bits iw 14 12 = 2 ∧
      bits iw 11 7 = sbits imm 4 0 ∧
      bits iw 6 0 = 0x23 := by
  have h16 : to_int16 imm = imm := by
    unfold to_int16
    omega
  obtain ⟨v, hv⟩ : ∃ v : Nat, v = bits32 imm := ⟨_, rfl⟩
  have hv1 : (v : Int) = imm % 4294967296 := by
    rw [hv]
    unfold bits32
    omega
  have e115 : v / 32 % 128 = sbits imm 11 5 := by
    unfold sbits; norm_num; omega
  have e40 : v % 32 = sbits imm 4 0 := by
    unfold sbits; norm_num; omega
  have b115 : sbits imm 11 5 < 128 := by rw [← e115]; omega
  have b40 : sbits imm 4 0 < 32 := by rw [← e40]; omega
  refine ⟨_, by simp only [encode_s_fmt, ends_with_paren_mem_operand,
    split_mem_operand_mem_operand c b hc0 hc1, himm, h16, if_true]; rfl, ?_⟩
  have hf3 : get_funct3 ⟨.SW, lbl, [mn, a, c ++ "(" ++ b ++ ")"]⟩ = 2 := rfl
  have hop : get_opcode ⟨.SW, lbl, [mn, a, c ++ "(" ++ b ++ ")"]⟩ = 0x23 := rfl
  simp only [hf3, hop, ← hv]
  rw [shl20_hi27, e115]
  simp only [and_0x1f, e40, shl32_eq]
  generalize get_reg a = ra at ha ⊢
  generalize get_reg b = rb at hb ⊢
  generalize sbits imm 11 5 = i115 at b115 ⊢
  generalize sbits imm 4 0 = i40 at b40 ⊢
  norm_num
  simp (disch := omega) only [mod32_small]
  simp (disch := omega) only [or_eq_add 25, or_eq_add 20, or_eq_add 15, or_eq_add 12,
    or_eq_add 7]
  unfold bits
  norm_num
  refine ⟨?_, ?_, ?_, ?_, ?_, ?_⟩ <;> omega

/-- C6, for `sw x5, -4(sp)`. -/
theorem encode_s_fmt_layout_witness :
    get_reg "x5" < 32 ∧ get_reg "sp" < 32 ∧ get_imm "-4" = -4 ∧
    ∃ iw, encode_s_fmt ⟨.SW, none, ["sw", "x5", "-4" ++ "(" ++ "sp" ++ ")"]⟩ 0x00400000
        = some iw ∧
      bits iw 31 25 = sbits (-4) 11 5 ∧
      bits iw 24 20 = get_reg "x5" ∧
      bits iw 19 15 = get_reg "sp" ∧
      bits iw 14 12 = 2 ∧
      bits iw 11 7 = sbits (-4) 4 0 ∧
      bits iw 6 0 = 0x23 :=
  ⟨by decide, by decide, by decide,
    encode_s_fmt_layout none "sw" "x5" "sp" "-4" 0x00400000 (-4) (by decide) (by decide)
      (by decide) (by decide) (by decide) (by decide) (by decide)⟩

/-- C7. For `add`, `sub`, `and`, `or`, `xor`, `sll`, `srl` and `sra` with
register indices below 32, `encode_r_fmt` returns
`funct7 << 25 | rs2 << 20 | rs1 << 15 | funct3 << 12 | rd << 7 | 0x33` with the
`(funct7, funct3)` of the specification's table. -/
theorem encode_r_fmt_word (t : linetype) (lbl : Option String) (mn a b c : String)
    (pc funct7 funct3 : Nat)
    (ht : r_fmt_functs t = some (funct7, funct3))
    (ha : get_reg a < 32) (hb : get_reg b < 32) (hc : get_reg c < 32) :
    encode_r_fmt ⟨t, lbl, [mn, a, b, c]⟩ pc =
      some (funct7 <<< 25 ||| get_reg c <<< 20 ||| get_reg b <<< 15 ||| funct3 <<< 12
        ||| get_reg a <<< 7 ||| 0x33) := by
  have hf7 : get_funct7 ⟨t, lbl, [mn, a, b, c]⟩ = funct7 := by
    cases t <;> simp [r_fmt_functs] at ht <;> obtain ⟨rfl, _⟩ := ht <;> rfl
  have hf3 : get_funct3 ⟨t, lbl, [mn, a, b, c]⟩ = funct3 := by
    cases t <;> simp [r_fmt_functs] at ht <;> obtain ⟨_, rfl⟩ := ht <;> rfl
  have hop : get_opcode ⟨t, lbl, [mn, a, b, c]⟩ = 0x33 := by
    cases t <;> simp [r_fmt_functs] at ht <;> rfl
  have hf7lt : funct7 < 128 := by
    cases t <;>
      simp only [r_fmt_functs, Option.some.injEq, Prod.mk.injEq, reduceCtorEq] at ht <;> omega
  have hf3lt : funct3 < 8 := by
    cases t <;>
      simp only [r_fmt_functs, Option.some.injEq, Prod.mk.injEq, reduceCtorEq] at ht <;> omega
  simp only [encode_r_fmt, hf7, hf3, hop, shl32_eq, Nat.shiftLeft_eq]
  generalize get_reg a = ra at ha ⊢
  generalize get_reg b = rb at hb ⊢
  generalize get_reg c = rc at hc ⊢
  norm_num
  simp (disch := omega) only [mod32_small]

/-- C7, for `sub x1, x2, x3`. -/
theorem encode_r_fmt_word_witness :
    r_fmt_functs .SUB = some (0x20, 0) ∧
    get_reg "x1" < 32 ∧ get_reg "x2" < 32 ∧ get_reg "x3" < 32 ∧
    encode_r_fmt ⟨.SUB, none, ["sub", "x1", "x2", "x3"]⟩ 0x00400000 =
      some (0x20 <<< 25 ||| get_reg "x3" <<< 20 ||| get_reg "x2" <<< 15 ||| 0 <<< 12
        ||| get_reg "x1" <<< 7 ||| 0x33) :=
  ⟨by decide, by decide, by decide, by decide,
    encode_r_fmt_word .SUB none "sub" "x1" "x2" "x3" 0x00400000 0x20 0 (by decide)
      (by decide) (by decide) (by decide)⟩

/-- C8. `slt x2, x3, x4`: the word the encoder returns has `0x7f` in bits 6..0
instead of the opcode `0x33` (`get_opcode` has no case for `SLT` and leaves
`0xff`), 3 instead of `rd = 2` in bits 11..7, and the disassembler decodes it
as `unknown`. -/
theorem slt_encoded_with_opcode_0xff :
    encode_insn symtab_empty
        { type := .SLT, label := none, token_listhead := ["slt", "x2", "x3", "x4"] } 0x00400000
      = some 0x0041A1FF ∧
    bits 0x0041A1FF 6 0 = 0x7f ∧ bits 0x0041A1FF 11 7 = 3 ∧
    bits 0x0041A1FF 31 25 = 0 ∧ bits 0x0041A1FF 24 20 = 4 ∧
    bits 0x0041A1FF 19 15 = 3 ∧ bits 0x0041A1FF 14 12 = 2 ∧
    Dis.decode_mnemonic 0x0041A1FF = "unknown" := by
  decide

/-- C9. For `lui` and `auipc` with `rd` below 32 and any immediate token `c`,
`encode_u_fmt` returns the word whose bits 31..12 are bits 31..12 of the
immediate, whose bits 11..7 are `rd` and whose opcode is `0x37` for `lui` and
`0x17` for `auipc`; an immediate with the same bits 31..12 gives the same
word. -/
theorem encode_u_fmt_layout (t : linetype) (lbl : Option String) (mn a c : String)
    (pc opcode : Nat)
    (ht : u_fmt_opcode t = some opcode) (ha : get_reg a < 32) :
    ∃ iw, encode_u_fmt ⟨t, lbl, [mn, a, c]⟩ pc = some iw ∧
      bits iw 31 12 = sbits (get_imm c) 31 12 ∧
      bits iw 11 7 = get_reg a ∧
      bits iw 6 0 = opcode ∧
      ∀ c2 : String, sbits (get_imm c2) 31 12 = sbits (get_imm c) 31 12 →
        encode_u_fmt ⟨t, lbl, [mn, a, c2]⟩ pc = some iw := by
  have key : ∀ x : Int, bits32 x / 4096 % 1048576 = sbits x 31 12 := by
    intro x
    unfold bits32 sbits
    norm_num
    omega
  have hop : ∀ c2 : String, get_opcode ⟨t, lbl, [mn, a, c2]⟩ = opcode := by
    intro c2
    cases t <;> simp [u_fmt_opcode] at ht <;> subst ht <;> rfl
  have hoplt : opcode < 128 := by
    cases t <;> simp [u_fmt_opcode] at ht <;> omega
  have hb : sbits (get_imm c) 31 12 < 1048576 := by rw [← key]; omega
  refine ⟨_, rfl, ?_⟩
  simp only [encode_u_fmt, hop, and_hi20, key, shl32_eq]
  refine ⟨?_, ?_, ?_, ?_⟩
  iterate 3
    generalize get_reg a = ra at ha ⊢
    generalize sbits (get_imm c) 31 12 = hi at hb ⊢
    norm_num
    simp (disch := omega) only [mod32_small]
    simp (disch := omega) only [or_eq_add 12, or_eq_add 7]
    unfold bits
    norm_num
    omega
  intro c2 h2
  rw [h2]

/-- C9, for `lui x5, 0x12345678`. -/
theorem encode_u_fmt_layout_witness :
    u_fmt_opcode .LUI = some 0x37 ∧ get_reg "x5" < 32 ∧
    ∃ iw, encode_u_fmt ⟨.LUI, none, ["lui", "x5", "0x12345678"]⟩ 0x00400000 = some iw ∧
      bits iw 31 12 = sbits (get_imm "0x12345678") 31 12 ∧
      bits iw 11 7 = get_reg "x5" ∧
      bits iw 6 0 = 0x37 ∧
      ∀ c2 : String, sbits (get_imm c2) 31 12 = sbits (get_imm "0x12345678") 31 12 →
        encode_u_fmt ⟨.LUI, none, ["lui", "x5", c2]⟩ 0x00400000 = some iw :=
  ⟨by decide, by decide,
    encode_u_fmt_layout .LUI none "lui" "x5" "0x12345678" 0x00400000 0x37 (by decide)
      (by decide)⟩

/-- C10. On `.text` / `li x1, 5` / `L: addi x2, x2, 1` the first pass registers
`L` at text offset 4 and ends with its cursor at 8, while the second pass emits
the two words of `li` at offsets 0 and 4, the code of the line labelled `L` at
offset 8, and ends with its cursor at 12. -/
theorem passes_disagree_after_li :
    (encode_text_first_pass prog_li_label symtab_empty).map
        (fun r => (symtab_find_address r.1 "L", r.2))
      = some (some (0x00400000 + 4), 8) ∧
    ((encode_text_first_pass prog_li_label symtab_empty).bind
        (fun r => encode_text_second_pass r.1 prog_li_label text_zero)).map
        (fun r => (r.1 0, r.1 4, r.1 8, r.2.1, r.2.2))
      = some (0x000000B7, 0x00508093, 0x00110113, 12, 12) ∧
    encode_insn symtab_empty
        { type := .ADDI, label := none, token_listhead := ["addi", "x2", "x2", "1"] }
        (0x00400000 + 8)
      = some 0x00110113 := by
  decide

/-- C12. For each of `j`, `mv`, `neg`, `nop`, `not` and `ret`,
`encode_pseudo_insn` returns 4 and its only store is the word that the base
instruction of the expansion encodes to at the same program counter: `jal x0, L`,
`addi rd, rs, 0`, `sub rd, x0, rs`, `addi x0, x0, 0` (`0x00000013`),
`xori rd, rs, -1`, `jalr x0, 0(ra)` (`0x00008067`). Here `rs` is a token that is
not empty and does not end in `)`, and the lookup of `L` ends. -/
theorem pseudo_single_word (st : Symtab) (lbl : Option String) (mn rd rs L : String)
    (offset addr : Nat) (text : TextSeg) (tp : Nat)
    (hrs : ends_with_paren rs = some false)
    (hL : symtab_find_address st L ≠ none) :
    (∃ iw, encode_insn st ⟨.JAL, none, ["jal", "x0", L]⟩ ((offset + addr) % 4294967296)
          = some iw ∧
        encode_pseudo_insn st ⟨.J, lbl, [mn, L]⟩ offset addr text tp
          = some (4, store_word text tp iw)) ∧
    (∃ iw, encode_insn st ⟨.ADDI, none, ["addi", rd, rs, "0"]⟩ ((offset + addr) % 4294967296)
          = some iw ∧
        encode_pseudo_insn st ⟨.MV, lbl, [mn, rd, rs]⟩ offset addr text tp
          = some (4, store_word text tp iw)) ∧
    (∃ iw, encode_insn st ⟨.SUB, none, ["sub", rd, "x0", rs]⟩ ((offset + addr) % 4294967296)
          = some iw ∧
        encode_pseudo_insn st ⟨.NEG, lbl, [mn, rd, rs]⟩ offset addr text tp
          = some (4, store_word text tp iw)) ∧
    (encode_insn st ⟨.ADDI, none, ["addi", "x0", "x0", "0"]⟩ ((offset + addr) % 4294967296)
          = some 0x00000013 ∧
        encode_pseudo_insn st ⟨.NOP, lbl, [mn]⟩ offset addr text tp
          = some (4, store_word text tp 0x00000013)) ∧
    (∃ iw, encode_insn st ⟨.XORI, none, ["xori", rd, rs, "-1"]⟩ ((offset + addr) % 4294967296)
          = some iw ∧
        encode_pseudo_insn st ⟨.NOT, lbl, [mn, rd, rs]⟩ offset addr text tp
          = some (4, store_word text tp iw)) ∧
    (encode_insn st ⟨.JALR, none, ["jalr", "x0", "0(ra)"]⟩ ((offset + addr) % 4294967296)
          = some 0x00008067 ∧
        encode_pseudo_insn st ⟨.RET, lbl, [mn]⟩ offset addr text tp
          = some (4, store_word text tp 0x00008067)) := by
  obtain ⟨pc, hpc⟩ : ∃ pc, pc = (offset + addr) % 4294967296 := ⟨_, rfl⟩
  rw [← hpc]
  have hj : ∃ iw, encode_uj_fmt st ⟨.JAL, none, ["jal", "x0", L]⟩ pc = some iw := by
    cases hf : symtab_find_address st L with
    | none => exact absurd hf hL
    | some a =>
      by_cases h0 : a = 0
      · exact ⟨0, by simp [encode_uj_fmt, hf, h0]⟩
      · exact ⟨_, by simp only [encode_uj_fmt, hf, if_neg h0, if_true]; rfl⟩
  have hnop : encode_i_fmt ⟨.ADDI, none, ["addi", "x0", "x0", "0"]⟩ pc = some 0x00000013 := by
    rfl
  have hret : encode_i_fmt ⟨.JALR, none, ["jalr", "x0", "0(ra)"]⟩ pc = some 0x00008067 := by
    rfl
  have hmv : ∃ iw, encode_i_fmt ⟨.ADDI, none, ["addi", rd, rs, "0"]⟩ pc = some iw :=
    ⟨_, by simp only [encode_i_fmt, hrs]; rfl⟩
  have hnot : ∃ iw, encode_i_fmt ⟨.XORI, none, ["xori", rd, rs, "-1"]⟩ pc = some iw :=
    ⟨_, by simp only [encode_i_fmt, hrs]; rfl⟩
  have hneg : ∃ iw, encode_r_fmt ⟨.SUB, none, ["sub", rd, "x0", rs]⟩ pc = some iw :=
    ⟨_, rfl⟩
  obtain ⟨iwj, hiwj⟩ := hj
  obtain ⟨iwm, hiwm⟩ := hmv
  obtain ⟨iwn, hiwn⟩ := hnot
  obtain ⟨iwg, hiwg⟩ := hneg
  refine ⟨⟨iwj, hiwj, ?_⟩, ⟨iwm, hiwm, ?_⟩, ⟨iwg, hiwg, ?_⟩, ⟨hnop, ?_⟩, ⟨iwn, hiwn, ?_⟩,
    ⟨hret, ?_⟩⟩
  · simp [encode_pseudo_insn, ← hpc, hiwj]
  · simp [encode_pseudo_insn, ← hpc, hiwm]
  · simp [encode_pseudo_insn, ← hpc, hiwg]
  · simp [encode_pseudo_insn, ← hpc, hnop]
  · simp [encode_pseudo_insn, ← hpc, hiwn]
  · simp [encode_pseudo_insn, ← hpc, hret]

/-- C12, for `mv x5, x6` and `j END` with `END` in the table. -/
theorem pseudo_single_word_witness :
    ends_with_paren "x6" = some false ∧
    symtab_find_address (symtab_single "END" 0x00400008) "END" ≠ none ∧
    ∃ iw, encode_insn (symtab_single "END" 0x00400008) ⟨.ADDI, none, ["addi", "x5", "x6", "0"]⟩
          ((0x00400000 + 0) % 4294967296) = some iw ∧
        encode_pseudo_insn (symtab_single "END" 0x00400008) ⟨.MV, none, ["mv", "x5", "x6"]⟩
          0x00400000 0 text_zero 0 = some (4, store_word text_zero 0 iw) :=
  ⟨by decide, by decide,
    (pseudo_single_word (symtab_single "END" 0x00400008) none "mv" "x5" "x6" "END"
      0x00400000 0 text_zero 0 (by decide) (by decide)).2.1⟩


/-- C15. `sw x5, -4(sp)`: the encoded word decodes to the mnemonic `sw` and the
names of the same registers, but the offset is printed from a `uint16_t`, as
`65532` instead of `-4`. -/
theorem sw_negative_offset_printed_unsigned :
    encode_s_fmt { type := .SW, label := none, token_listhead := ["sw", "x5", "-4(sp)"] }
        0x00400000 = some 0xFE512E23 ∧
    Dis.decode_mnemonic 0xFE512E23 = "sw" ∧
    Dis.decode_operands 0xFE512E23 = some "t0, 65532(sp)" ∧
    abi_name (get_reg "x5") = "t0" ∧ abi_name (get_reg "sp") = "sp" ∧
    fmt_d (get_imm "-4") = "-4" := by
  decide

/-- C17. The word `0x8000006F` is `jal` with the UJ offset `-1048576` (bit 31
set, every other offset bit clear); the disassembler prints `-524288`. -/
theorem jal_offset_sign_placed_at_bit_19 :
    Dis.decode_mnemonic 0x8000006F = "jal" ∧
    uj_immediate 0x8000006F = -1048576 ∧
    Dis.decode_operands 0x8000006F = some "zero, -524288" ∧
    fmt_d (uj_immediate 0x8000006F) = "-1048576" := by
  decide

/-- C18. `lui x5, 0x12345000` is encoded as `0x123452B7`, and the decoder
prints `t0, 74565` (`0x12345`, the 20-bit field) for it, not the operand
`305418240` (`0x12345000`). The text that is printed, `lui t0, 74565`, is
encoded as another word, `0x000122B7`, which is printed `t0, 18`. The `li`
path stores the same first word `0x123452B7` for `li x5, 0x12345000`, built
from the 20-bit field as `imm_long << 12`. -/
theorem lui_operand_not_recovered :
    encode_u_fmt { type := .LUI, label := none, token_listhead := ["lui", "x5", "0x12345000"] }
        0x00400000 = some 0x123452B7 ∧
    get_imm "0x12345000" = 305418240 ∧
    Dis.decode_mnemonic 0x123452B7 = "lui" ∧
    Dis.decode_operands 0x123452B7 = some "t0, 74565" ∧
    Dis.decode_operands 0x123452B7
      ≠ some (abi_name (get_reg "x5") ++ ", " ++ fmt_d (get_imm "0x12345000")) ∧
    encode_u_fmt { type := .LUI, label := none, token_listhead := ["lui", "t0", "74565"] }
        0x00400000 = some 0x000122B7 ∧
    Dis.decode_operands 0x000122B7 = some "t0, 18" ∧
    (encode_pseudo_insn symtab_empty
        { type := .LI, label := none, token_listhead := ["li", "x5", "0x12345000"] }
        0x00400000 0 text_zero 0).map (fun r => (r.1, r.2 0))
      = some (8, 0x123452B7) := by
  decide

/-- C20. `start0` and `start` hash to the same bucket (142) and `start` is a
proper prefix of `start0`: after `symtab_add("start0", 0x00400000)` and
`symtab_add("start", 0x00400010)` on the empty table, the lookup of `start`
returns the address of `start0`. -/
theorem symtab_prefix_label_shadowed :
    hash "start0" % TBLSZ = 142 ∧ hash "start" % TBLSZ = 142 ∧
    ((symtab_add symtab_empty "start0" 0x00400000).bind
        (fun t => symtab_add t "start" 0x00400010)).map
        (fun t => (symtab_find_address t "start0", symtab_find_address t "start"))
      = some (some 0x00400000, some 0x00400000) := by
  decide

/-- C19. In a table where the probe for `L` reaches an empty slot after `j`
occupied slots that do not match, `symtab_add(L, a)` returns, the lookup of `L`
then returns `a`, a further `symtab_add(L, b)` leaves the table as it is, so
the lookup still returns `a`; and no `symtab_add` changes a slot that was
occupied. -/
theorem symtab_first_definition_wins (t : Symtab) (L : String) (a j : Nat)
    (hj : j < TBLSZ)
    (hempty : (t ((hash L % TBLSZ + j) % TBLSZ)).label = none)
    (hnomatch : ∀ i < j, ∃ l, (t ((hash L % TBLSZ + i) % TBLSZ)).label = some l ∧
      strncmp_zero l L L.length = false) :
    ∃ t1, symtab_add t L a = some t1 ∧
      symtab_find_address t1 L = some a ∧
      (∀ b, symtab_add t1 L b = some t1) ∧
      (∀ b, (symtab_add t1 L b).bind (fun t2 => symtab_find_address t2 L) = some a) ∧
      (∀ (u : Symtab) (M : String) (m : Nat) (u2 : Symtab), symtab_add u M m = some u2 →
        ∀ i, (u i).label ≠ none → u2 i = u i) := by
  have hh : hash L % TBLSZ < TBLSZ := Nat.mod_lt _ (by decide)
  have hp := add_probe_path t L j TBLSZ (hash L % TBLSZ) hh hj hempty hnomatch
  have hfind := find_probe_after_add t L a _ _ _ hp
  have hadd : ∀ b, symtab_add
      (fun i => if i = (hash L % TBLSZ + j) % TBLSZ then { label := some L, address := a }
        else t i) L b
      = some (fun i => if i = (hash L % TBLSZ + j) % TBLSZ then
        { label := some L, address := a } else t i) := by
    intro b
    unfold symtab_add
    rw [add_probe_after_add t L a _ _ _ hp]
  refine ⟨_, by unfold symtab_add; rw [hp], hfind, hadd, ?_, ?_⟩
  · intro b
    rw [hadd b]
    exact hfind
  · intro u M m u2 h i hi
    exact symtab_add_keeps_occupied u M m u2 h i hi

/-- C19, for `sort` in the table that holds `start0` in the bucket of `sort`. -/
theorem symtab_first_definition_wins_witness :
    (symtab_single "start0" 0x00400000 ((hash "sort" % TBLSZ + 1) % TBLSZ)).label = none ∧
    ∃ t1, symtab_add (symtab_single "start0" 0x00400000) "sort" 0x00400004 = some t1 ∧
      symtab_find_address t1 "sort" = some 0x00400004 ∧
      (∀ b, symtab_add t1 "sort" b = some t1) ∧
      (∀ b, (symtab_add t1 "sort" b).bind (fun t2 => symtab_find_address t2 "sort")
        = some 0x00400004) ∧
      (∀ (u : Symtab) (M : String) (m : Nat) (u2 : Symtab), symtab_add u M m = some u2 →
        ∀ i, (u i).label ≠ none → u2 i = u i) :=
  ⟨by decide,
    symtab_first_definition_wins (symtab_single "start0" 0x00400000) "sort" 0x00400004 1
      (by decide) (by decide)
      (fun i hi => by
        have : i = 0 := by omega
        subst this
        exact ⟨"start0", by decide, by decide⟩)⟩

/-- C16. For every 32-bit word with opcode `0x63` and funct3 0 or 1 the
disassembler gives the mnemonic `beq` or `bne` and the operands
`rs1, rs2, off`, `off` being the signed 13-bit offset laid out in the SB format;
hence the word `encode_sb_fmt` returns for `beq`/`bne` with an even offset in
`[-4096, 4094]` decodes to the same mnemonic, registers and offset. -/
theorem sb_decode_round_trip (w : Nat) (hw : w < 4294967296) (hop : bits w 6 0 = 0x63)
    (hf3 : bits w 14 12 ≤ 1)
    (symtab : Symtab) (t : linetype) (lbl : Option String)
    (mn a b target : String) (pc addr : Nat) (off : Int)
    (ht : t = .BEQ ∨ t = .BNE)
    (ha : get_reg a < 32) (hb : get_reg b < 32)
    (hfind : symtab_find_address symtab target = some addr) (haddr : addr ≠ 0)
    (hoff : (addr : Int) - (pc : Int) = off)
    (heven : off % 2 = 0) (hlo : -4096 ≤ off) (hhi : off ≤ 4094) :
    (Dis.decode_mnemonic w = (if bits w 14 12 = 0 then "beq" else "bne") ∧
      Dis.decode_operands w = some (abi_name (bits w 19 15) ++ ", " ++ abi_name (bits w 24 20)
        ++ ", " ++ fmt_d (sb_immediate w))) ∧
    ∃ iw, encode_sb_fmt symtab ⟨t, lbl, [mn, a, b, target]⟩ pc = some iw ∧
      Dis.decode_mnemonic iw = (if t = .BEQ then "beq" else "bne") ∧
      Dis.decode_operands iw = some (abi_name (get_reg a) ++ ", " ++ abi_name (get_reg b)
        ++ ", " ++ fmt_d off) := by
  have general : ∀ v : Nat, v < 4294967296 → bits v 6 0 = 0x63 → bits v 14 12 ≤ 1 →
      Dis.decode_mnemonic v = (if bits v 14 12 = 0 then "beq" else "bne") ∧
      Dis.decode_operands v = some (abi_name (bits v 19 15) ++ ", " ++ abi_name (bits v 24 20)
        ++ ", " ++ fmt_d (sb_immediate v)) := by
    intro v hv hvop hvf3
    obtain ⟨e1, e2, _, _, _⟩ := dis_fields v
    have hcases : bits v 14 12 = 0 ∨ bits v 14 12 = 1 := by omega
    constructor
    · unfold Dis.decode_mnemonic
      rw [e1, e2, hvop]
      rcases hcases with h | h <;> rw [h] <;> rfl
    · unfold Dis.decode_operands
      simp only [e1, e2, hvop]
      rcases hcases with h | h <;> simp [h, dis_sb_operands v hv]
  refine ⟨general w hw hop hf3, ?_⟩
  have hsum := encode_sb_fmt_sum symtab t lbl mn a b target pc addr off ht ha hb hfind haddr
    hoff hlo (by omega)
  have b12 : sbits off 12 12 < 2 := by unfold sbits; norm_num; omega
  have b11 : sbits off 11 11 < 2 := by unfold sbits; norm_num; omega
  have b105 : sbits off 10 5 < 64 := by unfold sbits; norm_num; omega
  have b41 : sbits off 4 1 < 16 := by unfold sbits; norm_num; omega
  have hf3lt : (if t = linetype.BEQ then 0 else 1 : Nat) < 8 := by split <;> omega
  obtain ⟨p0, p1, p2, p3, p4, p5, p6, p7, p8⟩ := bits_pack_sb (sbits off 12 12)
    (sbits off 10 5) (get_reg b) (get_reg a) (if t = .BEQ then 0 else 1) (sbits off 4 1)
    (sbits off 11 11) 0x63 b12 b105 hb ha hf3lt b41 b11 (by norm_num)
  have himm := sb_immediate_of_fields _ off hlo hhi heven p1 p7 p2 p6
  have hf : (if t = linetype.BEQ then 0 else 1 : Nat) ≤ 1 := by split <;> omega
  obtain ⟨g1, g2⟩ := general _ p0 p8 (by rw [p5]; exact hf)
  refine ⟨_, hsum, ?_, ?_⟩
  · rw [g1, p5]
    rcases ht with rfl | rfl <;> rfl
  · rw [g2, p4, p3, himm]

/-- C14. Round trip of the I format: for `addi`, `andi`, `ori`, `xori`, `slti`,
`lw` and `jalr` with register indices below 32 and an immediate in
`[-2048, 2047]`, the word `encode_i_fmt` returns (for the operands
`rd, rs1, imm` as for `rd, imm(rs1)`) decodes to the same mnemonic, the ABI
names of `rd` and `rs1` and the same signed immediate, printed `rd, rs1, imm`,
and `rd, imm(rs1)` for `lw` and `jalr`. -/
theorem i_fmt_round_trip (t : linetype) (lbl : Option String) (mn a b c m : String)
    (pc : Nat) (imm : Int)
    (hm : i_fmt_mnemonic t = some m)
    (ha : get_reg a < 32) (hb : get_reg b < 32)
    (hbtok : ends_with_paren b = some false)
    (hc0 : c.data ≠ []) (hc1 : '(' ∉ c.data.tail)
    (himm : get_imm c = imm) (hlo : -2048 ≤ imm) (hhi : imm ≤ 2047) :
    ∃ iw, encode_i_fmt ⟨t, lbl, [mn, a, b, c]⟩ pc = some iw ∧
      encode_i_fmt ⟨t, lbl, [mn, a, c ++ "(" ++ b ++ ")"]⟩ pc = some iw ∧
      Dis.decode_mnemonic iw = m ∧
      Dis.decode_operands iw = some
        (if t = .LW ∨ t = .JALR then
          abi_name (get_reg a) ++ ", " ++ fmt_d imm ++ "(" ++ abi_name (get_reg b) ++ ")"
        else abi_name (get_reg a) ++ ", " ++ abi_name (get_reg b) ++ ", " ++ fmt_d imm) := by
  have h16 : to_int16 imm = imm := by
    unfold to_int16
    omega
  obtain ⟨opcode, funct3, hcodes⟩ : ∃ opcode funct3, i_fmt_codes t = some (opcode, funct3) := by
    cases t <;> simp [i_fmt_mnemonic] at hm <;> exact ⟨_, _, rfl⟩
  have hf3lt : funct3 < 8 := by
    cases t <;> simp [i_fmt_codes] at hcodes <;> omega
  have hoplt : opcode < 128 := by
    cases t <;> simp [i_fmt_codes] at hcodes <;> omega
  have b110 : sbits imm 11 0 < 4096 := by unfold sbits; norm_num; omega
  have hsum := i_fmt_word_sum t lbl [mn, a, b, c] (get_reg a) (get_reg b) opcode funct3 imm
    hcodes ha hb
  have hword : i_fmt_word ⟨t, lbl, [mn, a, b, c]⟩ (get_reg a) (get_reg b) imm =
      i_fmt_word ⟨t, lbl, [mn, a, c ++ "(" ++ b ++ ")"]⟩ (get_reg a) (get_reg b) imm := rfl
  obtain ⟨p0, p1, p2, p3, p4, p5⟩ := bits_pack_i (sbits imm 11 0) (get_reg b) funct3
    (get_reg a) opcode b110 hb hf3lt ha hoplt
  obtain ⟨e1, e2, _, _, _⟩ := dis_fields (sbits imm 11 0 * 1048576 + get_reg b * 32768
    + funct3 * 4096 + get_reg a * 128 + opcode)
  obtain ⟨o1, o2, o3⟩ := dis_i_operands _ p0
  refine ⟨sbits imm 11 0 * 1048576 + get_reg b * 32768 + funct3 * 4096 + get_reg a * 128
    + opcode, ?_, ?_, ?_, ?_⟩
  · simp only [encode_i_fmt, hbtok, himm, h16, hsum]
  · simp only [encode_i_fmt, ends_with_paren_mem_operand,
      split_mem_operand_mem_operand c b hc0 hc1, himm, h16, if_true, ← hword, hsum]
  · unfold Dis.decode_mnemonic
    rw [e1, e2, p3, p5]
    cases t <;> simp [i_fmt_mnemonic] at hm <;> simp [i_fmt_codes] at hcodes <;>
      obtain ⟨rfl, rfl⟩ := hcodes <;> subst hm <;> rfl
  · unfold Dis.decode_operands
    simp only [e1, e2, p3, p5, o1, o2, o3, p1, p2, p4, sign_extend12_sbits imm hlo hhi]
    cases t <;> simp [i_fmt_mnemonic] at hm <;> simp [i_fmt_codes] at hcodes <;>
      obtain ⟨rfl, rfl⟩ := hcodes <;> simp

/-- What the decoder prints for a word of `encode_u_fmt`: for `lui` and `auipc`
with `rd` below 32 and any immediate token, the mnemonic, the ABI name of `rd`,
and the immediate operand shifted right by 12 bits (the signed value of its
bits 31..12). -/
theorem u_fmt_round_trip_upper (t : linetype) (lbl : Option String) (mn a c m : String)
    (pc : Nat)
    (hm : u_fmt_mnemonic t = some m) (ha : get_reg a < 32) :
    ∃ iw, encode_u_fmt ⟨t, lbl, [mn, a, c]⟩ pc = some iw ∧
      Dis.decode_mnemonic iw = m ∧
      Dis.decode_operands iw = some (abi_name (get_reg a) ++ ", " ++ fmt_d (get_imm c / 4096)) := by
  obtain ⟨opcode, hcode⟩ : ∃ opcode, u_fmt_opcode t = some opcode := by
    cases t <;> simp [u_fmt_mnemonic] at hm <;> exact ⟨_, rfl⟩
  have hoplt : opcode < 128 := by
    cases t <;> simp [u_fmt_opcode] at hcode <;> omega
  obtain ⟨rlo, rhi⟩ := get_imm_range c
  have hb : sbits (get_imm c) 31 12 < 1048576 := by unfold sbits; norm_num; omega
  have hsum := encode_u_fmt_sum t lbl mn a c pc opcode hcode ha
  obtain ⟨p0, p1, p2, p3⟩ := bits_pack_u (sbits (get_imm c) 31 12) (get_reg a) opcode hb ha hoplt
  obtain ⟨e1, e2, _, _, _⟩ := dis_fields (sbits (get_imm c) 31 12 * 4096 + get_reg a * 128
    + opcode)
  have hval : (if sbits (get_imm c) 31 12 < 524288 then (sbits (get_imm c) 31 12 : Int)
      else (sbits (get_imm c) 31 12 : Int) - 1048576) = get_imm c / 4096 := by
    unfold sbits
    norm_num
    split <;> omega
  refine ⟨sbits (get_imm c) 31 12 * 4096 + get_reg a * 128 + opcode, hsum, ?_, ?_⟩
  · unfold Dis.decode_mnemonic
    rw [e1, p3]
    cases t <;> simp [u_fmt_mnemonic] at hm <;> simp [u_fmt_opcode] at hcode <;>
      subst hcode <;> subst hm <;> rfl
  · unfold Dis.decode_operands
    simp only [e1, p3, dis_u_operands _ p0, p1, p2, hval]
    cases t <;> simp [u_fmt_mnemonic] at hm <;> simp [u_fmt_opcode] at hcode <;>
      subst hcode <;> simp

/-- C14, for `lw x5, -8(sp)`. -/
theorem i_fmt_round_trip_witness :
    i_fmt_mnemonic .LW = some "lw" ∧ get_reg "x5" < 32 ∧ get_reg "sp" < 32 ∧
    get_imm "-8" = -8 ∧
    ∃ iw, encode_i_fmt ⟨.LW, none, ["lw", "x5", "sp", "-8"]⟩ 0x00400000 = some iw ∧
      encode_i_fmt ⟨.LW, none, ["lw", "x5", "-8" ++ "(" ++ "sp" ++ ")"]⟩ 0x00400000 = some iw ∧
      Dis.decode_mnemonic iw = "lw" ∧
      Dis.decode_operands iw = some
        (if linetype.LW = .LW ∨ linetype.LW = .JALR then
          abi_name (get_reg "x5") ++ ", " ++ fmt_d (-8) ++ "(" ++ abi_name (get_reg "sp") ++ ")"
        else abi_name (get_reg "x5") ++ ", " ++ abi_name (get_reg "sp") ++ ", " ++ fmt_d (-8)) :=
  ⟨by decide, by decide, by decide, by decide,
    i_fmt_round_trip .LW none "lw" "x5" "sp" "-8" "lw" 0x00400000 (-8) (by decide) (by decide)
      (by decide) (by decide) (by decide) (by decide) (by decide) (by decide) (by decide)⟩

/-- C16, for the word `0x00208463` and for `bne x1, x2, BACK` with `BACK` 4 bytes
behind. -/
theorem sb_decode_round_trip_witness :
    bits 0x00208463 6 0 = 0x63 ∧ bits 0x00208463 14 12 ≤ 1 ∧
    symtab_find_address (symtab_single "BACK" 0x00400000) "BACK" = some 0x00400000 ∧
    (Dis.decode_mnemonic 0x00208463 = (if bits 0x00208463 14 12 = 0 then "beq" else "bne") ∧
      Dis.decode_operands 0x00208463 = some (abi_name (bits 0x00208463 19 15) ++ ", "
        ++ abi_name (bits 0x00208463 24 20) ++ ", " ++ fmt_d (sb_immediate 0x00208463))) ∧
    ∃ iw, encode_sb_fmt (symtab_single "BACK" 0x00400000)
        ⟨.BNE, none, ["bne", "x1", "x2", "BACK"]⟩ 0x00400004 = some iw ∧
      Dis.decode_mnemonic iw = (if linetype.BNE = .BEQ then "beq" else "bne") ∧
      Dis.decode_operands iw = some (abi_name (get_reg "x1") ++ ", " ++ abi_name (get_reg "x2")
        ++ ", " ++ fmt_d (-4)) :=
  ⟨by decide, by decide, by decide,
    sb_decode_round_trip 0x00208463 (by decide) (by decide) (by decide)
      (symtab_single "BACK" 0x00400000) .BNE none "bne" "x1" "x2" "BACK" 0x00400004 0x00400000
      (-4) (by decide) (by decide) (by decide) (by decide) (by decide) (by decide) (by decide)
      (by decide) (by decide)⟩

/-- The decoded text of `lui x5, 0x12345000`. -/
theorem u_fmt_round_trip_upper_witness :
    u_fmt_mnemonic .LUI = some "lui" ∧ get_reg "x5" < 32 ∧
    ∃ iw, encode_u_fmt ⟨.LUI, none, ["lui", "x5", "0x12345000"]⟩ 0x00400000 = some iw ∧
      Dis.decode_mnemonic iw = "lui" ∧
      Dis.decode_operands iw
        = some (abi_name (get_reg "x5") ++ ", " ++ fmt_d (get_imm "0x12345000" / 4096)) :=
  ⟨by decide, by decide,
    u_fmt_round_trip_upper .LUI none "lui" "x5" "0x12345000" "lui" 0x00400000 (by decide)
      (by decide)⟩

/-- C21, amended. In a table where `L` was added with a non-zero address `a`
(its probe reached an empty slot without a match) and where the probe for `M`
reaches an empty slot without a match, the lookup of `L` returns `a` and the
lookup of `M` returns 0, so the two results differ. -/
theorem find_absent_returns_zero (t t1 : Symtab) (L M : String) (a j k : Nat)
    (ha : a ≠ 0)
    (hj : j < TBLSZ)
    (hempty : (t ((hash L % TBLSZ + j) % TBLSZ)).label = none)
    (hnomatch : ∀ i < j, ∃ l, (t ((hash L % TBLSZ + i) % TBLSZ)).label = some l ∧
      strncmp_zero l L L.length = false)
    (hadd : symtab_add t L a = some t1)
    (hk : k < TBLSZ)
    (hMempty : (t1 ((hash M % TBLSZ + k) % TBLSZ)).label = none)
    (hMnomatch : ∀ i < k, ∃ l, (t1 ((hash M % TBLSZ + i) % TBLSZ)).label = some l ∧
      strncmp_zero l M M.length = false) :
    symtab_find_address t1 L = some a ∧ symtab_find_address t1 M = some 0 ∧
    symtab_find_address t1 L ≠ symtab_find_address t1 M := by
  have hh : hash L % TBLSZ < TBLSZ := Nat.mod_lt _ (by decide)
  have hp := add_probe_path t L j TBLSZ (hash L % TBLSZ) hh hj hempty hnomatch
  have hfind := find_probe_after_add t L a _ _ _ hp
  have ht1 : t1 = fun i => if i = (hash L % TBLSZ + j) % TBLSZ then
      { label := some L, address := a } else t i := by
    unfold symtab_add at hadd
    rw [hp] at hadd
    exact (Option.some.inj hadd).symm
  have hL : symtab_find_address t1 L = some a := by
    rw [ht1]
    exact hfind
  have hM : symtab_find_address t1 M = some 0 :=
    find_probe_absent t1 M k TBLSZ (hash M % TBLSZ) (Nat.mod_lt _ (by decide)) hk hMempty
      hMnomatch
  refine ⟨hL, hM, ?_⟩
  rw [hL, hM]
  intro e
  exact ha (Option.some.inj e)

/-- C21 as amended, for `L` added with `0x00400000` on the empty table and `M`
never added. -/
theorem find_absent_returns_zero_witness :
    symtab_add symtab_empty "L" 0x00400000 = some (symtab_single "L" 0x00400000) ∧
    symtab_find_address (symtab_single "L" 0x00400000) "L" = some 0x00400000 ∧
    symtab_find_address (symtab_single "L" 0x00400000) "M" = some 0 ∧
    symtab_find_address (symtab_single "L" 0x00400000) "L"
      ≠ symtab_find_address (symtab_single "L" 0x00400000) "M" :=
  ⟨rfl,
    find_absent_returns_zero symtab_empty (symtab_single "L" 0x00400000) "L" "M" 0x00400000 0 0
      (by decide) (by decide) (by decide) (fun i hi => absurd hi (Nat.not_lt_zero i)) rfl
      (by decide) (by decide) (fun i hi => absurd hi (Nat.not_lt_zero i))⟩

/-- C22. In a table whose 255 slots are all occupied by labels that do not
match `L`, the probe loops of `symtab_add` and `symtab_find_address` are not
left after any number of iterations, from any slot: neither function returns,
and nothing is reported. -/
theorem full_table_probe_never_exits (t : Symtab) (L : String) (a : Nat)
    (hfull : ∀ i < TBLSZ, ∃ l, (t i).label = some l ∧ strncmp_zero l L L.length = false) :
    (∀ fuel hv, hv < TBLSZ → add_probe t L fuel hv = none) ∧
    (∀ fuel hv, hv < TBLSZ → find_probe t L fuel hv = none) ∧
    symtab_add t L a = none ∧ symtab_find_address t L = none := by
  have hh : hash L % TBLSZ < TBLSZ := Nat.mod_lt _ (by decide)
  refine ⟨add_probe_full t L hfull, find_probe_full t L hfull, ?_, ?_⟩
  · unfold symtab_add
    rw [add_probe_full t L hfull _ _ hh]
  · exact find_probe_full t L hfull _ _ hh

/-- C22, for the table that holds one label in each of the 255 slots and the
label `overflow`. -/
theorem full_table_probe_never_exits_witness :
    (∀ i < TBLSZ, (symtab_full i).label = some (full_labels.getD i "")) ∧
    symtab_add symtab_full "overflow" 0x00400400 = none ∧
    symtab_find_address symtab_full "overflow" = none :=
  ⟨fun i hi => (symtab_full_blocks i hi).1,
    (full_table_probe_never_exits symtab_full "overflow" 0x00400400
      (fun i hi => ⟨_, (symtab_full_blocks i hi).1, (symtab_full_blocks i hi).2.2⟩)).2.2⟩

/-- C21, as stated, fails for `L` added with address 0 on the empty table and
`M` never added: both lookups return 0. -/
theorem find_address_zero_counterexample :
    (symtab_add symtab_empty "L" 0).map
        (fun t => ((t (hash "L" % TBLSZ)).label, symtab_find_address t "L",
          symtab_find_address t "M"))
      = some (some "L", some 0, some 0) := by
  decide

/-- C23, as stated, fails for `.text` / `beq x1, x2, NOWHERE` / `nop` with the
empty table: the second pass returns, the word 0 is stored at offset 0 and the
`nop` after it is encoded at offset 4. The same holds for `j NOWHERE`; for
`la x5, NOWHERE` nothing is stored and the `nop` is encoded at offset 0. -/
theorem unresolved_target_counterexample :
    symtab_find_address symtab_empty "NOWHERE" = some 0 ∧
    (encode_text_second_pass symtab_empty
        [line_text, ⟨.BEQ, none, ["beq", "x1", "x2", "NOWHERE"]⟩, ⟨.NOP, none, ["nop"]⟩]
        (fun _ => 0xFFFFFFFF)).map (fun r => (r.1 0, r.1 4, r.1 8, r.2))
      = some (0, 0x00000013, 0xFFFFFFFF, 8, 8) ∧
    (encode_text_second_pass symtab_empty
        [line_text, ⟨.J, none, ["j", "NOWHERE"]⟩, ⟨.NOP, none, ["nop"]⟩]
        (fun _ => 0xFFFFFFFF)).map (fun r => (r.1 0, r.1 4, r.1 8, r.2))
      = some (0, 0x00000013, 0xFFFFFFFF, 8, 8) ∧
    (encode_text_second_pass symtab_empty
        [line_text, ⟨.LA, none, ["la", "x5", "NOWHERE"]⟩, ⟨.NOP, none, ["nop"]⟩]
        (fun _ => 0xFFFFFFFF)).map (fun r => (r.1 0, r.1 4, r.1 8, r.2))
      = some (0x00000013, 0xFFFFFFFF, 0xFFFFFFFF, 4, 4) := by
  decide

/-- C24, as stated, fails for `asciiz "AB"` and `asciiz "A"` at offset 0: the
bytes at offsets 0..3 are `0, 0, 'B', 'A'` and `0, 0, 0, 'A'`. -/
theorem asciiz_source_order_counterexample :
    (encode_data_loop [line_data, ⟨.ASCIIZ, none, ["asciiz", "\"AB\""]⟩] symtab_empty
        data_fresh 0).map (fun r => ((List.range 5).map r.2.1, r.2.2))
      = some ([0, 0, 0x42, 0x41, 0xAA], 4) ∧
    (encode_data_loop [line_data, ⟨.ASCIIZ, none, ["asciiz", "\"A\""]⟩] symtab_empty
        data_fresh 0).map (fun r => ((List.range 5).map r.2.1, r.2.2))
      = some ([0, 0, 0, 0x41, 0xAA], 4) := by
  decide

/-- C25, as stated, fails for `word 1, 2` at offset 0: the eight bytes are
`00 00 00 01 00 00 00 02`. -/
theorem word_lsb_first_counterexample :
    (encode_data_loop [line_data, ⟨.WORD, none, ["word", "1", "2"]⟩] symtab_empty
        data_fresh 0).map (fun r => ((List.range 9).map r.2.1, r.2.2))
      = some ([0, 0, 0, 1, 0, 0, 0, 2, 0xAA], 8) := by
  decide

/-- C27. The word `0x40209093` has opcode `0x13`, funct3 1 and funct7 `0x20`:
`decode_operation` gives `unknown` for it, and `decode_operands` gives the
operands `ra, ra, 2`, not the empty string. -/
theorem unknown_shift_has_operands :
    bits 0x40209093 6 0 = 0x13 ∧ bits 0x40209093 14 12 = 1 ∧ bits 0x40209093 31 25 = 0x20 ∧
    Dis.decode_operation 0x13 1 0x20 = "unknown" ∧
    Dis.decode_mnemonic 0x40209093 = "unknown" ∧
    Dis.decode_operands 0x40209093 = some "ra, ra, 2" := by
  decide

/-- C28. `get_reg` returns 0 for `t6`, the name the disassembler prints for
register 31; it returns `i` for the name of every register `i` below 31, `N`
for `xN` with `N` up to 31, and 8 for `fp`. -/
theorem get_reg_t6_is_zero :
    Dis.get_reg_name 31 = some "t6" ∧ get_reg "t6" = 0 ∧
    (∀ i < 31, (Dis.get_reg_name i).map get_reg = some i) ∧
    (∀ n < 32, get_reg ("x" ++ Nat.repr n) = n) ∧
    get_reg "fp" = 8 := by
  decide

/-- C23, amended. When the lookup of the target label returns 0 (the label is
not in the table), `encode_insn` returns the word 0 for `beq`, `bne` and `jal`;
in the second pass the word 0 is stored for such a line and for `j`, nothing is
stored for `la` (0 bytes), and the loop goes on with the lines after it. -/
theorem unresolved_target_stored_as_zero (st : Symtab) (lbl : Option String)
    (mn a b L : String) (next : List line) (text : TextSeg) (tp addr pc : Nat)
    (hfind : symtab_find_address st L = some 0) :
    encode_insn st ⟨.BEQ, lbl, [mn, a, b, L]⟩ pc = some 0 ∧
    encode_insn st ⟨.BNE, lbl, [mn, a, b, L]⟩ pc = some 0 ∧
    encode_insn st ⟨.JAL, lbl, [mn, a, L]⟩ pc = some 0 ∧
    second_pass_loop st (⟨.BEQ, lbl, [mn, a, b, L]⟩ :: next) text tp addr
      = second_pass_loop st next (store_word text tp 0) (tp + 4) ((addr + 4) % 4294967296) ∧
    second_pass_loop st (⟨.BNE, lbl, [mn, a, b, L]⟩ :: next) text tp addr
      = second_pass_loop st next (store_word text tp 0) (tp + 4) ((addr + 4) % 4294967296) ∧
    second_pass_loop st (⟨.JAL, lbl, [mn, a, L]⟩ :: next) text tp addr
      = second_pass_loop st next (store_word text tp 0) (tp + 4) ((addr + 4) % 4294967296) ∧
    second_pass_loop st (⟨.J, lbl, [mn, L]⟩ :: next) text tp addr
      = second_pass_loop st next (store_word text tp 0) (tp + 4) ((addr + 4) % 4294967296) ∧
    second_pass_loop st (⟨.LA, lbl, [mn, a, L]⟩ :: next) text tp addr
      = second_pass_loop st next text tp (addr % 4294967296) := by
  have hsb : ∀ t q, encode_sb_fmt st ⟨t, lbl, [mn, a, b, L]⟩ q = some 0 := by
    intro t q
    simp [encode_sb_fmt, hfind]
  have huj : ∀ l toks q, encode_uj_fmt st ⟨.JAL, l, mn :: a :: L :: toks⟩ q = some 0 := by
    intro l toks q
    simp [encode_uj_fmt, hfind]
  have huj2 : ∀ q, encode_uj_fmt st ⟨.JAL, none, ["jal", "x0", L]⟩ q = some 0 := by
    intro q
    simp [encode_uj_fmt, hfind]
  refine ⟨?_, ?_, ?_, ?_, ?_, ?_, ?_, ?_⟩
  · simp only [encode_insn, hsb]
  · simp only [encode_insn, hsb]
  · simp only [encode_insn, huj]
  · rw [second_pass_loop]
    simp [encode_insn, hsb, linetype.val, NUM_DIRECTIVES, FIRST_PSEUDOINST]
  · rw [second_pass_loop]
    simp [encode_insn, hsb, linetype.val, NUM_DIRECTIVES, FIRST_PSEUDOINST]
  · rw [second_pass_loop]
    simp [encode_insn, huj, linetype.val, NUM_DIRECTIVES, FIRST_PSEUDOINST]
  · rw [second_pass_loop]
    simp [encode_pseudo_insn, huj2, linetype.val, NUM_DIRECTIVES, FIRST_PSEUDOINST, to_uint8]
  · rw [second_pass_loop]
    simp [encode_pseudo_insn, hfind, linetype.val, NUM_DIRECTIVES, FIRST_PSEUDOINST, to_uint8]

/-- C23 as amended, for the empty table and the target `NOWHERE`. -/
theorem unresolved_target_stored_as_zero_witness :
    symtab_find_address symtab_empty "NOWHERE" = some 0 ∧
    second_pass_loop symtab_empty
        [⟨.BEQ, none, ["beq", "x1", "x2", "NOWHERE"]⟩, ⟨.NOP, none, ["nop"]⟩] text_zero 0 0
      = second_pass_loop symtab_empty [⟨.NOP, none, ["nop"]⟩] (store_word text_zero 0 0)
        (0 + 4) ((0 + 4) % 4294967296) :=
  ⟨by decide,
    (unresolved_target_stored_as_zero symtab_empty none "beq" "x1" "x2" "NOWHERE"
      [⟨.NOP, none, ["nop"]⟩] text_zero 0 0 0 (by decide)).2.2.2.1⟩

/-- C25, amended. `word v1, v2, ...` at offset `a` stores each value, read by
`atoi` and converted to `uint32_t`, most significant byte first: bits 31..24 at
`a + 4j`, bits 23..16 at `a + 4j + 1`, bits 15..8 at `a + 4j + 2` and bits 7..0
at `a + 4j + 3` for the value of index `j`; the cursor advances by 4 for each
value, the other bytes are unchanged, and the loop of `encode_data` goes on
from there. -/
theorem word_stored_msb_first (st : Symtab) (mn : String) (toks : List String)
    (next : List line) (data : DataSeg) (a : Nat)
    (hfit : a + 4 * toks.length < 4294967296) :
    ∃ data2, word_loop toks data a = (data2, a + 4 * toks.length) ∧
      encode_data_loop (⟨.WORD, none, mn :: toks⟩ :: next) st data a
        = encode_data_loop next st data2 (a + 4 * toks.length) ∧
      (∀ j v, toks.get? j = some v →
        data2 (a + 4 * j) = bits (bits32 (atoi v)) 31 24 ∧
        data2 (a + 4 * j + 1) = bits (bits32 (atoi v)) 23 16 ∧
        data2 (a + 4 * j + 2) = bits (bits32 (atoi v)) 15 8 ∧
        data2 (a + 4 * j + 3) = bits (bits32 (atoi v)) 7 0) ∧
      (∀ i, i < a ∨ a + 4 * toks.length ≤ i → data2 i = data i) := by
  obtain ⟨c, b, f⟩ := word_loop_spec toks data a hfit
  refine ⟨(word_loop toks data a).1, ?_, ?_, b, f⟩
  · rw [← c]
  · rw [encode_data_loop]
    simp only [register_label, c]

/-- C25 as amended, for `word 1, 2` at offset 0. -/
theorem word_stored_msb_first_witness :
    ∃ data2, word_loop ["1", "2"] data_fresh 0 = (data2, 0 + 4 * ["1", "2"].length) ∧
      encode_data_loop [⟨.WORD, none, "word" :: ["1", "2"]⟩] symtab_empty data_fresh 0
        = encode_data_loop [] symtab_empty data2 (0 + 4 * ["1", "2"].length) ∧
      (∀ j v, ["1", "2"].get? j = some v →
        data2 (0 + 4 * j) = bits (bits32 (atoi v)) 31 24 ∧
        data2 (0 + 4 * j + 1) = bits (bits32 (atoi v)) 23 16 ∧
        data2 (0 + 4 * j + 2) = bits (bits32 (atoi v)) 15 8 ∧
        data2 (0 + 4 * j + 3) = bits (bits32 (atoi v)) 7 0) ∧
      (∀ i, i < 0 ∨ 0 + 4 * ["1", "2"].length ≤ i → data2 i = data_fresh i) :=
  word_stored_msb_first symtab_empty "word" ["1", "2"] [] data_fresh 0 (by decide)

/-- C26. `align n` with `0 <= n <= 12` at offset `a` (with `a + 2^n` within the
range of `uint32_t`) leaves the cursor at the smallest multiple of `2^n` that
is at least `a`, stores 0 in every byte from `a` up to that offset and leaves
all other bytes unchanged; at an offset that is a multiple of `2^n` it leaves
the cursor and the segment as they are. The loop of `encode_data` goes on from
there. -/
theorem align_pads_to_multiple (st : Symtab) (mn tok : String) (rest : List String)
    (next : List line) (data : DataSeg) (a n : Nat)
    (htok : to_int32 (atoi tok) = (n : Int)) (hn : n ≤ 12)
    (hfit : a + 2 ^ n ≤ 4294967296) :
    ∃ data2 a2, data_align tok data a = some (data2, a2) ∧
      encode_data_loop (⟨.ALIGN, none, mn :: tok :: rest⟩ :: next) st data a
        = encode_data_loop next st data2 a2 ∧
      a2 % 2 ^ n = 0 ∧ a ≤ a2 ∧ (∀ m, m % 2 ^ n = 0 → a ≤ m → a2 ≤ m) ∧
      (∀ i, a ≤ i → i < a2 → data2 i = 0) ∧
      (∀ i, i < a ∨ a2 ≤ i → data2 i = data i) ∧
      (a % 2 ^ n = 0 → a2 = a ∧ data2 = data) := by
  obtain ⟨p1, p2, p3, p4, p5⟩ := align_up_props n a hn
  have hpos : 0 < 2 ^ n := Nat.two_pow_pos n
  have hdata : data_align tok data a
      = some (fun i => if a ≤ i ∧ i < (a + 2 ^ n - 1) / 2 ^ n * 2 ^ n then 0 else data i,
        (a + 2 ^ n - 1) / 2 ^ n * 2 ^ n) := by
    unfold data_align
    simp only [htok, Int.toNat_ofNat]
    rw [if_pos (by omega), align_next n a hn hfit]
    exact align_loop_spec _ ((a + 2 ^ n - 1) / 2 ^ n * 2 ^ n - a) _ data a (by omega) (by omega)
      (by unfold UINT32_STEPS; omega)
  refine ⟨_, _, hdata, ?_, p1, p2, p4, ?_, ?_, ?_⟩
  · rw [encode_data_loop]
    simp only [register_label, hdata]
  · intro i h1 h2
    simp only [if_pos (And.intro h1 h2)]
  · intro i hi
    have hneg : ¬ (a ≤ i ∧ i < (a + 2 ^ n - 1) / 2 ^ n * 2 ^ n) := by omega
    simp only [if_neg hneg]
  · intro h0
    refine ⟨p5 h0, ?_⟩
    funext i
    have hneg : ¬ (a ≤ i ∧ i < (a + 2 ^ n - 1) / 2 ^ n * 2 ^ n) := by
      rw [p5 h0]
      omega
    simp only [if_neg hneg]

/-- C26, for `align 2` at offset 1. -/
theorem align_pads_to_multiple_witness :
    to_int32 (atoi "2") = ((2 : Nat) : Int) ∧
    ∃ data2 a2, data_align "2" data_fresh 1 = some (data2, a2) ∧
      encode_data_loop (⟨.ALIGN, none, "align" :: "2" :: []⟩ :: []) symtab_empty data_fresh 1
        = encode_data_loop [] symtab_empty data2 a2 ∧
      a2 % 2 ^ 2 = 0 ∧ 1 ≤ a2 ∧ (∀ m, m % 2 ^ 2 = 0 → 1 ≤ m → a2 ≤ m) ∧
      (∀ i, 1 ≤ i → i < a2 → data2 i = 0) ∧
      (∀ i, i < 1 ∨ a2 ≤ i → data2 i = data_fresh i) ∧
      (1 % 2 ^ 2 = 0 → a2 = 1 ∧ data2 = data_fresh) :=
  ⟨by decide,
    align_pads_to_multiple symtab_empty "align" "2" [] [] data_fresh 1 2 (by decide) (by decide)
      (by decide)⟩

/-- C24, amended. `asciiz "s"` at a 4-byte-aligned offset `a`, for a string
`s` without a double quote, stores the characters of `s` from the highest byte
of each 4-byte word downwards: character `j` is at offset
`a + 4*(j/4) + 3 - j mod 4`. The bytes of the last word below the last
character are zero (the whole next word when the length is a multiple of 4),
and the loop of `encode_data` goes on from the new cursor. -/
theorem asciiz_stored_high_lane_first (st : Symtab) (mn : String) (s : List Char)
    (rest : List String) (next : List line) (data : DataSeg) (a : Nat)
    (hq : '"' ∉ s) (ha : a % 4 = 0) (hfit : a + s.length + 8 ≤ 4294967296) :
    ∃ data2 a2, data_asciiz (String.mk ('"' :: (s ++ ['"']))) data a = some (data2, a2) ∧
      encode_data_loop (⟨.ASCIIZ, none, mn :: String.mk ('"' :: (s ++ ['"'])) :: rest⟩ :: next)
          st data a
        = encode_data_loop next st data2 a2 ∧
      (∀ j c, s.get? j = some c → data2 (a + 4 * (j / 4) + (3 - j % 4)) = c.toNat % 256) ∧
      (∀ i, s ≠ [] → a + 4 * (s.length / 4) ≤ i →
        i < a + 4 * (s.length / 4) + (4 - s.length % 4) → data2 i = 0) := by
  obtain ⟨data2, a2, h1, _, h3, h4, _, _⟩ := data_asciiz_spec s data a hq ha hfit
  refine ⟨data2, a2, h1, ?_, h3, h4⟩
  rw [encode_data_loop]
  simp only [register_label, h1]

/-- C24 as amended, for `asciiz "AB"` at offset 0. -/
theorem asciiz_stored_high_lane_first_witness :
    '"' ∉ ['A', 'B'] ∧
    ∃ data2 a2, data_asciiz (String.mk ('"' :: (['A', 'B'] ++ ['"']))) data_fresh 0
        = some (data2, a2) ∧
      encode_data_loop
          (⟨.ASCIIZ, none, "asciiz" :: String.mk ('"' :: (['A', 'B'] ++ ['"'])) :: []⟩ :: [])
          symtab_empty data_fresh 0
        = encode_data_loop [] symtab_empty data2 a2 ∧
      (∀ j c, ['A', 'B'].get? j = some c →
        data2 (0 + 4 * (j / 4) + (3 - j % 4)) = c.toNat % 256) ∧
      (∀ i, ['A', 'B'] ≠ [] → 0 + 4 * (['A', 'B'].length / 4) ≤ i →
        i < 0 + 4 * (['A', 'B'].length / 4) + (4 - ['A', 'B'].length % 4) → data2 i = 0) :=
  ⟨by decide,
    asciiz_stored_high_lane_first symtab_empty "asciiz" ['A', 'B'] [] [] data_fresh 0
      (by decide) (by decide) (by decide)⟩

/-- C29. `asciiz "s"` at a 4-byte-aligned offset `a`, for a string `s` without
a double quote: when `s` is not empty the cursor ends at
`a + 4*(len(s)/4 + 1)` and the bytes from the end of the string's last full
word up to there that hold no character are zero; when `s` is empty nothing is
stored, not even a NUL, and the cursor stays at `a`. Bytes outside the range
from `a` to the new cursor are unchanged. -/
theorem asciiz_cursor_and_padding (st : Symtab) (mn : String) (s : List Char)
    (rest : List String) (next : List line) (data : DataSeg) (a : Nat)
    (hq : '"' ∉ s) (ha : a % 4 = 0) (hfit : a + s.length + 8 ≤ 4294967296) :
    ∃ data2 a2, data_asciiz (String.mk ('"' :: (s ++ ['"']))) data a = some (data2, a2) ∧
      encode_data_loop (⟨.ASCIIZ, none, mn :: String.mk ('"' :: (s ++ ['"'])) :: rest⟩ :: next)
          st data a
        = encode_data_loop next st data2 a2 ∧
      (s ≠ [] → a2 = a + 4 * (s.length / 4 + 1) ∧
        ∀ i, a + 4 * (s.length / 4) ≤ i →
          i < a + 4 * (s.length / 4) + (4 - s.length % 4) → data2 i = 0) ∧
      (s = [] → a2 = a ∧ data2 = data) ∧
      (∀ i, i < a ∨ a2 ≤ i → data2 i = data i) := by
  obtain ⟨data2, a2, h1, h2, _, h4, h5, h6⟩ := data_asciiz_spec s data a hq ha hfit
  refine ⟨data2, a2, h1, ?_, ?_, ?_, h5⟩
  · rw [encode_data_loop]
    simp only [register_label, h1]
  · intro hs
    rw [if_neg hs] at h2
    exact ⟨h2, fun i => h4 i hs⟩
  · intro hs
    rw [if_pos hs] at h2
    exact ⟨h2, h6 hs⟩

/-- C29, for `asciiz ""` at offset 0. -/
theorem asciiz_cursor_and_padding_witness :
    '"' ∉ ([] : List Char) ∧
    ∃ data2 a2, data_asciiz (String.mk ('"' :: ([] ++ ['"']))) data_fresh 0 = some (data2, a2) ∧
      encode_data_loop
          (⟨.ASCIIZ, none, "asciiz" :: String.mk ('"' :: ([] ++ ['"'])) :: []⟩ :: [])
          symtab_empty data_fresh 0
        = encode_data_loop [] symtab_empty data2 a2 ∧
      a2 = 0 ∧ data2 = data_fresh :=
  ⟨by decide,
    (asciiz_cursor_and_padding symtab_empty "asciiz" [] [] [] data_fresh 0
      (by decide) (by decide) (by decide)).imp (fun _ h => h.imp (fun _ k =>
        ⟨k.1, k.2.1, k.2.2.2.1 rfl⟩))⟩

/-- Forward references out of the reach of the prefix comparison and of the
table's capacity. In a text section `.text` followed by instruction lines that
are all base instructions or single-word pseudo-instructions, take a
`beq`/`bne` line at index `i` (after the lines `pre`) whose target `L` is the
label of the line at index `k = i + 1 + |mid|`. Both passes return, the first
pass resolves `L` to `0x00400000 + 4k`, and the word the second pass leaves at
text offset `4i` is the branch with the SB immediate `4(k - i)`, provided that
every line is encoded by its encoder, labels are not empty, there are fewer
than 255 labelled lines, `L` is not a prefix of the label of a line before
`k`, the section fits the address space, the offset fits 13 bits and the
register operands are below 32. -/
theorem forward_branch_resolved (lines pre mid post : List line) (t : linetype)
    (lbl : Option String) (mn a b L s : String) (lk : line) (text0 : TextSeg)
    (hlines : lines = pre ++ ⟨t, lbl, [mn, a, b, L]⟩ :: mid ++ lk :: post)
    (ht : t = .BEQ ∨ t = .BNE) (ha : get_reg a < 32) (hb : get_reg b < 32)
    (hlk : lk.label = some s) (hsL : String.mk s.data.dropLast = L)
    (hall : ∀ l ∈ lines, single_word_line l ∧ line_encodes l)
    (hlab : ∀ l ∈ lines, ∀ x, l.label = some x → x.length ≠ 0)
    (hearlier : ∀ l ∈ pre ++ ⟨t, lbl, [mn, a, b, L]⟩ :: mid, ∀ x, l.label = some x →
      strncmp_zero (String.mk x.data.dropLast) L L.length = false)
    (hcount : labelled lines < TBLSZ)
    (hsize : 0x00400000 + 4 * lines.length < 4294967296)
    (hnear : mid.length + 1 ≤ 1023) :
    ∃ st a1 text tp a2,
      encode_text_first_pass (line_text :: lines) symtab_empty = some (st, a1) ∧
      encode_text_second_pass st (line_text :: lines) text0 = some (text, tp, a2) ∧
      symtab_find_address st L = some (0x00400000 + 4 * (pre.length + 1 + mid.length)) ∧
      sb_immediate (text (4 * pre.length)) = 4 * ((mid.length : Int) + 1) ∧
      bits (text (4 * pre.length)) 24 20 = get_reg b ∧
      bits (text (4 * pre.length)) 19 15 = get_reg a ∧
      bits (text (4 * pre.length)) 14 12 = (if t = .BEQ then 0 else 1) ∧
      bits (text (4 * pre.length)) 6 0 = 0x63 := by
  subst hlines
  have hlen : (pre ++ ⟨t, lbl, [mn, a, b, L]⟩ :: mid ++ lk :: post).length
      = pre.length + 1 + mid.length + 1 + post.length := by
    simp only [List.length_append, List.length_cons]
    omega
  rw [hlen] at hsize
  have hlen1 : (pre ++ ⟨t, lbl, [mn, a, b, L]⟩ :: mid).length = pre.length + 1 + mid.length := by
    simp only [List.length_append, List.length_cons]
    omega
  have hlabd : labelled (pre ++ ⟨t, lbl, [mn, a, b, L]⟩ :: mid ++ lk :: post)
      = labelled (pre ++ ⟨t, lbl, [mn, a, b, L]⟩ :: mid) + 1 + labelled post := by
    rw [labelled_append, labelled_cons_some lk post s hlk]
    omega
  rw [hlabd] at hcount
  have hty : ∀ l ∈ pre ++ ⟨t, lbl, [mn, a, b, L]⟩ :: mid ++ lk :: post,
      NUM_DIRECTIVES ≤ l.type.val := fun l hl => (hall l hl).1.1
  -- first pass, the lines before the labelled line
  obtain ⟨st1, f1, c1, P1⟩ := first_pass_prefix L (pre ++ ⟨t, lbl, [mn, a, b, L]⟩ :: mid)
    (lk :: post) symtab_empty 0
    (fun l hl => hty l (List.mem_append_left _ hl))
    (fun l hl x hx => ⟨hlab l (List.mem_append_left _ hl) x hx, hearlier l hl x hx⟩)
    (by rw [occupied_empty]; simp only [Finset.card_empty]; omega)
    (fun slot l hl => by simp [symtab_empty] at hl)
    (by rw [hlen1]; omega)
  rw [occupied_empty, Finset.card_empty, Nat.zero_add] at c1
  rw [hlen1, Nat.zero_add] at f1
  -- first pass, the labelled line
  have hs0 : s.length ≠ 0 :=
    hlab lk (List.mem_append_right _ (List.mem_cons_self _ _)) s hlk
  have hlkty : NUM_DIRECTIVES ≤ lk.type.val :=
    hty lk (List.mem_append_right _ (List.mem_cons_self _ _))
  have hlknt : lk.type ≠ .TEXT := by
    intro e
    rw [e] at hlkty
    simp [NUM_DIRECTIVES, linetype.val] at hlkty
  have eA : (4 * (pre.length + 1 + mid.length) + 0x00400000) % 4294967296
      = 0x00400000 + 4 * (pre.length + 1 + mid.length) := by omega
  obtain ⟨st2, f2, g2, c2⟩ := symtab_add_fresh st1 L
    (0x00400000 + 4 * (pre.length + 1 + mid.length)) (by omega) P1
  have hreg : register_label st1 lk 0x00400000 (4 * (pre.length + 1 + mid.length))
      = some st2 := by
    simp only [register_label, hlk, if_neg hs0, hsL, eA, f2]
  -- first pass, the lines after it
  obtain ⟨st, a1, f3, g3, c3⟩ := first_pass_suffix L
    (0x00400000 + 4 * (pre.length + 1 + mid.length)) (by omega) post st2
    ((4 * (pre.length + 1 + mid.length) + 4) % 4294967296)
    (fun l hl => hty l (List.mem_append_right _ (List.mem_cons_of_mem _ hl)))
    (fun l hl => hlab l (List.mem_append_right _ (List.mem_cons_of_mem _ hl)))
    (by omega) g2
  have hfirst : encode_text_first_pass
      (line_text :: (pre ++ ⟨t, lbl, [mn, a, b, L]⟩ :: mid ++ lk :: post)) symtab_empty
      = some (st, a1) := by
    have h0 : first_pass_loop
        (line_text :: (pre ++ ⟨t, lbl, [mn, a, b, L]⟩ :: mid ++ lk :: post)) symtab_empty 0
        = first_pass_loop (pre ++ ⟨t, lbl, [mn, a, b, L]⟩ :: mid ++ lk :: post)
          symtab_empty 0 := by
      rw [first_pass_loop]
      simp [register_label, line_text]
    have h1 : first_pass_loop (lk :: post) st1 (4 * (pre.length + 1 + mid.length))
        = first_pass_loop post st2 ((4 * (pre.length + 1 + mid.length) + 4) % 4294967296) := by
      rw [first_pass_loop]
      simp only [hreg, if_neg hlknt, ge_iff_le, hlkty, if_true]
    simp only [encode_text_first_pass, line_text, if_true]
    rw [← line_text, h0, f1, h1, f3]
  have he : has_empty_slot st := has_empty_slot_of_card st (by omega)
  -- second pass
  have hassoc : pre ++ ⟨t, lbl, [mn, a, b, L]⟩ :: mid ++ lk :: post
      = pre ++ (⟨t, lbl, [mn, a, b, L]⟩ :: (mid ++ lk :: post)) := by
    rw [List.append_assoc, List.cons_append]
  obtain ⟨text1, s1, _⟩ := second_pass_prefix st he pre
    (⟨t, lbl, [mn, a, b, L]⟩ :: (mid ++ lk :: post)) text0 0 0
    (fun l hl => hall l (by rw [hassoc]; exact List.mem_append_left _ hl)) (by omega)
  rw [Nat.zero_add] at s1
  obtain ⟨iw, hiw, himm, hrs2, hrs1, hf3, hop⟩ := encode_sb_fmt_immediate st t lbl mn a b L
    (0x00400000 + 4 * pre.length) (0x00400000 + 4 * (pre.length + 1 + mid.length))
    (4 * ((mid.length : Int) + 1)) ht ha hb g3 (by omega) (by push_cast; omega) (by omega)
    (by omega) (by omega)
  obtain ⟨text2, s2, fr2⟩ := second_pass_prefix st he (mid ++ lk :: post) []
    (store_word text1 (4 * pre.length) iw) (4 * pre.length + 4) (4 * pre.length + 4)
    (fun l hl => hall l (by
      rw [hassoc]
      exact List.mem_append_right _ (List.mem_cons_of_mem _ hl)))
    (by simp only [List.length_append, List.length_cons]; omega)
  have epc : (0x00400000 + 4 * pre.length) % 4294967296 = 0x00400000 + 4 * pre.length := by
    omega
  have e4 : (4 * pre.length + 4) % 4294967296 = 4 * pre.length + 4 := by omega
  have hbr : second_pass_loop st (⟨t, lbl, [mn, a, b, L]⟩ :: (mid ++ lk :: post)) text1
      (4 * pre.length) (4 * pre.length)
      = second_pass_loop st (mid ++ lk :: post) (store_word text1 (4 * pre.length) iw)
        (4 * pre.length + 4) (4 * pre.length + 4) := by
    have henc : encode_insn st ⟨t, lbl, [mn, a, b, L]⟩ (0x00400000 + 4 * pre.length)
        = some iw := by
      rcases ht with rfl | rfl <;> simpa only [encode_insn] using hiw
    rw [second_pass_loop]
    rcases ht with rfl | rfl <;>
      simp [linetype.val, NUM_DIRECTIVES, FIRST_PSEUDOINST, epc, henc, e4]
  have hsecond : encode_text_second_pass st
      (line_text :: (pre ++ ⟨t, lbl, [mn, a, b, L]⟩ :: mid ++ lk :: post)) text0
      = some (text2, 4 * pre.length + 4 + 4 * (mid ++ lk :: post).length,
        4 * pre.length + 4 + 4 * (mid ++ lk :: post).length) := by
    have h0 : second_pass_loop st
        (line_text :: (pre ++ ⟨t, lbl, [mn, a, b, L]⟩ :: mid ++ lk :: post)) text0 0 0
        = second_pass_loop st (pre ++ ⟨t, lbl, [mn, a, b, L]⟩ :: mid ++ lk :: post)
          text0 0 0 := by
      rw [second_pass_loop]
      simp [line_text]
    simp only [encode_text_second_pass, line_text, if_true]
    rw [← line_text, h0, hassoc, s1, hbr]
    rw [← List.append_nil (mid ++ lk :: post), s2]
    simp [second_pass_loop]
  refine ⟨st, a1, text2, _, _, hfirst, hsecond, g3, ?_⟩
  have hw : text2 (4 * pre.length) = iw := by
    rw [fr2 _ (by omega)]
    simp [store_word]
  rw [hw]
  exact ⟨himm, hrs2, hrs1, hf3, hop⟩

/-- The section `.text` / `beq x1, x2, END` / `nop` / `END: ret`: the word at
text offset 0 is `0x00208463`, with the SB immediate 8. -/
theorem forward_branch_resolved_witness :
    ((encode_text_first_pass (line_text :: lines_forward_branch) symtab_empty).bind
        (fun r => encode_text_second_pass r.1 (line_text :: lines_forward_branch) text_zero)).map
        (fun r => r.1 0) = some 0x00208463 ∧
    sb_immediate 0x00208463 = 8 ∧
    ∃ st a1 text tp a2,
      encode_text_first_pass (line_text :: lines_forward_branch) symtab_empty = some (st, a1) ∧
      encode_text_second_pass st (line_text :: lines_forward_branch) text_zero
        = some (text, tp, a2) ∧
      symtab_find_address st "END" = some (0x00400000 + 4 * (0 + 1 + 1)) ∧
      sb_immediate (text (4 * 0)) = 4 * (((1 : Nat) : Int) + 1) ∧
      bits (text (4 * 0)) 24 20 = get_reg "x2" ∧
      bits (text (4 * 0)) 19 15 = get_reg "x1" ∧
      bits (text (4 * 0)) 14 12 = (if linetype.BEQ = .BEQ then 0 else 1) ∧
      bits (text (4 * 0)) 6 0 = 0x63 :=
  ⟨by decide, by decide,
    forward_branch_resolved lines_forward_branch [] [⟨.NOP, none, ["nop"]⟩] [] .BEQ none
      "beq" "x1" "x2" "END" "END:" ⟨.RET, some "END:", ["ret"]⟩ text_zero rfl
      (Or.inl rfl) (by decide) (by decide) rfl (by decide)
      (fun l hl => by
        simp only [lines_forward_branch, List.mem_cons, List.mem_singleton, List.mem_nil_iff,
          or_false] at hl
        rcases hl with rfl | rfl | rfl
        · exact ⟨⟨by decide, by decide, by decide⟩,
            line_encodes_branch _ _ _ _ _ _ (Or.inl rfl)⟩
        · exact ⟨⟨by decide, by decide, by decide⟩, line_encodes_nop _ _⟩
        · exact ⟨⟨by decide, by decide, by decide⟩, line_encodes_ret _ _⟩)
      (fun l hl x hx => by
        simp only [lines_forward_branch, List.mem_cons, List.mem_singleton, List.mem_nil_iff,
          or_false] at hl
        rcases hl with rfl | rfl | rfl
        · simp at hx
        · simp at hx
        · simp only [Option.some.injEq] at hx
          subst hx
          decide)
      (fun l hl x hx => by
        simp only [List.nil_append, List.mem_cons, List.mem_singleton, List.mem_nil_iff,
          or_false] at hl
        rcases hl with rfl | rfl
        · simp at hx
        · simp at hx)
      (by decide) (by decide) (by decide)⟩

/-- C11. `.text` / `start0: nop` / `beq x1, x2, start` / `nop` / `start: ret`:
the `beq` is the instruction of index 1 and `start` is the label of the
instruction of index 3, so the SB immediate should be 8. The first pass stores
`start0` at `0x00400000` and drops `start`, which is a prefix of `start0` and
hashes to the same bucket; the lookup of `start` returns `0x00400000`, and the
word the second pass leaves at text offset 4 is `0xFE208EE3`, a `beq` with the
SB immediate -4. -/
theorem forward_branch_resolved_to_prefix_label :
    (encode_text_first_pass prog_prefix_label symtab_empty).map
        (fun r => (symtab_find_address r.1 "start0", symtab_find_address r.1 "start", r.2))
      = some (some 0x00400000, some 0x00400000, 16) ∧
    ((encode_text_first_pass prog_prefix_label symtab_empty).bind
        (fun r => encode_text_second_pass r.1 prog_prefix_label text_zero)).map
        (fun r => (r.1 4, sb_immediate (r.1 4), bits (r.1 4) 6 0, bits (r.1 4) 14 12, r.2))
      = some (0xFE208EE3, -4, 0x63, 0, 16, 16) ∧
    (4 : Int) * (3 - 1) = 8 := by
  decide

end Mas
